import Mathlib

/-!
# pucro: a shallow embedding of the daemon's state machines

The development follows the C sources file by file.

* `config.c`: the rule list and `Config_FindMatchingRule`, `Config_Load`.
* `seat.c`: the seat map of `SeatMonitor` with `AddSeat` and `RemoveSeat`.
* `input.c`: the seat map of `InputMonitor` with `InputMonitor_Add` and
  `InputMonitor_Remove`.
* `dispatch.c`: the doubly linked list of `DispatcherProcess` objects, with the
  pointer updates of `AddProcess` and `RemoveProcess` kept as they are written,
  `Dispatcher_RunAsUser`, `Dispatcher_Free` and `GetUnitName`.
* `pucro.c`: the callbacks `OnAddedSeat`, `OnRemovedSeat`, `OnInputEvent` and
  `LookupRuleAndDispatch`.

Conventions.  A C string (`char *`) is the list of its characters before the
terminating NUL, so a character of a string is a positive number.  A pointer
is `Option Nat`: `none` is `NULL`, `some a` is the address `a`.  Calls into
libraries (libconfuse, sd-event, libinput, `fork`, `kill`) take their results
as arguments of the embedded function.  Logging is left out: it changes no
state that the program reads.
-/

namespace Pucro

/-! ## C strings -/

/-- A character of a C string: a byte other than the terminating NUL. -/
abbrev CChar := ℕ+

/-- A C string: the characters before the terminating NUL. -/
abbrev Str := List CChar

/-- The C string of a literal, for examples. -/
def str (s : String) : Str := s.toList.map (fun c => Nat.toPNat' c.toNat)

/-- The libc function `tolower` in the "C" locale (the daemon never calls
`setlocale`): `'A'..'Z'` (65..90) go to `'a'..'z'`, everything else is kept. -/
def tolower (c : CChar) : CChar :=
  if 65 ≤ c.val ∧ c.val ≤ 90 then ⟨c.val + 32, Nat.succ_pos _⟩ else c

/-- The libc function `strcasecmp`: walk both strings while the lowered
characters agree; the result is the difference of the first pair of lowered
characters that differ (the terminator counts as 0), and 0 when both strings
end together. -/
def strcasecmp : Str → Str → Int
  | [], [] => 0
  | [], b :: _ => 0 - ((tolower b).val : Int)
  | a :: _, [] => ((tolower a).val : Int) - 0
  | a :: s1, b :: s2 =>
    if ((tolower a).val : Int) - ((tolower b).val : Int) = 0 then strcasecmp s1 s2
    else ((tolower a).val : Int) - ((tolower b).val : Int)

/-! ## config.c -/

/-- The struct `ConfigRule`; the `next` link is the tail of the list that holds
the rule. -/
structure ConfigRule where
  buttons : List Str
  users : List Str
  action : Str
  deriving DecidableEq, Repr

/-- The struct `Config`: `rules` is the linked list starting at
`config->rules`, in link order. -/
structure Config where
  rules : List ConfigRule
  deriving DecidableEq, Repr

/-- The loop of `StrvContainsIgnoreCase` over a NULL-terminated array. -/
def StrvContainsIgnoreCase : List Str → Str → Bool
  | [], _ => false
  | s :: strv, item =>
    if strcasecmp s item = 0 then true else StrvContainsIgnoreCase strv item

/-- The loop of `Config_FindMatchingRule`, started at a list node. -/
def findFrom : List ConfigRule → Str → Str → Option ConfigRule
  | [], _, _ => none
  | rule :: next, user, button =>
    if StrvContainsIgnoreCase rule.users user &&
        StrvContainsIgnoreCase rule.buttons button then some rule
    else findFrom next user button

/-- The function `Config_FindMatchingRule`; `none` is the NULL result. -/
def Config_FindMatchingRule (config : Config) (user button : Str) : Option ConfigRule :=
  findFrom config.rules user button

/-- One `rule { ... }` section as libconfuse hands it out: `buttons` and
`users` through `cfg_size`/`cfg_getnstr`, `action` through `cfg_getstr`, which
is NULL (`none`) when the section has no `action` (the option is declared with
`CFGF_NODEFAULT`). -/
structure RuleSection where
  buttons : List Str
  users : List Str
  action : Option Str
  deriving DecidableEq, Repr

/-- The function `StrDup`: a fresh copy of the string. -/
def StrDup (s : Str) : Str := s

/-- The function `CfgStringListToStrv`: copy each value of a string list. -/
def CfgStringListToStrv (values : List Str) : List Str := values.map StrDup

/-- The loop of `Config_Load` over the `rule` sections in file order: each new
rule is linked in front of `new_config.rules`.  The result is `none` when
`StrDup` is handed the NULL of a missing `action` (the process dies in
`strlen`). -/
def loadSections : List RuleSection → List ConfigRule → Option (List ConfigRule)
  | [], new_rules => some new_rules
  | rule_cfg :: rest, new_rules =>
    match rule_cfg.action with
    | none => none
    | some action =>
      loadSections rest
        ({ buttons := CfgStringListToStrv rule_cfg.buttons,
           users := CfgStringListToStrv rule_cfg.users,
           action := StrDup action } :: new_rules)

/-- The function `Config_Load`.  The argument `parsed` is the outcome of
`cfg_parse` on the rule file: `none` when it does not return `CFG_SUCCESS`,
otherwise the `rule` sections in file order.  The result is the returned
`bool` with the configuration afterwards, or `none` when the process dies
(see `loadSections`). -/
def Config_Load (parsed : Option (List RuleSection)) (config : Config) :
    Option (Bool × Config) :=
  match parsed with
  | none => some (false, config)
  | some sections =>
    match loadSections sections [] with
    | none => none
    | some new_rules => some (true, { rules := new_rules })

/-- The messages handed to `sd_notify`. -/
inductive Notify where
  | RELOADING
  | READY
  deriving DecidableEq, Repr

/-- The handler `ReloadConfigOnSigHup` of pucro.c: the value returned to the
event loop, the configuration afterwards and the notifications sent, or
`none` when the process dies inside `Config_Load`. -/
def ReloadConfigOnSigHup (parsed : Option (List RuleSection)) (config : Config) :
    Option (Int × Config × List Notify) :=
  match Config_Load parsed config with
  | none => none
  | some (_, config') => some (0, config', [Notify.RELOADING, Notify.READY])

/-! ### Matching, stated without the loops -/

/-- Two strings are equal up to the case of ASCII letters. -/
def EqIgnoreCase (a b : Str) : Prop := a.map tolower = b.map tolower

/-- A rule matches a user and a button: its users list holds the user and its
buttons list holds the button, both up to case. -/
def RuleMatches (rule : ConfigRule) (user button : Str) : Prop :=
  (∃ u ∈ rule.users, EqIgnoreCase u user) ∧ (∃ b ∈ rule.buttons, EqIgnoreCase b button)

/-- The rule that `Config_Load` builds from a section, when the section has an
action. -/
def sectionOf (rule : ConfigRule) : RuleSection :=
  { buttons := rule.buttons, users := rule.users, action := some rule.action }

instance (a b : Str) : Decidable (EqIgnoreCase a b) :=
  inferInstanceAs (Decidable (a.map tolower = b.map tolower))

instance (rule : ConfigRule) (user button : Str) : Decidable (RuleMatches rule user button) :=
  inferInstanceAs (Decidable ((∃ u ∈ rule.users, EqIgnoreCase u user) ∧
    (∃ b ∈ rule.buttons, EqIgnoreCase b button)))

/-- A first rule of an example file. -/
def exampleRule1 : ConfigRule :=
  { buttons := [str "LEFT"], users := [str "alice"], action := str "notify-send hi" }

/-- A second rule of an example file, matching alice and LEFT as well. -/
def exampleRule2 : ConfigRule :=
  { buttons := [str "left", str "RIGHT"], users := [str "Alice", str "bob"],
    action := str "notify-send bye" }

/-- A rule with an empty users list. -/
def exampleRule3 : ConfigRule :=
  { buttons := [str "LEFT"], users := [], action := str "true" }

/-! ## uthash.h

The hash tables of `seat.c` and `input.c` are uthash tables keyed by a string
field.  A table is the list of its items in insertion order. -/

/-- The macro `HASH_FIND_STR`: the item whose key field equals the string, or
`none` (NULL). -/
def HASH_FIND_STR {α : Type} (key : α → Str) (head : List α) (findstr : Str) : Option α :=
  head.find? (fun item => decide (key item = findstr))

/-- The macro `HASH_ADD_STR`: link the item into the table. -/
def HASH_ADD_STR {α : Type} (head : List α) (add : α) : List α := head ++ [add]

/-- The macro `HASH_DEL`: unlink the item from the table. -/
def HASH_DEL {α : Type} [DecidableEq α] (head : List α) (delptr : α) : List α :=
  head.erase delptr

/-! ## seat.c -/

/-- The struct `SeatMonitorSeat` (the hash handle is the membership in the
table). -/
structure SeatMonitorSeat where
  id : Str
  object : Str
  deriving DecidableEq, Repr

/-- The struct `SeatMonitor`, without the bus connection.  The callbacks get the
seat and the user data; what they do to the user data is their effect. -/
structure SeatMonitor (U : Type) where
  seats : List SeatMonitorSeat
  on_seat_added : Option (SeatMonitorSeat → U → U)
  on_seat_removed : Option (SeatMonitorSeat → U → U)
  userdata : U

/-- The guarded call `if (callback) callback(monitor, seat, userdata)`. -/
def callIfSet {U : Type} (callback : Option (SeatMonitorSeat → U → U))
    (seat : SeatMonitorSeat) (userdata : U) : U :=
  match callback with
  | none => userdata
  | some f => f seat userdata

/-- The function `SeatMonitor_FindSeat`. -/
def SeatMonitor_FindSeat {U : Type} (monitor : SeatMonitor U) (seat_id : Str) :
    Option SeatMonitorSeat :=
  HASH_FIND_STR SeatMonitorSeat.id monitor.seats seat_id

/-- The function `AddSeat` of seat.c. -/
def AddSeat {U : Type} (monitor : SeatMonitor U) (seat_id seat_object : Str) : SeatMonitor U :=
  match HASH_FIND_STR SeatMonitorSeat.id monitor.seats seat_id with
  | some _ => monitor
  | none =>
    let seat : SeatMonitorSeat := { id := StrDup seat_id, object := StrDup seat_object }
    { monitor with
      seats := HASH_ADD_STR monitor.seats seat,
      userdata := callIfSet monitor.on_seat_added seat monitor.userdata }

/-- The function `RemoveSeat` of seat.c. -/
def RemoveSeat {U : Type} (monitor : SeatMonitor U) (seat_id : Str) : SeatMonitor U :=
  match HASH_FIND_STR SeatMonitorSeat.id monitor.seats seat_id with
  | none => monitor
  | some found =>
    { monitor with
      seats := HASH_DEL monitor.seats found,
      userdata := callIfSet monitor.on_seat_removed found monitor.userdata }

/-- A callback that counts its calls, for examples. -/
def countCall (_ : SeatMonitorSeat) (n : Nat) : Nat := n + 1

/-- A monitor with one seat and counting callbacks, for examples. -/
def exampleSeatMonitor : SeatMonitor Nat :=
  { seats := [{ id := str "seat0", object := str "/org/freedesktop/login1/seat/seat0" }],
    on_seat_added := some countCall, on_seat_removed := some countCall, userdata := 0 }

/-! ## input.c -/

/-- The struct `InputMonitorSeat`: the libinput context and the event source
are handles (`none` is NULL). -/
structure InputMonitorSeat where
  seat_id : Str
  libinput : Option Nat
  source : Option Nat
  deriving DecidableEq, Repr

/-- The struct `InputMonitor`: the seat table.  The fields `event`, `udev`,
`on_input_event` and `userdata` are not written by `InputMonitor_Add`. -/
structure InputMonitor where
  seats : List InputMonitorSeat
  deriving DecidableEq, Repr

/-- The library calls `InputMonitor_Add` can make, in the order made. -/
inductive InputCall where
  | libinput_udev_create_context
  | libinput_udev_assign_seat (libinput : Nat) (seat_id : Str)
  | libinput_get_fd (libinput : Nat)
  | sd_event_add_io (fd : Int)
  | libinput_unref (libinput : Nat)
  | sd_event_source_disable_unref (source : Option Nat)
  deriving DecidableEq, Repr

/-- What the libraries answer during one `InputMonitor_Add`. -/
structure InputEnv where
  /-- The context from `libinput_udev_create_context`, `none` for NULL. -/
  create_context : Option Nat
  /-- The result of `libinput_udev_assign_seat`. -/
  assign_seat : Int
  /-- The result of `libinput_get_fd`. -/
  fd : Int
  /-- The result of `sd_event_add_io`. -/
  add_io : Int
  /-- The event source `sd_event_add_io` stores when it succeeds. -/
  source : Nat

/-- The function `InputMonitor_Add`: the returned `bool`, the monitor
afterwards and the library calls made.  A `return NULL` in a function
returning `bool` is `false`.  On the failure paths the cleanup attributes
release what was acquired. -/
def InputMonitor_Add (monitor : InputMonitor) (seat_id : Str) (env : InputEnv) :
    Bool × InputMonitor × List InputCall :=
  match HASH_FIND_STR InputMonitorSeat.seat_id monitor.seats seat_id with
  | some _ => (false, monitor, [])
  | none =>
    match env.create_context with
    | none => (false, monitor, [InputCall.libinput_udev_create_context])
    | some libinput =>
      if env.assign_seat = -1 then
        (false, monitor,
          [InputCall.libinput_udev_create_context,
           InputCall.libinput_udev_assign_seat libinput seat_id,
           InputCall.libinput_unref libinput])
      else if env.add_io < 0 then
        (false, monitor,
          [InputCall.libinput_udev_create_context,
           InputCall.libinput_udev_assign_seat libinput seat_id,
           InputCall.libinput_get_fd libinput,
           InputCall.sd_event_add_io env.fd,
           InputCall.libinput_unref libinput,
           InputCall.sd_event_source_disable_unref none])
      else
        let seat : InputMonitorSeat :=
          { seat_id := StrDup seat_id, libinput := some libinput, source := some env.source }
        (true, { monitor with seats := HASH_ADD_STR monitor.seats seat },
          [InputCall.libinput_udev_create_context,
           InputCall.libinput_udev_assign_seat libinput seat_id,
           InputCall.libinput_get_fd libinput,
           InputCall.sd_event_add_io env.fd])

/-- An input monitor with `seat0` registered, for examples. -/
def exampleInputMonitor : InputMonitor :=
  { seats := [{ seat_id := str "seat0", libinput := some 1, source := some 2 }] }

/-! ## dispatch.c

The `DispatcherProcess` objects live in a memory that is the list of all
objects `Alloc` has handed out, an object's address being its index (an
address is never handed out twice).  The event sources of the `sd_event` loop
are kept the same way, a source's handle being its index. -/

/-- The constant `kDispatchTimeoutSec`. -/
def kDispatchTimeoutSec : Int := 5

/-- The constant `kUsecPerSec`. -/
def kUsecPerSec : Int := 1000000

/-- The product of two `int` values as a 32-bit machine computes it. -/
def int_mul (a b : Int) : Int := (a * b + 2 ^ 31) % 2 ^ 32 - 2 ^ 31

/-- The conversion of an `int` to `uint64_t`. -/
def to_uint64 (a : Int) : Nat := (a % 2 ^ 64).toNat

/-- The signal number `SIGKILL`. -/
def SIGKILL : Int := 9

/-- The clock id `CLOCK_MONOTONIC`. -/
def CLOCK_MONOTONIC : Int := 1

/-- The `waitid` option `WEXITED`. -/
def WEXITED : Int := 4

/-- The struct `DispatcherProcess`.  The field `dispatcher` is true when the
pointer is set (there is one dispatcher) and false when it is NULL. -/
structure DispatcherProcess where
  pid : Int
  timer_event : Option Nat
  death_event : Option Nat
  dispatcher : Bool
  prev : Option Nat
  next : Option Nat
  deriving DecidableEq, Repr

/-- What an event source was registered for: `sd_event_add_time_relative` with
the callback `OnTimerExpiration`, or `sd_event_add_child` with the callback
`OnProcessDeath`. -/
inductive SourceKind where
  | time (clock : Int) (usec : Nat) (accuracy : Nat)
  | child (pid : Int) (options : Int)
  deriving DecidableEq, Repr

/-- An `sd_event_source`: its registration, the `userdata` pointer handed to
the callback, and whether the loop may still fire it. -/
structure EventSource where
  kind : SourceKind
  userdata : Nat
  enabled : Bool
  deriving DecidableEq, Repr

/-- The struct `Dispatcher` (`processes` is the head of the list) together
with what its functions act on: the memory of process objects, the addresses
handed to `free` (in call order), the sources of the event loop and the
`kill` calls made (pid and signal, in call order). -/
structure Dispatcher where
  processes : Option Nat
  memory : List DispatcherProcess
  freed : List Nat
  sources : List EventSource
  kills : List (Int × Int)
  deriving DecidableEq, Repr

/-- A write through a pointer: the object at the address is replaced by `f` of
it. -/
def store (memory : List DispatcherProcess) (address : Nat)
    (f : DispatcherProcess → DispatcherProcess) : List DispatcherProcess :=
  match memory[address]? with
  | some object => memory.set address (f object)
  | none => memory

/-- The function `Dispatcher_New`: `Alloc` zeroes the object. -/
def Dispatcher_New : Dispatcher :=
  { processes := none, memory := [], freed := [], sources := [], kills := [] }

/-- The function `AddProcess`. -/
def AddProcess (d : Dispatcher) (process : Nat) : Dispatcher :=
  let memory1 := store d.memory process
    (fun object => { object with dispatcher := true, next := d.processes })
  let memory2 :=
    match d.processes with
    | some next => store memory1 next (fun object => { object with prev := some process })
    | none => memory1
  { d with memory := memory2, processes := some process }

/-- The function `RemoveProcess`, with `assert` compiled in (`NDEBUG` is not
defined anywhere in the sources): the result is `none` when the assertion
fails and the process aborts, or when a NULL or wild pointer is followed.
Each field is read from the memory as it is at that statement. -/
def RemoveProcess (d : Dispatcher) (process : Nat) : Option Dispatcher :=
  match d.memory[process]? with
  | none => none
  | some object0 =>
    let memory1 :=
      match object0.next with
      | some next => store d.memory next (fun object => { object with prev := none })
      | none => d.memory
    match memory1[process]? with
    | none => none
    | some object1 =>
      let unlinked : Option (List DispatcherProcess × Option Nat) :=
        match object1.prev with
        | some prev =>
          some (store memory1 prev (fun object => { object with next := none }), d.processes)
        | none =>
          if object1.dispatcher = true ∧ d.processes = some process then
            some (memory1, object1.next)
          else none
      match unlinked with
      | none => none
      | some (memory2, processes2) =>
        some { d with
          processes := processes2,
          memory := store memory2 process
            (fun object => { object with dispatcher := false, prev := none, next := none }) }

/-- The call `sd_event_source_disable_unref`: nothing for NULL, otherwise the
source can no longer fire. -/
def sd_event_source_disable_unref (sources : List EventSource) (source : Option Nat) :
    List EventSource :=
  match source with
  | none => sources
  | some handle =>
    match sources[handle]? with
    | some s => sources.set handle { s with enabled := false }
    | none => sources

/-- The function `DispatcherProcess_Free`. -/
def DispatcherProcess_Free (d : Dispatcher) (process : Nat) : Dispatcher :=
  match d.memory[process]? with
  | none => d
  | some object =>
    { d with
      sources := sd_event_source_disable_unref
        (sd_event_source_disable_unref d.sources object.death_event) object.timer_event,
      freed := d.freed ++ [process] }

/-- The callback `OnTimerExpiration`; `kill_result` is what `kill` returns. -/
def OnTimerExpiration (d : Dispatcher) (process : Nat) (kill_result : Int) : Option Dispatcher :=
  match d.memory[process]? with
  | none => none
  | some object =>
    let d1 := { d with kills := d.kills ++ [(object.pid, SIGKILL)] }
    if kill_result = -1 then some d1
    else
      match RemoveProcess d1 process with
      | none => none
      | some d2 => some (DispatcherProcess_Free d2 process)

/-- The callback `OnProcessDeath`. -/
def OnProcessDeath (d : Dispatcher) (process : Nat) : Option Dispatcher :=
  match RemoveProcess d process with
  | none => none
  | some d2 => some (DispatcherProcess_Free d2 process)

/-- What the system answers during one `Dispatcher_RunAsUser`. -/
structure DispatchEnv where
  /-- The value `fork` returns. -/
  fork : Int
  /-- In the child: what `RunAsUser` returns for the command and the user. -/
  run_as_user : Str → Str → Bool
  /-- The result of `sd_event_add_time_relative`. -/
  add_time_relative : Int
  /-- The result of `sd_event_add_child`. -/
  add_child : Int

/-- How a call of `Dispatcher_RunAsUser` ends: it returns, or (in the child) the
process exits. -/
inductive RunResult where
  | returned (ok : Bool) (d : Dispatcher)
  | exited (status : Int)
  deriving DecidableEq, Repr

/-- The function `Dispatcher_RunAsUser`.  On the failure path after `fork` the
cleanup attributes drop the timer source (if it was registered) and free the
process object. -/
def Dispatcher_RunAsUser (d : Dispatcher) (command user : Str) (env : DispatchEnv) : RunResult :=
  if env.fork = -1 then RunResult.returned false d
  else if env.fork = 0 then
    if env.run_as_user command user then RunResult.exited 0 else RunResult.exited 1
  else
    let process := d.memory.length
    let object : DispatcherProcess :=
      { pid := env.fork, timer_event := none, death_event := none, dispatcher := false,
        prev := none, next := none }
    let timer : EventSource :=
      { kind := SourceKind.time CLOCK_MONOTONIC
          (to_uint64 (int_mul kDispatchTimeoutSec kUsecPerSec)) 0,
        userdata := process, enabled := true }
    let death : EventSource :=
      { kind := SourceKind.child env.fork WEXITED, userdata := process, enabled := true }
    if env.add_time_relative < 0 then
      RunResult.returned false
        { d with
          memory := d.memory ++ [object],
          kills := d.kills ++ [(env.fork, SIGKILL)],
          freed := d.freed ++ [process] }
    else if env.add_child < 0 then
      RunResult.returned false
        { d with
          memory := d.memory ++ [object],
          sources := d.sources ++ [{ timer with enabled := false }],
          kills := d.kills ++ [(env.fork, SIGKILL)],
          freed := d.freed ++ [process] }
    else
      let timer_event := d.sources.length
      let death_event := d.sources.length + 1
      let d1 : Dispatcher :=
        { d with
          memory := d.memory ++
            [{ object with timer_event := some timer_event, death_event := some death_event }],
          sources := d.sources ++ [timer, death] }
      RunResult.returned true (AddProcess d1 process)

/-- One turn of the event loop on the dispatcher's sources.  Both kinds of
source are registered one-shot (the sd-event default), so the loop switches
the source off before it calls the callback. -/
inductive Event where
  | dispatch (command user : Str) (env : DispatchEnv)
  | fire (source : Nat) (kill_result : Int)

/-- The source with this handle, when the loop may fire it. -/
def armed (d : Dispatcher) (source : Nat) : Option EventSource :=
  match d.sources[source]? with
  | some s => if s.enabled then some s else none
  | none => none

/-- The loop fires a source: `none` when the source is not armed, and when the
callback aborts the process. -/
def sd_event_dispatch (d : Dispatcher) (source : Nat) (kill_result : Int) : Option Dispatcher :=
  match armed d source with
  | none => none
  | some s =>
    let d1 := { d with sources := sd_event_source_disable_unref d.sources (some source) }
    match s.kind with
    | SourceKind.time _ _ _ => OnTimerExpiration d1 s.userdata kill_result
    | SourceKind.child _ _ => OnProcessDeath d1 s.userdata

/-- One step of the daemon on the dispatcher: a call of `Dispatcher_RunAsUser`
that returns in the parent, or a source firing. -/
def step (d : Dispatcher) : Event → Option Dispatcher
  | Event.dispatch command user env =>
    match Dispatcher_RunAsUser d command user env with
    | RunResult.returned _ d1 => some d1
    | RunResult.exited _ => none
  | Event.fire source kill_result => sd_event_dispatch d source kill_result

/-- A run of steps. -/
def run : List Event → Dispatcher → Option Dispatcher
  | [], d => some d
  | e :: es, d =>
    match step d e with
    | none => none
    | some d1 => run es d1

/-- The states the dispatcher can be in: those a run of steps reaches from
`Dispatcher_New`. -/
def Reachable (d : Dispatcher) : Prop := ∃ es, run es Dispatcher_New = some d

/-- Follow `next` from a pointer, for at most `fuel` objects. -/
def walk (memory : List DispatcherProcess) : Nat → Option Nat → List Nat
  | 0, _ => []
  | _ + 1, none => []
  | fuel + 1, some process =>
    process ::
      (match memory[process]? with
       | some object => walk memory fuel object.next
       | none => [])

/-- The tracked list: the addresses reached from `dispatcher->processes`
through `next` (the list `Dispatcher_Free` walks). -/
def tracked (d : Dispatcher) : List Nat := walk d.memory d.memory.length d.processes

/-- A system in which `fork` gives this pid and both registrations succeed. -/
def forkOk (pid : Int) : DispatchEnv :=
  { fork := pid, run_as_user := fun _ _ => true, add_time_relative := 0, add_child := 0 }

/-- Three helpers are dispatched: pids 101, 102, 103 at addresses 0, 1, 2 with
timer sources 0, 2, 4 and exit watchers 1, 3, 5. -/
def threeDispatched : List Event :=
  [Event.dispatch (str "true") (str "alice") (forkOk 101),
   Event.dispatch (str "true") (str "alice") (forkOk 102),
   Event.dispatch (str "true") (str "alice") (forkOk 103)]

/-! ### The invariant of the dispatcher's states -/

/-- The objects `l`, in this order, form a stretch of a doubly linked list:
`start` points to the first, each `next` points to the following one, the last
`next` is `finish`; the first `prev` is `before` and each later `prev` points
to the object in front.  Every object of the stretch has its `dispatcher`
pointer set. -/
def Linked (memory : List DispatcherProcess) :
    Option Nat → Option Nat → List Nat → Option Nat → Prop
  | _, start, [], finish => start = finish
  | before, start, p :: l, finish =>
    start = some p ∧
      ∃ object, memory[p]? = some object ∧ object.prev = before ∧ object.dispatcher = true ∧
        Linked memory (some p) object.next l finish

/-- The pointer to the last object of a stretch, or `before` for an empty
stretch. -/
def lastOr (before : Option Nat) : List Nat → Option Nat
  | [] => before
  | p :: l => lastOr (some p) l

/-- The invariant of the dispatcher's states, for the list `l` of the tracked
objects in list order. -/
structure Inv (d : Dispatcher) (l : List Nat) : Prop where
  /-- The list from `dispatcher->processes` is `l`, doubly linked. -/
  linked : Linked d.memory none d.processes l none
  /-- No object is in the list twice. -/
  nodup : l.Nodup
  /-- An object outside the list points to no object of the list. -/
  outside : ∀ (p : Nat) (object : DispatcherProcess), d.memory[p]? = some object → p ∉ l →
    (∀ n : Nat, object.next = some n → n ∉ l) ∧ (∀ n : Nat, object.prev = some n → n ∉ l)
  /-- No `next` points to the object itself. -/
  noself : ∀ (p : Nat) (object : DispatcherProcess), d.memory[p]? = some object → object.next ≠ some p
  /-- Pointers point to allocated objects. -/
  bounds : ∀ (p : Nat) (object : DispatcherProcess), d.memory[p]? = some object →
    (∀ n, object.next = some n → n < d.memory.length) ∧
      (∀ n, object.prev = some n → n < d.memory.length)
  /-- Only allocated objects were freed. -/
  freed_lt : ∀ p ∈ d.freed, p < d.memory.length
  /-- No object was freed twice. -/
  freed_nodup : d.freed.Nodup
  /-- No object of the list was freed. -/
  live : ∀ p ∈ l, p ∉ d.freed
  /-- A source that can fire belongs to an object that was not freed and that
  holds the source as its timer or its exit watcher. -/
  owner : ∀ (h : Nat) (s : EventSource), d.sources[h]? = some s → s.enabled = true →
    s.userdata ∉ d.freed ∧
      ∃ object : DispatcherProcess, d.memory[s.userdata]? = some object ∧
        (object.timer_event = some h ∨ object.death_event = some h)

/-- The object at `y` after `RemoveProcess` of an object `c`, for `y` another
address: `prev` is cleared if `c->next` is `y`, `next` is cleared if `c->prev`
is `y`. -/
def unlinkFrom (c : DispatcherProcess) (y : Nat) (cy : DispatcherProcess) : DispatcherProcess :=
  { cy with
    prev := if c.next = some y then none else cy.prev,
    next := if c.prev = some y then none else cy.next }

/-- The object `Dispatcher_RunAsUser` allocates, as it is when it is handed to
`AddProcess`. -/
def newObject (d : Dispatcher) (pid : Int) : DispatcherProcess :=
  { pid := pid, timer_event := some d.sources.length,
    death_event := some (d.sources.length + 1), dispatcher := false, prev := none, next := none }

/-- The timer source `Dispatcher_RunAsUser` registers. -/
def newTimer (d : Dispatcher) : EventSource :=
  { kind := SourceKind.time CLOCK_MONOTONIC (to_uint64 (int_mul kDispatchTimeoutSec kUsecPerSec)) 0,
    userdata := d.memory.length, enabled := true }

/-- The exit watcher `Dispatcher_RunAsUser` registers. -/
def newDeath (d : Dispatcher) (pid : Int) : EventSource :=
  { kind := SourceKind.child pid WEXITED, userdata := d.memory.length, enabled := true }

/-- The state in which `Dispatcher_RunAsUser` calls `AddProcess`. -/
def registered (d : Dispatcher) (pid : Int) : Dispatcher :=
  { d with
    memory := d.memory ++ [newObject d pid],
    sources := d.sources ++ [newTimer d, newDeath d pid] }

/-! ### `Dispatcher_Free` and the child's unit name -/

/-- The loop of `Dispatcher_Free`: `next` is read before the object is handed
to `DispatcherProcess_Free`; the loop runs for at most `fuel` objects. -/
def freeLoop : Nat → Dispatcher → Option Nat → Dispatcher
  | 0, d, _ => d
  | _ + 1, d, none => d
  | fuel + 1, d, some process =>
    match d.memory[process]? with
    | none => d
    | some to_free => freeLoop fuel (DispatcherProcess_Free d process) to_free.next

/-- The function `Dispatcher_Free`, up to the release of the event loop
reference and of the dispatcher object itself.  The fuel is the number of
allocated objects, which is enough for a list without a cycle. -/
def Dispatcher_Free (d : Dispatcher) : Dispatcher :=
  freeLoop d.memory.length d d.processes

/-- The libc function `strchr` for a character other than NUL: the string from
the first occurrence of the character on, or `none` (NULL) when there is
none. -/
def strchr : Str → CChar → Option Str
  | [], _ => none
  | a :: s, c => if a = c then some (a :: s) else strchr s c

/-- The function `GetUnitName` of dispatch.c.  The argument is what
`sd_bus_get_unique_name` gives for the bus: `none` when it fails, otherwise the
unique name.  The result is `none` for NULL. -/
def GetUnitName (unique_name : Option Str) : Option Str :=
  match unique_name with
  | none => none
  | some name =>
    match strchr name 46 with
    | none => none
    | some name_suffix =>
      match name_suffix.tail with
      | [] => none
      | c :: rest => some (str "pucro-" ++ (c :: rest) ++ str ".service")

/-- The `StartTransientUnit` call that `RunCommandAsTransientUnit` sends: the
unit name, the mode, and `ExecStart` with its path and argument vector. -/
structure StartTransientUnit where
  unit_name : Str
  mode : Str
  path : Str
  argv : List Str
  deriving DecidableEq, Repr

/-- The function `RunCommandAsTransientUnit`: the returned `bool` and the
method calls made on the bus; `call_result` is what `sd_bus_call_method`
returns. -/
def RunCommandAsTransientUnit (unique_name : Option Str) (shell command : Str)
    (call_result : Int) : Bool × List StartTransientUnit :=
  match GetUnitName unique_name with
  | none => (false, [])
  | some unit_name =>
    let call : StartTransientUnit :=
      { unit_name := unit_name, mode := str "replace", path := shell,
        argv := [shell, str "-c", command] }
    if call_result < 0 then (false, [call]) else (true, [call])

/-! ## input.c, continued -/

/-- The function `InputMonitorSeat_Free`: the library calls it makes. -/
def InputMonitorSeat_Free (seat : InputMonitorSeat) : List InputCall :=
  (match seat.libinput with
   | some libinput => [InputCall.libinput_unref libinput]
   | none => []) ++
  [InputCall.sd_event_source_disable_unref seat.source]

/-- The function `InputMonitor_Remove`: the returned `bool`, the monitor
afterwards and the library calls made. -/
def InputMonitor_Remove (monitor : InputMonitor) (seat_id : Str) :
    Bool × InputMonitor × List InputCall :=
  match HASH_FIND_STR InputMonitorSeat.seat_id monitor.seats seat_id with
  | none => (false, monitor, [])
  | some found =>
    (true, { monitor with seats := HASH_DEL monitor.seats found }, InputMonitorSeat_Free found)

/-- An input monitor with `seat0` and `seat1` registered, for examples. -/
def exampleInputMonitor2 : InputMonitor :=
  { seats := [{ seat_id := str "seat0", libinput := some 1, source := some 2 },
              { seat_id := str "seat1", libinput := some 3, source := some 4 }] }

/-! ## pucro.c -/

/-- The struct `EventHandlerData`, as far as the callbacks of pucro.c use it:
the input monitor and the dispatcher.  The struct and the seat monitor point to
each other (the struct is the seat monitor's user data), so the daemon's state
is the seat monitor with this struct as user data.  The last two fields are
what libinput and sd-event answer to the `InputMonitor_Add` calls, by number of
the call, and the number of calls so far. -/
structure EventHandlerData where
  input_monitor : InputMonitor
  dispatcher : Dispatcher
  answers : Nat → InputEnv
  asked : Nat

/-- The callback `OnAddedSeat`. -/
def OnAddedSeat (seat : SeatMonitorSeat) (handler_data : EventHandlerData) : EventHandlerData :=
  { handler_data with
    input_monitor :=
      (InputMonitor_Add handler_data.input_monitor seat.id
        (handler_data.answers handler_data.asked)).2.1,
    asked := handler_data.asked + 1 }

/-- The callback `OnRemovedSeat`. -/
def OnRemovedSeat (seat : SeatMonitorSeat) (handler_data : EventHandlerData) :
    EventHandlerData :=
  { handler_data with
    input_monitor := (InputMonitor_Remove handler_data.input_monitor seat.id).2.1 }

/-- A `SeatNew` or `SeatRemoved` signal of logind: whether the member is
`SeatNew`, and the seat id and object path read from the message (`none` when
`sd_bus_message_read` fails). -/
structure SeatSignal where
  is_new : Bool
  args : Option (Str × Str)

/-- The function `OnNewOrRemovedSeat` of seat.c. -/
def OnNewOrRemovedSeat {U : Type} (monitor : SeatMonitor U) (signal : SeatSignal) :
    SeatMonitor U :=
  match signal.args with
  | none => monitor
  | some (seat_id, seat_object) =>
    if signal.is_new then AddSeat monitor seat_id seat_object
    else RemoveSeat monitor seat_id

/-- The seat monitor as `Run` sets it up before `SeatMonitor_Start`: no seats,
the two callbacks of pucro.c installed, an input monitor without seats. -/
def initialDaemon (answers : Nat → InputEnv) : SeatMonitor EventHandlerData :=
  { seats := [], on_seat_added := some OnAddedSeat, on_seat_removed := some OnRemovedSeat,
    userdata := { input_monitor := { seats := [] }, dispatcher := Dispatcher_New,
                  answers := answers, asked := 0 } }

/-- The seat monitor after a sequence of signals (the seats listed by
`SeatMonitor_Start` are added by the same `AddSeat` as those of a `SeatNew`
signal). -/
def afterSignals {U : Type} (monitor : SeatMonitor U) : List SeatSignal → SeatMonitor U
  | [] => monitor
  | signal :: rest => afterSignals (OnNewOrRemovedSeat monitor signal) rest

/-- Answers with which every `InputMonitor_Add` succeeds. -/
def libinputOk (n : Nat) : InputEnv :=
  { create_context := some n, assign_seat := 0, fd := 3, add_io := 0, source := n }

/-- What holds of the daemon's two seat tables after any sequence of signals:
the callbacks of pucro.c are installed, no seat id is in the input monitor's
table twice, and every seat id of that table is in the seat monitor's
table. -/
def TablesAgree (monitor : SeatMonitor EventHandlerData) : Prop :=
  monitor.on_seat_added = some OnAddedSeat ∧ monitor.on_seat_removed = some OnRemovedSeat ∧
  (monitor.userdata.input_monitor.seats.map InputMonitorSeat.seat_id).Nodup ∧
  ∀ s ∈ monitor.userdata.input_monitor.seats, ∃ seat ∈ monitor.seats, seat.id = s.seat_id

/-- The libc function `strlen`. -/
def strlen (s : Str) : Nat := s.length

/-- The libc function `strncmp`: compare at most `n` characters; the result is
the difference of the first pair of characters that differ (the terminator
counts as 0), and 0 when there is none. -/
def strncmp : Str → Str → Nat → Int
  | _, _, 0 => 0
  | [], [], _ + 1 => 0
  | [], b :: _, _ + 1 => 0 - (b.val : Int)
  | a :: _, [], _ + 1 => (a.val : Int) - 0
  | a :: s1, b :: s2, n + 1 =>
    if (a.val : Int) - (b.val : Int) = 0 then strncmp s1 s2 n
    else (a.val : Int) - (b.val : Int)

/-- The constant `kButtonNamePrefix`. -/
def kButtonNamePrefix : Str := str "BTN_"

/-- The calls of pucro.c into the other modules, as a handler makes them. -/
inductive OrchCall where
  | LookupRuleAndDispatch (seat_id button_name : Str)
  | SeatMonitor_FindSeat (seat_id : Str)
  | SeatMonitor_GetUser (seat : SeatMonitorSeat)
  | Config_FindMatchingRule (user button : Str)
  | Dispatcher_RunAsUser (command user : Str)
  deriving DecidableEq, Repr

/-- The function `LookupRuleAndDispatch`: the calls it makes, in order, and
how its call of `Dispatcher_RunAsUser` ended (`none` when it made none).  The
argument `get_user` is what `SeatMonitor_GetUser` answers (`none` for NULL),
`config` is the instance behind `Config_GetInstance`, `env` is what the system
answers during `Dispatcher_RunAsUser`. -/
def LookupRuleAndDispatch (handler_data : SeatMonitor EventHandlerData)
    (get_user : SeatMonitorSeat → Option Str) (config : Config) (env : DispatchEnv)
    (seat_id button_name : Str) : List OrchCall × Option RunResult :=
  if strncmp button_name kButtonNamePrefix (strlen kButtonNamePrefix) ≠ 0 then ([], none)
  else
    let button := button_name.drop (strlen kButtonNamePrefix)
    match SeatMonitor_FindSeat handler_data seat_id with
    | none => ([OrchCall.SeatMonitor_FindSeat seat_id], none)
    | some seat =>
      match get_user seat with
      | none => ([OrchCall.SeatMonitor_FindSeat seat_id, OrchCall.SeatMonitor_GetUser seat], none)
      | some user =>
        match Config_FindMatchingRule config user button with
        | none =>
          ([OrchCall.SeatMonitor_FindSeat seat_id, OrchCall.SeatMonitor_GetUser seat,
            OrchCall.Config_FindMatchingRule user button], none)
        | some rule =>
          ([OrchCall.SeatMonitor_FindSeat seat_id, OrchCall.SeatMonitor_GetUser seat,
            OrchCall.Config_FindMatchingRule user button,
            OrchCall.Dispatcher_RunAsUser rule.action user],
           some (Dispatcher_RunAsUser handler_data.userdata.dispatcher rule.action user env))

/-- The libinput event types, as far as `OnInputEvent` tells them apart. -/
inductive libinput_event_type where
  | LIBINPUT_EVENT_POINTER_BUTTON
  | other (code : Nat)
  deriving DecidableEq, Repr

/-- The enum `libinput_button_state`. -/
inductive libinput_button_state where
  | LIBINPUT_BUTTON_STATE_RELEASED
  | LIBINPUT_BUTTON_STATE_PRESSED
  deriving DecidableEq, Repr

/-- What `OnInputEvent` reads from a `libinput_event`: its type and, for a
pointer-button event, the button code and the button state. -/
structure libinput_event where
  type : libinput_event_type
  button : Nat
  state : libinput_button_state
  deriving DecidableEq, Repr

/-- The callback `OnInputEvent`.  The argument `code_get_name` is
`libevdev_event_code_get_name` for `EV_KEY` (`none` for NULL, when the code has
no name).  The result is `none` when the process dies: a pressed button without
a name reaches `strncmp` as a NULL pointer. -/
def OnInputEvent (handler_data : SeatMonitor EventHandlerData)
    (get_user : SeatMonitorSeat → Option Str) (config : Config) (env : DispatchEnv)
    (code_get_name : Nat → Option Str) (seat_id : Str) (event : libinput_event) :
    Option (List OrchCall × Option RunResult) :=
  if event.type ≠ libinput_event_type.LIBINPUT_EVENT_POINTER_BUTTON then some ([], none)
  else
    let pressed := decide (event.state = libinput_button_state.LIBINPUT_BUTTON_STATE_PRESSED)
    if pressed then
      match code_get_name event.button with
      | none => none
      | some button_name =>
        let r := LookupRuleAndDispatch handler_data get_user config env seat_id button_name
        some (OrchCall.LookupRuleAndDispatch seat_id button_name :: r.1, r.2)
    else some ([], none)

/-- Whether a call is a call of `Dispatcher_RunAsUser`. -/
def isDispatch : OrchCall → Bool
  | OrchCall.Dispatcher_RunAsUser _ _ => true
  | _ => false

/-- The daemon of the example: `seat0` is known, no input seats. -/
def exampleDaemon : SeatMonitor EventHandlerData :=
  { seats := [{ id := str "seat0", object := str "/org/freedesktop/login1/seat/seat0" }],
    on_seat_added := some OnAddedSeat, on_seat_removed := some OnRemovedSeat,
    userdata := { input_monitor := { seats := [] }, dispatcher := Dispatcher_New,
                  answers := libinputOk, asked := 0 } }

/-- Every seat of the example resolves to alice. -/
def exampleGetUser (_ : SeatMonitorSeat) : Option Str := some (str "alice")

/-- The names libevdev gives the codes 272 and 273. -/
def exampleCodeName (code : Nat) : Option Str :=
  if code = 272 then some (str "BTN_LEFT")
  else if code = 273 then some (str "BTN_RIGHT")
  else none

/-! # Theorems -/

/-! ## Theorems: config.c -/

theorem strcasecmp_eq_zero_iff (a b : Str) : strcasecmp a b = 0 ↔ EqIgnoreCase a b := by
  unfold EqIgnoreCase
  induction a generalizing b with
  | nil =>
    cases b with
    | nil => simp [strcasecmp]
    | cons y s2 =>
      have hy := (tolower y).pos
      simp only [strcasecmp, List.map_nil, List.map_cons]
      constructor
      · intro h; omega
      · intro h; cases h
  | cons x s1 ih =>
    cases b with
    | nil =>
      have hx := (tolower x).pos
      simp only [strcasecmp, List.map_nil, List.map_cons]
      constructor
      · intro h; omega
      · intro h; cases h
    | cons y s2 =>
      simp only [strcasecmp, List.map_cons, List.cons.injEq]
      by_cases hxy : tolower x = tolower y
      · simp [hxy, ih]
      · have hne : ((tolower x).val : Int) - ((tolower y).val : Int) ≠ 0 := by
          intro h
          apply hxy
          apply PNat.eq
          omega
        simp [hne, hxy]

theorem StrvContainsIgnoreCase_iff (strv : List Str) (item : Str) :
    StrvContainsIgnoreCase strv item = true ↔ ∃ s ∈ strv, EqIgnoreCase s item := by
  induction strv with
  | nil => simp [StrvContainsIgnoreCase]
  | cons s strv ih =>
    simp only [StrvContainsIgnoreCase, List.mem_cons, exists_eq_or_imp]
    by_cases h : strcasecmp s item = 0
    · simp [h, (strcasecmp_eq_zero_iff s item).1 h]
    · have h2 : ¬ EqIgnoreCase s item := fun e => h ((strcasecmp_eq_zero_iff s item).2 e)
      simp [h, h2, ih]

theorem ruleTest_iff (rule : ConfigRule) (user button : Str) :
    (StrvContainsIgnoreCase rule.users user &&
      StrvContainsIgnoreCase rule.buttons button) = true ↔ RuleMatches rule user button := by
  simp only [Bool.and_eq_true, StrvContainsIgnoreCase_iff, RuleMatches]

theorem findFrom_eq_some_iff (rules : List ConfigRule) (user button : Str) (r : ConfigRule) :
    findFrom rules user button = some r ↔
      ∃ pre post, rules = pre ++ r :: post ∧ RuleMatches r user button ∧
        ∀ q ∈ pre, ¬ RuleMatches q user button := by
  induction rules with
  | nil => simp [findFrom]
  | cons rule next ih =>
    by_cases h : RuleMatches rule user button
    · have ht := (ruleTest_iff rule user button).2 h
      simp only [findFrom, ht, if_true, Option.some.injEq]
      constructor
      · rintro rfl
        exact ⟨[], next, rfl, h, by simp⟩
      · rintro ⟨pre, post, heq, _, hpre⟩
        cases pre with
        | nil =>
          simp only [List.nil_append, List.cons.injEq] at heq
          exact heq.1
        | cons q pre =>
          simp only [List.cons_append, List.cons.injEq] at heq
          exact absurd (heq.1 ▸ h) (hpre q (List.mem_cons_self _ _))
    · have ht : (StrvContainsIgnoreCase rule.users user &&
          StrvContainsIgnoreCase rule.buttons button) = false := by
        rw [← Bool.not_eq_true, ruleTest_iff]; exact h
      simp only [findFrom, ht, Bool.false_eq_true, if_false, ih]
      constructor
      · rintro ⟨pre, post, heq, hm, hpre⟩
        refine ⟨rule :: pre, post, by simp [heq], hm, ?_⟩
        intro q hq
        rcases List.mem_cons.1 hq with rfl | hq
        · exact h
        · exact hpre q hq
      · rintro ⟨pre, post, heq, hm, hpre⟩
        cases pre with
        | nil =>
          simp only [List.nil_append, List.cons.injEq] at heq
          exact absurd (heq.1 ▸ hm) h
        | cons q pre =>
          simp only [List.cons_append, List.cons.injEq] at heq
          exact ⟨pre, post, heq.2, hm, fun q' hq' => hpre q' (List.mem_cons_of_mem _ hq')⟩

theorem findFrom_eq_none_iff (rules : List ConfigRule) (user button : Str) :
    findFrom rules user button = none ↔ ∀ r ∈ rules, ¬ RuleMatches r user button := by
  induction rules with
  | nil => simp [findFrom]
  | cons rule next ih =>
    by_cases h : RuleMatches rule user button
    · have ht := (ruleTest_iff rule user button).2 h
      simp only [findFrom, ht, if_true]
      constructor
      · intro h'; cases h'
      · intro h'; exact absurd h (h' rule (List.mem_cons_self _ _))
    · have ht : (StrvContainsIgnoreCase rule.users user &&
          StrvContainsIgnoreCase rule.buttons button) = false := by
        rw [← Bool.not_eq_true, ruleTest_iff]; exact h
      simp only [findFrom, ht, Bool.false_eq_true, if_false, ih, List.mem_cons,
        forall_eq_or_imp, h, not_false_eq_true, true_and]

/-- C1: `Config_FindMatchingRule` returns a rule `r` exactly when `r` sits in the
rule list behind a prefix of rules none of which matches and `r` itself matches
(its users list holds the user and its buttons list holds the button, both up
to case), that is, `r` is the first matching rule in list order; and it returns
no rule exactly when no rule of the list matches. -/
theorem Config_FindMatchingRule_first_match (config : Config) (user button : Str) :
    (∀ r, Config_FindMatchingRule config user button = some r ↔
      ∃ pre post, config.rules = pre ++ r :: post ∧ RuleMatches r user button ∧
        ∀ q ∈ pre, ¬ RuleMatches q user button) ∧
    (Config_FindMatchingRule config user button = none ↔
      ∀ r ∈ config.rules, ¬ RuleMatches r user button) :=
  ⟨fun r => findFrom_eq_some_iff config.rules user button r,
   findFrom_eq_none_iff config.rules user button⟩

theorem loadSections_eq_some (sections : List RuleSection) (acc out : List ConfigRule)
    (h : loadSections sections acc = some out) :
    ∃ loaded : List ConfigRule, loaded.map sectionOf = sections ∧ out = loaded.reverse ++ acc := by
  induction sections generalizing acc with
  | nil =>
    simp only [loadSections, Option.some.injEq] at h
    exact ⟨[], rfl, by simp [h]⟩
  | cons rule_cfg rest ih =>
    cases hact : rule_cfg.action with
    | none => simp [loadSections, hact] at h
    | some action =>
      simp only [loadSections, hact] at h
      obtain ⟨loaded, hmap, hout⟩ := ih _ h
      refine ⟨{ buttons := rule_cfg.buttons, users := rule_cfg.users, action := action } :: loaded,
        ?_, ?_⟩
      · simp only [List.map_cons, hmap, sectionOf, List.cons.injEq, and_true]
        cases rule_cfg
        simp_all
      · have hid : ∀ l : List Str, l.map StrDup = l := fun l => by
          induction l with
          | nil => rfl
          | cons a l ihl => rw [List.map_cons, ihl]; rfl
        simp [hout, CfgStringListToStrv, hid, StrDup]

theorem findFrom_reverse_last (loaded pre post : List ConfigRule) (r : ConfigRule)
    (user button : Str) (hsplit : loaded = pre ++ r :: post)
    (hr : RuleMatches r user button) (hpost : ∀ q ∈ post, ¬ RuleMatches q user button) :
    findFrom loaded.reverse user button = some r := by
  rw [findFrom_eq_some_iff]
  refine ⟨post.reverse, pre.reverse, ?_, hr, ?_⟩
  · simp [hsplit]
  · intro q hq
    exact hpost q (List.mem_reverse.1 hq)

/-- C2: after a successful `Config_Load` the rule list, read backwards, holds
one rule per `rule` section of the file in file order (the rules are stored in
reverse file order); so for every user and button, a rule of the file that
matches while no rule after it in the file matches (the last matching rule of
the file, whether one, two or more rules match) is the rule that
`Config_FindMatchingRule` returns on the loaded configuration. -/
theorem Config_Load_last_in_file_wins (sections : List RuleSection) (config config' : Config)
    (hload : Config_Load (some sections) config = some (true, config')) :
    config'.rules.reverse.map sectionOf = sections ∧
      ∀ (user button : Str) (pre post : List ConfigRule) (r : ConfigRule),
        config'.rules.reverse = pre ++ r :: post → RuleMatches r user button →
        (∀ q ∈ post, ¬ RuleMatches q user button) →
        Config_FindMatchingRule config' user button = some r := by
  unfold Config_Load at hload
  cases hls : loadSections sections [] with
  | none => simp [hls] at hload
  | some new_rules =>
    simp only [hls, Option.some.injEq, Prod.mk.injEq, true_and] at hload
    obtain ⟨loaded, hmap, hout⟩ := loadSections_eq_some sections [] new_rules hls
    have hrules : config'.rules = loaded.reverse := by
      rw [← hload]; simpa using hout
    have hrev : config'.rules.reverse = loaded := by rw [hrules, List.reverse_reverse]
    refine ⟨by rw [hrev]; exact hmap, ?_⟩
    intro user button pre post r hsplit hr hpost
    unfold Config_FindMatchingRule
    rw [hrules]
    exact findFrom_reverse_last loaded pre post r user button (hrev ▸ hsplit) hr hpost

/-- C2, at an example: a file with `exampleRule1` and then `exampleRule2`, which
both match alice pressing LEFT, loads with `exampleRule2` first in the list, and
the lookup returns `exampleRule2`, the last one of the file. -/
theorem Config_Load_last_in_file_wins_witness :
    Config_Load (some [sectionOf exampleRule1, sectionOf exampleRule2]) { rules := [] } =
        some (true, { rules := [exampleRule2, exampleRule1] }) ∧
      RuleMatches exampleRule1 (str "alice") (str "LEFT") ∧
      RuleMatches exampleRule2 (str "alice") (str "LEFT") ∧
      Config_FindMatchingRule { rules := [exampleRule2, exampleRule1] } (str "alice") (str "LEFT") =
        some exampleRule2 :=
  ⟨by decide, by decide, by decide,
    (Config_Load_last_in_file_wins [sectionOf exampleRule1, sectionOf exampleRule2]
      { rules := [] } { rules := [exampleRule2, exampleRule1] } (by decide)).2
      (str "alice") (str "LEFT") [exampleRule1] [] exampleRule2 (by decide) (by decide)
      (by decide)⟩

/-- C3: when the rule file does not parse, `Config_Load` returns false and the
configuration is the one it was given, so every lookup on the configuration
that the failed load leaves behind answers as before; and
`ReloadConfigOnSigHup` then hands 0 back to the event loop with the
configuration unchanged (it neither exits nor aborts: the daemon goes on). -/
theorem Config_Load_failure_keeps_rules (config : Config) :
    Config_Load none config = some (false, config) ∧
    (∀ user button,
      (Config_Load none config).map (fun r => Config_FindMatchingRule r.2 user button) =
        some (Config_FindMatchingRule config user button)) ∧
    ReloadConfigOnSigHup none config = some (0, config, [Notify.RELOADING, Notify.READY]) :=
  ⟨rfl, fun _ _ => rfl, rfl⟩

/-- C4: a rule with an empty users list never matches: a rule returned by
`Config_FindMatchingRule` has a users list that is not empty, and when every
rule of the list has an empty users list the lookup returns no rule. -/
theorem Config_FindMatchingRule_empty_users (config : Config) (user button : Str) :
    (∀ r, Config_FindMatchingRule config user button = some r → r.users ≠ []) ∧
    ((∀ r ∈ config.rules, r.users = []) →
      Config_FindMatchingRule config user button = none) := by
  constructor
  · intro r h hnil
    obtain ⟨_, _, _, ⟨⟨u, hu, _⟩, _⟩, _⟩ := (findFrom_eq_some_iff config.rules user button r).1 h
    rw [hnil] at hu
    cases hu
  · intro hall
    apply (findFrom_eq_none_iff config.rules user button).2
    intro r hr ⟨⟨u, hu, _⟩, _⟩
    rw [hall r hr] at hu
    cases hu

/-- C4, at examples: the lookup that returns `exampleRule1` returns a rule with
a user, and a list whose only rule has no users gives no rule although the
button is listed. -/
theorem Config_FindMatchingRule_empty_users_witness :
    exampleRule1.users ≠ [] ∧
      Config_FindMatchingRule { rules := [exampleRule3] } (str "alice") (str "LEFT") = none :=
  ⟨(Config_FindMatchingRule_empty_users { rules := [exampleRule3, exampleRule1] }
      (str "alice") (str "LEFT")).1 exampleRule1 (by decide),
    (Config_FindMatchingRule_empty_users { rules := [exampleRule3] }
      (str "alice") (str "LEFT")).2 (by decide)⟩

/-- C1, at an example: in the list `exampleRule3`, `exampleRule2`, `exampleRule1`
the first rule that matches alice pressing LEFT is `exampleRule2`. -/
theorem Config_FindMatchingRule_first_match_witness :
    Config_FindMatchingRule { rules := [exampleRule3, exampleRule2, exampleRule1] }
      (str "alice") (str "LEFT") = some exampleRule2 :=
  ((Config_FindMatchingRule_first_match { rules := [exampleRule3, exampleRule2, exampleRule1] }
      (str "alice") (str "LEFT")).1 exampleRule2).2
    ⟨[exampleRule3], [exampleRule1], rfl, by decide, by decide⟩

/-! ## Theorems: seat.c and input.c -/

theorem HASH_FIND_STR_append {α : Type} (key : α → Str) (head : List α) (add : α) (k : Str)
    (h : HASH_FIND_STR key head k = none) :
    HASH_FIND_STR key (HASH_ADD_STR head add) k =
      if key add = k then some add else none := by
  unfold HASH_FIND_STR HASH_ADD_STR at *
  rw [List.find?_append, h]
  by_cases hk : key add = k <;> simp [List.find?, hk]

theorem filter_eq_nil_of_find_none {α : Type} (key : α → Str) (head : List α) (k : Str)
    (h : HASH_FIND_STR key head k = none) :
    head.filter (fun item => decide (key item = k)) = [] := by
  unfold HASH_FIND_STR at h
  rw [List.find?_eq_none] at h
  rw [List.filter_eq_nil_iff]
  exact h

theorem AddSeat_of_found {U : Type} (monitor : SeatMonitor U) (seat_id seat_object : Str)
    (found : SeatMonitorSeat)
    (h : HASH_FIND_STR SeatMonitorSeat.id monitor.seats seat_id = some found) :
    AddSeat monitor seat_id seat_object = monitor := by
  unfold AddSeat
  rw [h]

/-- C5: two calls of `AddSeat` with the same id (and any two object handles).
The second call never changes anything.  When the seat table did not hold the
id before the first call, the table afterwards is the old table followed by one
entry, the only entry for that id, which holds the first call's handle, and the
seat-added callback has run exactly once, on the first call with the new seat:
the user data is the callback's result on the old user data (the old user data
itself when no callback is installed).  When the table held the id already,
both calls are duplicates: the monitor is as it was and no callback has run. -/
theorem AddSeat_twice {U : Type} (monitor : SeatMonitor U) (seat_id object1 object2 : Str) :
    AddSeat (AddSeat monitor seat_id object1) seat_id object2 = AddSeat monitor seat_id object1 ∧
    (SeatMonitor_FindSeat monitor seat_id = none →
      (AddSeat (AddSeat monitor seat_id object1) seat_id object2).seats =
        monitor.seats ++ [{ id := seat_id, object := object1 }] ∧
      (AddSeat (AddSeat monitor seat_id object1) seat_id object2).seats.filter
        (fun seat => decide (seat.id = seat_id)) = [{ id := seat_id, object := object1 }] ∧
      (∀ f, monitor.on_seat_added = some f →
        (AddSeat monitor seat_id object1).userdata =
          f { id := seat_id, object := object1 } monitor.userdata ∧
        (AddSeat (AddSeat monitor seat_id object1) seat_id object2).userdata =
          f { id := seat_id, object := object1 } monitor.userdata) ∧
      (monitor.on_seat_added = none →
        (AddSeat (AddSeat monitor seat_id object1) seat_id object2).userdata =
          monitor.userdata)) ∧
    (∀ found, SeatMonitor_FindSeat monitor seat_id = some found →
      AddSeat (AddSeat monitor seat_id object1) seat_id object2 = monitor) := by
  unfold SeatMonitor_FindSeat
  cases hfind0 : HASH_FIND_STR SeatMonitorSeat.id monitor.seats seat_id with
  | some found =>
    have h1 : AddSeat monitor seat_id object1 = monitor :=
      AddSeat_of_found monitor seat_id object1 found hfind0
    have h2 : AddSeat monitor seat_id object2 = monitor :=
      AddSeat_of_found monitor seat_id object2 found hfind0
    refine ⟨by rw [h1, h2], fun h => Option.noConfusion h, fun _ _ => by rw [h1, h2]⟩
  | none =>
    have h1 : AddSeat monitor seat_id object1 =
        { monitor with
          seats := HASH_ADD_STR monitor.seats { id := seat_id, object := object1 },
          userdata := callIfSet monitor.on_seat_added { id := seat_id, object := object1 }
            monitor.userdata } := by
      simp [AddSeat, hfind0, StrDup]
    have hfind : HASH_FIND_STR SeatMonitorSeat.id (AddSeat monitor seat_id object1).seats
        seat_id = some { id := seat_id, object := object1 } := by
      rw [h1]
      simp [HASH_FIND_STR_append SeatMonitorSeat.id monitor.seats _ seat_id hfind0]
    have h2 : AddSeat (AddSeat monitor seat_id object1) seat_id object2 =
        AddSeat monitor seat_id object1 :=
      AddSeat_of_found _ seat_id object2 _ hfind
    refine ⟨h2, fun _ => ⟨?_, ?_, ?_, ?_⟩, fun found h => Option.noConfusion h⟩
    · rw [h2, h1]; rfl
    · rw [h2, h1]
      simp [HASH_ADD_STR, List.filter_append,
        filter_eq_nil_of_find_none SeatMonitorSeat.id monitor.seats seat_id hfind0]
    · intro f hf
      rw [h2, h1]
      simp [callIfSet, hf]
    · intro hf
      rw [h2, h1]
      simp [callIfSet, hf]

/-- C5, at an example: `seat1` is added twice to a monitor that knows `seat0`
only; the counting callback has run once and the table has one `seat1`. -/
theorem AddSeat_twice_witness :
    (AddSeat (AddSeat exampleSeatMonitor (str "seat1") (str "/a")) (str "seat1") (str "/b")).seats
        = exampleSeatMonitor.seats ++ [{ id := str "seat1", object := str "/a" }] ∧
      (AddSeat (AddSeat exampleSeatMonitor (str "seat1") (str "/a")) (str "seat1")
        (str "/b")).userdata = 1 :=
  ⟨((AddSeat_twice exampleSeatMonitor (str "seat1") (str "/a") (str "/b")).2.1 (by decide)).1,
   (((AddSeat_twice exampleSeatMonitor (str "seat1") (str "/a") (str "/b")).2.1
      (by decide)).2.2.1 countCall rfl).2⟩

/-- C6: `RemoveSeat` with an id that the seat table does not hold returns the
monitor as it was: the table is unchanged and the seat-removed callback has
not run (the user data is untouched, whatever the callback is). -/
theorem RemoveSeat_unknown {U : Type} (monitor : SeatMonitor U) (seat_id : Str)
    (habsent : SeatMonitor_FindSeat monitor seat_id = none) :
    RemoveSeat monitor seat_id = monitor ∧
    (RemoveSeat monitor seat_id).seats = monitor.seats ∧
    (RemoveSeat monitor seat_id).userdata = monitor.userdata := by
  unfold SeatMonitor_FindSeat at habsent
  have h : RemoveSeat monitor seat_id = monitor := by
    simp [RemoveSeat, habsent]
  rw [h]
  exact ⟨rfl, rfl, rfl⟩

/-- C6, at an example: removing the unknown `seat1` leaves the table and the
call counter of the example monitor as they were. -/
theorem RemoveSeat_unknown_witness :
    (RemoveSeat exampleSeatMonitor (str "seat1")).seats = exampleSeatMonitor.seats ∧
      (RemoveSeat exampleSeatMonitor (str "seat1")).userdata = 0 :=
  (RemoveSeat_unknown exampleSeatMonitor (str "seat1") (by decide)).2

/-- C7: `InputMonitor_Add` with a seat id that is registered returns false,
makes no library call (so it creates no libinput context) and returns the
monitor as it was, the entry found for that id included. -/
theorem InputMonitor_Add_duplicate (monitor : InputMonitor) (seat_id : Str) (env : InputEnv)
    (found : InputMonitorSeat)
    (hfound : HASH_FIND_STR InputMonitorSeat.seat_id monitor.seats seat_id = some found) :
    InputMonitor_Add monitor seat_id env = (false, monitor, []) ∧
    HASH_FIND_STR InputMonitorSeat.seat_id (InputMonitor_Add monitor seat_id env).2.1.seats
      seat_id = some found := by
  have h : InputMonitor_Add monitor seat_id env = (false, monitor, []) := by
    simp [InputMonitor_Add, hfound]
  rw [h]
  exact ⟨rfl, hfound⟩

/-- C7, at an example: adding `seat0` again fails without a library call. -/
theorem InputMonitor_Add_duplicate_witness :
    InputMonitor_Add exampleInputMonitor (str "seat0")
      { create_context := some 7, assign_seat := 0, fd := 5, add_io := 0, source := 9 } =
      (false, exampleInputMonitor, []) :=
  (InputMonitor_Add_duplicate exampleInputMonitor (str "seat0")
    { create_context := some 7, assign_seat := 0, fd := 5, add_io := 0, source := 9 }
    { seat_id := str "seat0", libinput := some 1, source := some 2 } (by decide)).1

/-! ## Theorems: dispatch.c -/

/-! ### Memory writes -/

theorem store_length (memory : List DispatcherProcess) (a : Nat)
    (f : DispatcherProcess → DispatcherProcess) : (store memory a f).length = memory.length := by
  unfold store
  split <;> simp

theorem store_get (memory : List DispatcherProcess) (a b : Nat)
    (f : DispatcherProcess → DispatcherProcess) :
    (store memory a f)[b]? = if b = a then (memory[a]?).map f else memory[b]? := by
  unfold store
  cases h : memory[a]? with
  | none =>
    by_cases hb : b = a
    · subst hb; simp [h]
    · simp [hb]
  | some object =>
    have hlt : a < memory.length := (List.getElem?_eq_some_iff.1 h).1
    by_cases hb : b = a
    · subst hb; simp [hlt]
    · have hab : a ≠ b := fun e => hb e.symm
      simp [hb, List.getElem?_set_ne hab]

theorem disable_length (sources : List EventSource) (o : Option Nat) :
    (sd_event_source_disable_unref sources o).length = sources.length := by
  unfold sd_event_source_disable_unref
  cases o with
  | none => rfl
  | some h => dsimp only; split <;> simp

theorem disable_get (sources : List EventSource) (o : Option Nat) (h : Nat) :
    (sd_event_source_disable_unref sources o)[h]? =
      if o = some h then (sources[h]?).map (fun s => { s with enabled := false })
      else sources[h]? := by
  unfold sd_event_source_disable_unref
  cases o with
  | none => simp
  | some a =>
    dsimp only
    cases hs : sources[a]? with
    | none =>
      by_cases hb : a = h
      · subst hb; simp [hs]
      · simp [hb]
    | some s =>
      have hlt : a < sources.length := (List.getElem?_eq_some_iff.1 hs).1
      by_cases hb : a = h
      · subst hb; simp [hlt, hs]
      · simp [hb, List.getElem?_set_ne hb]

/-! ### Doubly linked stretches -/

theorem Linked_frame (m m' : List DispatcherProcess) (l : List Nat) (b s e : Option Nat)
    (hsame : ∀ p ∈ l, m'[p]? = m[p]?) (h : Linked m b s l e) : Linked m' b s l e := by
  induction l generalizing b s with
  | nil => exact h
  | cons p l ih =>
    obtain ⟨hs, object, hobj, hprev, hdisp, hrest⟩ := h
    refine ⟨hs, object, ?_, hprev, hdisp, ?_⟩
    · rw [hsame p (List.mem_cons_self _ _)]; exact hobj
    · exact ih _ _ (fun q hq => hsame q (List.mem_cons_of_mem _ hq)) hrest

theorem Linked_append (m : List DispatcherProcess) (l1 l2 : List Nat) (b s e : Option Nat) :
    Linked m b s (l1 ++ l2) e ↔
      ∃ mid, Linked m b s l1 mid ∧ Linked m (lastOr b l1) mid l2 e := by
  induction l1 generalizing b s with
  | nil =>
    simp only [List.nil_append, Linked, lastOr]
    constructor
    · intro h; exact ⟨s, rfl, h⟩
    · rintro ⟨mid, rfl, h⟩; exact h
  | cons p l1 ih =>
    simp only [List.cons_append, Linked, lastOr]
    constructor
    · rintro ⟨hs, object, hobj, hprev, hdisp, hrest⟩
      obtain ⟨mid, h1, h2⟩ := (ih _ _).1 hrest
      exact ⟨mid, ⟨hs, object, hobj, hprev, hdisp, h1⟩, h2⟩
    · rintro ⟨mid, ⟨hs, object, hobj, hprev, hdisp, h1⟩, h2⟩
      exact ⟨hs, object, hobj, hprev, hdisp, (ih _ _).2 ⟨mid, h1, h2⟩⟩

theorem Linked_valid (m : List DispatcherProcess) (l : List Nat) (b s e : Option Nat)
    (h : Linked m b s l e) (p : Nat) (hp : p ∈ l) :
    ∃ object, m[p]? = some object ∧
      (∀ n, object.next = some n → n ∈ l ∨ some n = e) ∧
      (∀ n, object.prev = some n → n ∈ l ∨ some n = b) := by
  induction l generalizing b s with
  | nil => cases hp
  | cons q l ih =>
    obtain ⟨hs, object, hobj, hprev, hdisp, hrest⟩ := h
    rcases List.mem_cons.1 hp with rfl | hp'
    · refine ⟨object, hobj, ?_, ?_⟩
      · intro n hn
        cases l with
        | nil =>
          right
          have : object.next = e := hrest
          rw [← this, hn]
        | cons r l' =>
          left
          have : object.next = some r := hrest.1
          rw [hn] at this
          cases this
          simp
      · intro n hn
        right
        rw [← hprev, hn]
    · obtain ⟨o', ho', hnext, hprev'⟩ := ih _ _ hrest hp'
      refine ⟨o', ho', ?_, ?_⟩
      · intro n hn
        rcases hnext n hn with h1 | h1
        · exact Or.inl (List.mem_cons_of_mem _ h1)
        · exact Or.inr h1
      · intro n hn
        rcases hprev' n hn with h1 | h1
        · exact Or.inl (List.mem_cons_of_mem _ h1)
        · left
          cases h1
          simp

theorem Linked_lt (m : List DispatcherProcess) (l : List Nat) (b s e : Option Nat)
    (h : Linked m b s l e) (p : Nat) (hp : p ∈ l) : p < m.length := by
  obtain ⟨object, hobj, _⟩ := Linked_valid m l b s e h p hp
  exact (List.getElem?_eq_some_iff.1 hobj).1

theorem Linked_start_mem (m : List DispatcherProcess) (l : List Nat) (b s : Option Nat)
    (h : Linked m b s l none) (p : Nat) (hs : s = some p) : p ∈ l := by
  cases l with
  | nil =>
    have : s = none := h
    rw [this] at hs
    cases hs
  | cons q l =>
    have : s = some q := h.1
    rw [this] at hs
    cases hs
    simp

/-- The last `next` of a stretch is redirected. -/
theorem Linked_retarget (m m' : List DispatcherProcess) (pre : List Nat) (q : Nat)
    (b s e e' : Option Nat) (hq : q ∉ pre)
    (hsame : ∀ p ∈ pre, m'[p]? = m[p]?)
    (hlast : m'[q]? = (m[q]?).map (fun object => { object with next := e' }))
    (h : Linked m b s (pre ++ [q]) e) : Linked m' b s (pre ++ [q]) e' := by
  induction pre generalizing b s with
  | nil =>
    obtain ⟨hs, object, hobj, hprev, hdisp, _⟩ := h
    refine ⟨hs, { object with next := e' }, ?_, hprev, hdisp, rfl⟩
    rw [hlast, hobj]; rfl
  | cons p pre ih =>
    obtain ⟨hs, object, hobj, hprev, hdisp, hrest⟩ := h
    refine ⟨hs, object, ?_, hprev, hdisp, ?_⟩
    · rw [hsame p (List.mem_cons_self _ _)]; exact hobj
    · exact ih _ _ (fun h' => hq (List.mem_cons_of_mem _ h'))
        (fun r hr => hsame r (List.mem_cons_of_mem _ hr)) hrest

/-- The first `prev` of a stretch is redirected. -/
theorem Linked_rehead (m m' : List DispatcherProcess) (p : Nat) (l : List Nat)
    (b b' s e : Option Nat)
    (hsame : ∀ r ∈ l, m'[r]? = m[r]?)
    (hfirst : m'[p]? = (m[p]?).map (fun object => { object with prev := b' }))
    (h : Linked m b s (p :: l) e) : Linked m' b' s (p :: l) e := by
  obtain ⟨hs, object, hobj, hprev, hdisp, hrest⟩ := h
  refine ⟨hs, { object with prev := b' }, ?_, rfl, hdisp, ?_⟩
  · rw [hfirst, hobj]; rfl
  · exact Linked_frame m m' l _ _ _ hsame hrest

theorem walk_of_Linked (m : List DispatcherProcess) (l : List Nat) (b s : Option Nat)
    (fuel : Nat) (h : Linked m b s l none) (hfuel : l.length ≤ fuel) : walk m fuel s = l := by
  induction l generalizing b s fuel with
  | nil =>
    have : s = none := h
    subst this
    cases fuel <;> rfl
  | cons p l ih =>
    obtain ⟨hs, object, hobj, _, _, hrest⟩ := h
    subst hs
    cases fuel with
    | zero => simp at hfuel
    | succ fuel =>
      simp only [walk, hobj]
      rw [ih _ _ fuel hrest (by simpa using hfuel)]

theorem length_le_of_nodup_lt (l : List Nat) (n : Nat) (hnd : l.Nodup) (hlt : ∀ p ∈ l, p < n) :
    l.length ≤ n := by
  have hsub : l.toFinset ⊆ Finset.range n := by
    intro p hp
    rw [List.mem_toFinset] at hp
    exact Finset.mem_range.2 (hlt p hp)
  have hcard := Finset.card_le_card hsub
  rw [List.toFinset_card_of_nodup hnd, Finset.card_range] at hcard
  exact hcard

theorem tracked_of_Inv (d : Dispatcher) (l : List Nat) (h : Inv d l) : tracked d = l := by
  unfold tracked
  apply walk_of_Linked d.memory l none d.processes d.memory.length h.linked
  exact length_le_of_nodup_lt l _ h.nodup (fun p hp => Linked_lt _ _ _ _ _ h.linked p hp)

/-! ### What `RemoveProcess` does to the memory -/

theorem RemoveProcess_spec (d d' : Dispatcher) (x : Nat) (c : DispatcherProcess)
    (hx : d.memory[x]? = some c) (hns : c.next ≠ some x) (h : RemoveProcess d x = some d') :
    d'.freed = d.freed ∧ d'.sources = d.sources ∧ d'.kills = d.kills ∧
    (c.prev = none → c.dispatcher = true ∧ d.processes = some x ∧ d'.processes = c.next) ∧
    (c.prev ≠ none → d'.processes = d.processes) ∧
    ∀ y, d'.memory[y]? =
      if y = x then some { c with dispatcher := false, prev := none, next := none }
      else (d.memory[y]?).map (unlinkFrom c y) := by
  unfold RemoveProcess at h
  rw [hx] at h
  simp only at h
  -- the memory after the first statement still holds `c` at `x`
  have h1 : (match c.next with
      | some next => store d.memory next (fun object => { object with prev := none })
      | none => d.memory)[x]? = some c := by
    cases hn : c.next with
    | none => exact hx
    | some n =>
      have hne : x ≠ n := fun e => hns (by rw [hn, e])
      simp only [store_get, hne, if_false]
      exact hx
  rw [h1] at h
  simp only at h
  cases hp : c.prev with
  | some q =>
    simp only [hp, Option.some.injEq] at h
    subst h
    refine ⟨rfl, rfl, rfl, fun h' => Option.noConfusion h', fun _ => rfl, ?_⟩
    intro y
    simp only [store_get]
    by_cases hyx : y = x
    · subst hyx
      simp only [if_true]
      by_cases hq : y = q
      · subst hq
        simp [h1]
      · simp [hq, h1]
    · simp only [hyx, if_false]
      cases hn : c.next with
      | none =>
        by_cases hq : y = q
        · subst hq
          cases hy : d.memory[y]? <;> simp [unlinkFrom, hn, hp, hy]
        · have hq' : q ≠ y := fun e => hq e.symm
          cases hy : d.memory[y]? <;> simp [unlinkFrom, hn, hp, hy, hq, hq']
      | some n =>
        simp only [store_get]
        by_cases hq : y = q
        · subst hq
          by_cases hyn : y = n
          · subst hyn
            cases hy : d.memory[y]? <;> simp [unlinkFrom, hn, hp, hy]
          · have hyn' : n ≠ y := fun e => hyn e.symm
            cases hy : d.memory[y]? <;> simp [unlinkFrom, hn, hp, hy, hyn, hyn']
        · have hq' : q ≠ y := fun e => hq e.symm
          by_cases hyn : y = n
          · subst hyn
            cases hy : d.memory[y]? <;> simp [unlinkFrom, hn, hp, hy, hq, hq']
          · have hyn' : n ≠ y := fun e => hyn e.symm
            cases hy : d.memory[y]? <;> simp [unlinkFrom, hn, hp, hy, hyn, hyn', hq, hq']
  | none =>
    simp only [hp] at h
    by_cases hhead : c.dispatcher = true ∧ d.processes = some x
    · simp only [hhead, and_self, if_true, Option.some.injEq] at h
      subst h
      refine ⟨rfl, rfl, rfl, fun _ => ⟨hhead.1, hhead.2, rfl⟩, fun h' => absurd rfl h', ?_⟩
      intro y
      simp only [store_get]
      by_cases hyx : y = x
      · subst hyx
        simp [h1]
      · simp only [hyx, if_false]
        cases hn : c.next with
        | none =>
          cases hy : d.memory[y]? <;> simp [unlinkFrom, hn, hp, hy]
        | some n =>
          simp only [store_get]
          by_cases hyn : y = n
          · subst hyn
            cases hy : d.memory[y]? <;> simp [unlinkFrom, hn, hp, hy]
          · have hyn' : n ≠ y := fun e => hyn e.symm
            cases hy : d.memory[y]? <;> simp [unlinkFrom, hn, hp, hy, hyn, hyn']
    · simp [hhead] at h

theorem RemoveProcess_isSome (d : Dispatcher) (x : Nat) (c : DispatcherProcess)
    (hx : d.memory[x]? = some c) (hns : c.next ≠ some x)
    (hhead : c.prev = none → c.dispatcher = true ∧ d.processes = some x) :
    ∃ d', RemoveProcess d x = some d' := by
  unfold RemoveProcess
  rw [hx]
  simp only
  have h1 : (match c.next with
      | some next => store d.memory next (fun object => { object with prev := none })
      | none => d.memory)[x]? = some c := by
    cases hn : c.next with
    | none => exact hx
    | some n =>
      have hne : x ≠ n := fun e => hns (by rw [hn, e])
      simp only [store_get, hne, if_false]
      exact hx
  rw [h1]
  simp only
  cases hp : c.prev with
  | some q => exact ⟨_, rfl⟩
  | none =>
    have := hhead hp
    simp only [this, and_self, if_true]
    exact ⟨_, rfl⟩

theorem RemoveProcess_length (d d' : Dispatcher) (x : Nat) (c : DispatcherProcess)
    (hx : d.memory[x]? = some c) (hns : c.next ≠ some x) (h : RemoveProcess d x = some d') :
    d'.memory.length = d.memory.length := by
  have hall := (RemoveProcess_spec d d' x c hx hns h).2.2.2.2.2
  apply Nat.le_antisymm
  · by_contra hlt
    push_neg at hlt
    have hy := hall d.memory.length
    have hnone : d.memory[d.memory.length]? = none := List.getElem?_eq_none (Nat.le_refl _)
    have hne : d.memory.length ≠ x := by
      intro e
      have := (List.getElem?_eq_some_iff.1 hx).1
      omega
    rw [if_neg hne, hnone] at hy
    have : d'.memory[d.memory.length]? ≠ none := by
      rw [List.getElem?_eq_getElem hlt]; simp
    exact this hy
  · by_contra hlt
    push_neg at hlt
    have hy := hall d'.memory.length
    have hnone : d'.memory[d'.memory.length]? = none := List.getElem?_eq_none (Nat.le_refl _)
    rw [hnone] at hy
    by_cases hyx : d'.memory.length = x
    · rw [if_pos hyx] at hy; cases hy
    · rw [if_neg hyx, List.getElem?_eq_getElem hlt] at hy
      cases hy

theorem unlinkFrom_next (c : DispatcherProcess) (y : Nat) (cy : DispatcherProcess) (n : Nat)
    (h : (unlinkFrom c y cy).next = some n) : cy.next = some n := by
  unfold unlinkFrom at h
  by_cases hc : c.prev = some y
  · simp [hc] at h
  · simpa [hc] using h

theorem unlinkFrom_prev (c : DispatcherProcess) (y : Nat) (cy : DispatcherProcess) (n : Nat)
    (h : (unlinkFrom c y cy).prev = some n) : cy.prev = some n := by
  unfold unlinkFrom at h
  by_cases hc : c.next = some y
  · simp [hc] at h
  · simpa [hc] using h

theorem unlinkFrom_id (c : DispatcherProcess) (y : Nat) (cy : DispatcherProcess)
    (hn : c.next ≠ some y) (hp : c.prev ≠ some y) : unlinkFrom c y cy = cy := by
  unfold unlinkFrom
  simp [hn, hp]

theorem DispatcherProcess_Free_spec (d : Dispatcher) (x : Nat) (c : DispatcherProcess)
    (hx : d.memory[x]? = some c) :
    DispatcherProcess_Free d x =
      { d with
        sources := sd_event_source_disable_unref
          (sd_event_source_disable_unref d.sources c.death_event) c.timer_event,
        freed := d.freed ++ [x] } := by
  unfold DispatcherProcess_Free
  rw [hx]

/-- The parts of the invariant that do not depend on where the removed object
was, once the new list is known. -/
theorem Inv_remove_free_of_list (d d2 : Dispatcher) (l l' : List Nat) (x : Nat)
    (c : DispatcherProcess) (hinv : Inv d l) (hx : d.memory[x]? = some c) (hfree : x ∉ d.freed)
    (h : RemoveProcess d x = some d2)
    (hsub : ∀ p ∈ l', p ∈ l) (hxl : x ∉ l') (hnd : l'.Nodup)
    (hlinked : Linked d2.memory none d2.processes l' none)
    (hdropped : ∀ p ∈ l, p ∉ l' → p ≠ x → ∀ cy, d.memory[p]? = some cy →
      (∀ n, cy.next = some n → n ∉ l') ∧ (∀ n, cy.prev = some n → n ∉ l')) :
    Inv (DispatcherProcess_Free d2 x) l' := by
  have hns : c.next ≠ some x := hinv.noself x c hx
  obtain ⟨hfreed, hsources, _, _, _, hmem⟩ := RemoveProcess_spec d d2 x c hx hns h
  have hlen : d2.memory.length = d.memory.length := RemoveProcess_length d d2 x c hx hns h
  have hx2 : d2.memory[x]? =
      some { c with dispatcher := false, prev := none, next := none } := by
    rw [hmem x, if_pos rfl]
  rw [DispatcherProcess_Free_spec d2 x _ hx2]
  -- an object of the new memory comes from one of the old memory with fewer pointers
  have hfrom : ∀ p object', d2.memory[p]? = some object' → p ≠ x →
      ∃ cy, d.memory[p]? = some cy ∧ object' = unlinkFrom c p cy := by
    intro p object' hp hpx
    rw [hmem p, if_neg hpx] at hp
    cases hcy : d.memory[p]? with
    | none => rw [hcy] at hp; cases hp
    | some cy =>
      rw [hcy] at hp
      simp only [Option.map_some', Option.some.injEq] at hp
      exact ⟨cy, rfl, hp.symm⟩
  constructor
  · exact hlinked
  · exact hnd
  · intro p object' hp hpl
    simp only at hp
    by_cases hpx : p = x
    · subst hpx
      rw [hx2] at hp
      cases hp
      exact ⟨fun n hn => (by cases hn), fun n hn => (by cases hn)⟩
    · obtain ⟨cy, hcy, rfl⟩ := hfrom p object' hp hpx
      by_cases hpl0 : p ∈ l
      · have := hdropped p hpl0 hpl hpx cy hcy
        exact ⟨fun n hn => this.1 n (unlinkFrom_next c p cy n hn),
          fun n hn => this.2 n (unlinkFrom_prev c p cy n hn)⟩
      · have := hinv.outside p cy hcy hpl0
        exact ⟨fun n hn hmem' => this.1 n (unlinkFrom_next c p cy n hn) (hsub n hmem'),
          fun n hn hmem' => this.2 n (unlinkFrom_prev c p cy n hn) (hsub n hmem')⟩
  · intro p object' hp
    simp only at hp
    by_cases hpx : p = x
    · subst hpx
      rw [hx2] at hp
      cases hp
      intro hn; cases hn
    · obtain ⟨cy, hcy, rfl⟩ := hfrom p object' hp hpx
      intro hn
      exact hinv.noself p cy hcy (unlinkFrom_next c p cy p hn)
  · intro p object' hp
    simp only at hp ⊢
    rw [hlen]
    by_cases hpx : p = x
    · subst hpx
      rw [hx2] at hp
      cases hp
      exact ⟨fun n hn => (by cases hn), fun n hn => (by cases hn)⟩
    · obtain ⟨cy, hcy, rfl⟩ := hfrom p object' hp hpx
      have := hinv.bounds p cy hcy
      exact ⟨fun n hn => this.1 n (unlinkFrom_next c p cy n hn),
        fun n hn => this.2 n (unlinkFrom_prev c p cy n hn)⟩
  · intro p hp
    simp only at hp ⊢
    rw [hlen]
    rw [hfreed] at hp
    rcases List.mem_append.1 hp with h1 | h1
    · exact hinv.freed_lt p h1
    · simp only [List.mem_singleton] at h1
      subst h1
      exact (List.getElem?_eq_some_iff.1 hx).1
  · simp only
    rw [hfreed]
    rw [List.nodup_append]
    refine ⟨hinv.freed_nodup, List.nodup_singleton x, ?_⟩
    intro a ha hb
    simp only [List.mem_singleton] at hb
    subst hb
    exact hfree ha
  · intro p hp
    simp only
    rw [hfreed]
    intro hmem'
    rcases List.mem_append.1 hmem' with h1 | h1
    · exact hinv.live p (hsub p hp) h1
    · simp only [List.mem_singleton] at h1
      subst h1
      exact hxl hp
  · intro hd s hs hen
    simp only at hs ⊢
    rw [hsources] at hs
    simp only [disable_get] at hs
    have ht : c.timer_event ≠ some hd := by
      intro e
      rw [if_pos e] at hs
      split at hs
      · cases hsrc : d.sources[hd]? with
        | none => rw [hsrc] at hs; cases hs
        | some s0 =>
          rw [hsrc] at hs
          simp only [Option.map_some', Option.some.injEq] at hs
          rw [← hs] at hen
          cases hen
      · cases hsrc : d.sources[hd]? with
        | none => rw [hsrc] at hs; cases hs
        | some s0 =>
          rw [hsrc] at hs
          simp only [Option.map_some', Option.some.injEq] at hs
          rw [← hs] at hen
          cases hen
    rw [if_neg ht] at hs
    have hdth : c.death_event ≠ some hd := by
      intro e
      rw [if_pos e] at hs
      cases hsrc : d.sources[hd]? with
      | none => rw [hsrc] at hs; cases hs
      | some s0 =>
        rw [hsrc] at hs
        simp only [Option.map_some', Option.some.injEq] at hs
        rw [← hs] at hen
        cases hen
    rw [if_neg hdth] at hs
    obtain ⟨hnf, object, hobj, hown⟩ := hinv.owner hd s hs hen
    have hux : s.userdata ≠ x := by
      intro e
      rw [e, hx] at hobj
      cases hobj
      rcases hown with h1 | h1
      · exact ht h1
      · exact hdth h1
    refine ⟨?_, ?_⟩
    · rw [hfreed]
      intro hmem'
      rcases List.mem_append.1 hmem' with h1 | h1
      · exact hnf h1
      · simp only [List.mem_singleton] at h1
        exact hux h1
    · refine ⟨unlinkFrom c s.userdata object, ?_, hown⟩
      rw [hmem s.userdata, if_neg hux, hobj]
      rfl

theorem lastOr_concat (b : Option Nat) (l : List Nat) (q : Nat) :
    lastOr b (l ++ [q]) = some q := by
  induction l generalizing b with
  | nil => rfl
  | cons p l ih => exact ih (some p)

theorem map_unlinkFrom_id (m : List DispatcherProcess) (c : DispatcherProcess) (y : Nat)
    (hn : c.next ≠ some y) (hp : c.prev ≠ some y) :
    (m[y]?).map (unlinkFrom c y) = m[y]? := by
  cases m[y]? with
  | none => rfl
  | some cy => simp [unlinkFrom_id c y cy hn hp]

/-- `RemoveProcess` followed by `DispatcherProcess_Free` keeps the invariant:
the new list is the old one when the object was not in it, the part behind
the object when the object was the head, and otherwise the part in front of
the object. -/
theorem Inv_remove_free (d d2 : Dispatcher) (l : List Nat) (x : Nat)
    (c : DispatcherProcess) (hinv : Inv d l) (hx : d.memory[x]? = some c) (hfree : x ∉ d.freed)
    (h : RemoveProcess d x = some d2) :
    ∃ l', Inv (DispatcherProcess_Free d2 x) l' ∧ x ∉ l' ∧ ∀ p ∈ l', p ∈ l := by
  have hns : c.next ≠ some x := hinv.noself x c hx
  obtain ⟨_, _, _, hhead, hkeep, hmem⟩ := RemoveProcess_spec d d2 x c hx hns h
  by_cases hxl : x ∈ l
  · obtain ⟨pre, post, rfl⟩ := List.append_of_mem hxl
    obtain ⟨mid, hpre, hrest⟩ := (Linked_append d.memory pre (x :: post) none d.processes none).1
      hinv.linked
    obtain ⟨hmid, c', hc', hprev, _, hpost⟩ := hrest
    rw [hx] at hc'
    cases hc'
    have hnd := hinv.nodup
    rw [List.nodup_append] at hnd
    obtain ⟨hndpre, hndx, hdisj⟩ := hnd
    rw [List.nodup_cons] at hndx
    obtain ⟨hxpost, hndpost⟩ := hndx
    have hxpre : x ∉ pre := fun hm => hdisj hm (List.mem_cons_self _ _)
    have hprepost : ∀ p ∈ pre, p ∉ post := fun p hp hq => hdisj hp (List.mem_cons_of_mem _ hq)
    have hnext_post : ∀ n, c.next = some n → n ∈ post :=
      fun n hn => Linked_start_mem d.memory post (some x) c.next hpost n hn
    cases pre.eq_nil_or_concat with
    | inl hnil =>
      subst hnil
      have hcprev : c.prev = none := hprev
      obtain ⟨_, _, hproc⟩ := hhead hcprev
      refine ⟨post, ?_, hxpost, fun p hp => List.mem_append_right _ (List.mem_cons_of_mem _ hp)⟩
      apply Inv_remove_free_of_list d d2 _ post x c hinv hx hfree h
      · intro p hp; exact List.mem_append_right _ (List.mem_cons_of_mem _ hp)
      · exact hxpost
      · exact hndpost
      · rw [hproc]
        cases post with
        | nil => exact hpost
        | cons n post' =>
          have hcn : c.next = some n := hpost.1
          rw [List.nodup_cons] at hndpost
          have hnx : n ≠ x := fun e => hxpost (by rw [← e]; exact List.mem_cons_self _ _)
          apply Linked_rehead d.memory d2.memory n post' (some x) none c.next none
          · intro r hr
            have hrx : r ≠ x := fun e => hxpost (by rw [← e]; exact List.mem_cons_of_mem _ hr)
            rw [hmem r, if_neg hrx]
            apply map_unlinkFrom_id
            · rw [hcn]
              intro e
              cases e
              exact hndpost.1 hr
            · rw [hcprev]
              intro e
              cases e
          · rw [hmem n, if_neg hnx]
            cases d.memory[n]? with
            | none => rfl
            | some cy => simp [unlinkFrom, hcn, hcprev]
          · exact hpost
      · intro p hp hpn hpx
        simp only [List.nil_append, List.mem_cons] at hp
        rcases hp with h1 | h1
        · exact absurd h1 hpx
        · exact absurd h1 hpn
    | inr hconcat =>
      obtain ⟨pre', q, hpq⟩ := hconcat
      rw [List.concat_eq_append] at hpq
      subst hpq
      have hcprev : c.prev = some q := by rw [hprev, lastOr_concat]
      have hproc : d2.processes = d.processes := hkeep (by rw [hcprev]; simp)
      rw [List.nodup_append] at hndpre
      obtain ⟨_, _, hdisj'⟩ := hndpre
      have hqpre' : q ∉ pre' := fun hm => hdisj' hm (List.mem_singleton_self q)
      have hqx : q ≠ x := fun e => hxpre (by rw [← e]; simp)
      have hcnq : c.next ≠ some q :=
        fun e => hprepost q (by simp) (hnext_post q e)
      refine ⟨pre' ++ [q], ?_, hxpre, fun p hp => List.mem_append_left _ hp⟩
      apply Inv_remove_free_of_list d d2 _ (pre' ++ [q]) x c hinv hx hfree h
      · intro p hp; exact List.mem_append_left _ hp
      · exact hxpre
      · exact (List.nodup_append.1 hinv.nodup).1
      · rw [hproc]
        subst hmid
        apply Linked_retarget d.memory d2.memory pre' q none d.processes (some x) none hqpre'
        · intro p hp
          have hppre : p ∈ pre' ++ [q] := List.mem_append_left _ hp
          have hpx : p ≠ x := fun e => hxpre (by rw [← e]; exact hppre)
          rw [hmem p, if_neg hpx]
          apply map_unlinkFrom_id
          · intro e
            exact hprepost p hppre (hnext_post p e)
          · rw [hcprev]
            intro e
            cases e
            exact hqpre' hp
        · rw [hmem q, if_neg hqx]
          cases d.memory[q]? with
          | none => rfl
          | some cy => simp [unlinkFrom, hcprev, hcnq]
        · exact hpre
      · intro p hp hpn hpx cy hcy
        have hppost : p ∈ post := by
          rcases List.mem_append.1 hp with h1 | h1
          · exact absurd h1 hpn
          · rcases List.mem_cons.1 h1 with h2 | h2
            · exact absurd h2 hpx
            · exact h2
        obtain ⟨cy', hcy', hn', hp'⟩ := Linked_valid d.memory post (some x) c.next none hpost p
          hppost
        rw [hcy] at hcy'
        cases hcy'
        constructor
        · intro n hn hmem'
          rcases hn' n hn with h1 | h1
          · exact hprepost n hmem' h1
          · cases h1
        · intro n hn hmem'
          rcases hp' n hn with h1 | h1
          · exact hprepost n hmem' h1
          · cases h1
            exact hxpre hmem'
  · have hcprev : c.prev ≠ none := by
      intro e
      obtain ⟨_, hproc, _⟩ := hhead e
      exact hxl (Linked_start_mem d.memory l none d.processes hinv.linked x hproc)
    have hproc : d2.processes = d.processes := hkeep hcprev
    have hout := hinv.outside x c hx hxl
    refine ⟨l, ?_, hxl, fun p hp => hp⟩
    apply Inv_remove_free_of_list d d2 l l x c hinv hx hfree h (fun p hp => hp) hxl hinv.nodup
    · rw [hproc]
      apply Linked_frame d.memory d2.memory l none d.processes none _ hinv.linked
      intro p hp
      have hpx : p ≠ x := fun e => hxl (by rw [← e]; exact hp)
      rw [hmem p, if_neg hpx]
      apply map_unlinkFrom_id
      · intro e; exact hout.1 p e hp
      · intro e; exact hout.2 p e hp
    · intro p hp hpn
      exact absurd hp hpn

/-! ### The invariant along the steps -/

theorem append_get {α : Type} (m : List α) (c : α) (y : Nat) :
    (m ++ [c])[y]? = if y = m.length then some c else m[y]? := by
  by_cases hy : y = m.length
  · subst hy; simp
  · rw [if_neg hy]
    by_cases hlt : y < m.length
    · rw [List.getElem?_append_left hlt]
    · have h1 : m.length ≤ y := Nat.le_of_not_lt hlt
      rw [List.getElem?_eq_none h1, List.getElem?_eq_none]
      simp
      omega

theorem lt_of_get {α : Type} (m : List α) (y : Nat) (c : α) (h : m[y]? = some c) :
    y < m.length := (List.getElem?_eq_some_iff.1 h).1

theorem Inv_init : Inv Dispatcher_New [] := by
  constructor
  · exact rfl
  · exact List.nodup_nil
  · intro p object hp; simp [Dispatcher_New] at hp
  · intro p object hp; simp [Dispatcher_New] at hp
  · intro p object hp; simp [Dispatcher_New] at hp
  · intro p hp; simp [Dispatcher_New] at hp
  · exact List.nodup_nil
  · intro p hp; cases hp
  · intro h s hs; simp [Dispatcher_New] at hs

/-- Switching sources off keeps the invariant. -/
theorem Inv_disable (d : Dispatcher) (l : List Nat) (o : Option Nat) (hinv : Inv d l) :
    Inv { d with sources := sd_event_source_disable_unref d.sources o } l := by
  constructor
  · exact hinv.linked
  · exact hinv.nodup
  · exact hinv.outside
  · exact hinv.noself
  · exact hinv.bounds
  · exact hinv.freed_lt
  · exact hinv.freed_nodup
  · exact hinv.live
  · intro h s hs hen
    simp only [disable_get] at hs
    by_cases ho : o = some h
    · rw [if_pos ho] at hs
      cases hsrc : d.sources[h]? with
      | none => rw [hsrc] at hs; cases hs
      | some s0 =>
        rw [hsrc] at hs
        simp only [Option.map_some', Option.some.injEq] at hs
        rw [← hs] at hen
        cases hen
    · rw [if_neg ho] at hs
      exact hinv.owner h s hs hen

/-- A logged `kill` keeps the invariant. -/
theorem Inv_kills (d : Dispatcher) (l : List Nat) (k : List (Int × Int)) (hinv : Inv d l) :
    Inv { d with kills := k } l := by
  constructor
  · exact hinv.linked
  · exact hinv.nodup
  · exact hinv.outside
  · exact hinv.noself
  · exact hinv.bounds
  · exact hinv.freed_lt
  · exact hinv.freed_nodup
  · exact hinv.live
  · exact hinv.owner

/-- The failure paths of `Dispatcher_RunAsUser` after `fork`: an object without
pointers is allocated and freed again, sources that cannot fire may have been
added. -/
theorem Inv_alloc_free (d : Dispatcher) (l : List Nat) (object : DispatcherProcess)
    (extra : List EventSource) (k : List (Int × Int)) (hinv : Inv d l)
    (hnext : object.next = none) (hprev : object.prev = none)
    (hextra : ∀ s ∈ extra, s.enabled = false) :
    Inv { d with
          memory := d.memory ++ [object],
          sources := d.sources ++ extra,
          kills := k,
          freed := d.freed ++ [d.memory.length] } l := by
  have hl : ∀ p ∈ l, p < d.memory.length :=
    fun p hp => Linked_lt _ _ _ _ _ hinv.linked p hp
  constructor
  · apply Linked_frame d.memory _ l _ _ _ _ hinv.linked
    intro p hp
    simp only [append_get]
    rw [if_neg (Nat.ne_of_lt (hl p hp))]
  · exact hinv.nodup
  · intro p o hp hpl
    simp only [append_get] at hp
    by_cases hpe : p = d.memory.length
    · rw [if_pos hpe] at hp
      cases hp
      rw [hnext, hprev]
      exact ⟨fun n hn => (by cases hn), fun n hn => (by cases hn)⟩
    · rw [if_neg hpe] at hp
      exact hinv.outside p o hp hpl
  · intro p o hp
    simp only [append_get] at hp
    by_cases hpe : p = d.memory.length
    · rw [if_pos hpe] at hp
      cases hp
      rw [hnext]
      intro e; cases e
    · rw [if_neg hpe] at hp
      exact hinv.noself p o hp
  · intro p o hp
    simp only [append_get, List.length_append, List.length_singleton] at hp ⊢
    by_cases hpe : p = d.memory.length
    · rw [if_pos hpe] at hp
      cases hp
      rw [hnext, hprev]
      exact ⟨fun n hn => (by cases hn), fun n hn => (by cases hn)⟩
    · rw [if_neg hpe] at hp
      have := hinv.bounds p o hp
      exact ⟨fun n hn => Nat.lt_succ_of_lt (this.1 n hn),
        fun n hn => Nat.lt_succ_of_lt (this.2 n hn)⟩
  · intro p hp
    simp only [List.length_append, List.length_singleton] at hp ⊢
    rcases List.mem_append.1 hp with h1 | h1
    · exact Nat.lt_succ_of_lt (hinv.freed_lt p h1)
    · simp only [List.mem_singleton] at h1
      omega
  · simp only
    rw [List.nodup_append]
    refine ⟨hinv.freed_nodup, List.nodup_singleton _, ?_⟩
    intro a ha hb
    simp only [List.mem_singleton] at hb
    have := hinv.freed_lt a ha
    omega
  · intro p hp hmem
    simp only at hmem
    rcases List.mem_append.1 hmem with h1 | h1
    · exact hinv.live p hp h1
    · simp only [List.mem_singleton] at h1
      have := hl p hp
      omega
  · intro h s hs hen
    simp only at hs ⊢
    have hold : d.sources[h]? = some s := by
      by_cases hlt : h < d.sources.length
      · rw [List.getElem?_append_left hlt] at hs
        exact hs
      · have hge : d.sources.length ≤ h := Nat.le_of_not_lt hlt
        rw [List.getElem?_append_right hge] at hs
        have hmem : s ∈ extra := List.getElem?_mem hs
        rw [hextra s hmem] at hen
        cases hen
    obtain ⟨hnf, o, ho, hown⟩ := hinv.owner h s hold hen
    have hlt := lt_of_get _ _ _ ho
    refine ⟨?_, o, ?_, hown⟩
    · intro hmem
      rcases List.mem_append.1 hmem with h1 | h1
      · exact hnf h1
      · simp only [List.mem_singleton] at h1
        omega
    · rw [append_get, if_neg (Nat.ne_of_lt hlt)]
      exact ho

theorem AddProcess_memory (d : Dispatcher) (x : Nat) (c : DispatcherProcess)
    (hx : d.memory[x]? = some c) (hhead : d.processes ≠ some x) (y : Nat) :
    (AddProcess d x).memory[y]? =
      if y = x then some { c with dispatcher := true, next := d.processes }
      else if d.processes = some y then
        (d.memory[y]?).map (fun o => { o with prev := some x })
      else d.memory[y]? := by
  unfold AddProcess
  cases hp : d.processes with
  | none =>
    simp only [store_get]
    by_cases hyx : y = x
    · subst hyx; simp [hx]
    · simp [hyx]
  | some n =>
    have hnx : n ≠ x := fun e => hhead (by rw [hp, e])
    simp only [store_get]
    by_cases hyx : y = x
    · subst hyx
      have : y ≠ n := fun e => hnx e.symm
      simp [hx, this]
    · by_cases hyn : y = n
      · subst hyn
        simp [hyx]
      · have : n ≠ y := fun e => hyn e.symm
        simp [hyx, hyn, this]

theorem AddProcess_fields (d : Dispatcher) (x : Nat) :
    (AddProcess d x).processes = some x ∧ (AddProcess d x).sources = d.sources ∧
    (AddProcess d x).freed = d.freed ∧ (AddProcess d x).kills = d.kills ∧
    (AddProcess d x).memory.length = d.memory.length := by
  unfold AddProcess
  refine ⟨rfl, rfl, rfl, rfl, ?_⟩
  cases d.processes with
  | none => simp [store_length]
  | some n => simp [store_length]

theorem Dispatcher_RunAsUser_ok (d : Dispatcher) (command user : Str) (env : DispatchEnv)
    (hf1 : env.fork ≠ -1) (hf0 : env.fork ≠ 0) (ht : 0 ≤ env.add_time_relative)
    (hc : 0 ≤ env.add_child) :
    Dispatcher_RunAsUser d command user env =
      RunResult.returned true (AddProcess (registered d env.fork) d.memory.length) := by
  unfold Dispatcher_RunAsUser
  have ht' : ¬ env.add_time_relative < 0 := not_lt.2 ht
  have hc' : ¬ env.add_child < 0 := not_lt.2 hc
  simp only [hf1, hf0, ht', hc', if_false]
  rfl

/-- The success path of `Dispatcher_RunAsUser` keeps the invariant, with the new
object in front of the list. -/
theorem Inv_registered (d : Dispatcher) (l : List Nat) (pid : Int) (hinv : Inv d l) :
    Inv (AddProcess (registered d pid) d.memory.length) (d.memory.length :: l) := by
  have hl : ∀ p ∈ l, p < d.memory.length :=
    fun p hp => Linked_lt _ _ _ _ _ hinv.linked p hp
  have hnew : (registered d pid).memory[d.memory.length]? = some (newObject d pid) := by
    simp [registered]
  have hproc : (registered d pid).processes = d.processes := rfl
  have hheadlt : ∀ n, d.processes = some n → n < d.memory.length :=
    fun n hn => hl n (Linked_start_mem _ _ _ _ hinv.linked n hn)
  have hhead : (registered d pid).processes ≠ some d.memory.length := by
    rw [hproc]
    intro e
    exact Nat.lt_irrefl _ (hheadlt _ e)
  have hmem := AddProcess_memory (registered d pid) d.memory.length (newObject d pid) hnew hhead
  obtain ⟨hp', hs', hf', _, hlen'⟩ := AddProcess_fields (registered d pid) d.memory.length
  have hreg : ∀ y, y ≠ d.memory.length → (registered d pid).memory[y]? = d.memory[y]? := by
    intro y hy
    simp only [registered, append_get, if_neg hy]
  -- the old objects in the new memory
  have hold : ∀ y, y ≠ d.memory.length →
      (AddProcess (registered d pid) d.memory.length).memory[y]? =
        if d.processes = some y then
          (d.memory[y]?).map (fun o => { o with prev := some d.memory.length })
        else d.memory[y]? := by
    intro y hy
    rw [hmem y, if_neg hy, hproc, hreg y hy]
  have hfrom : ∀ y o, (AddProcess (registered d pid) d.memory.length).memory[y]? = some o →
      y ≠ d.memory.length →
      ∃ cy, d.memory[y]? = some cy ∧ o.next = cy.next ∧ o.timer_event = cy.timer_event ∧
        o.death_event = cy.death_event ∧
        (o.prev = cy.prev ∨ (o.prev = some d.memory.length ∧ d.processes = some y)) := by
    intro y o ho hy
    rw [hold y hy] at ho
    by_cases hpy : d.processes = some y
    · rw [if_pos hpy] at ho
      cases hcy : d.memory[y]? with
      | none => rw [hcy] at ho; cases ho
      | some cy =>
        rw [hcy] at ho
        simp only [Option.map_some', Option.some.injEq] at ho
        subst ho
        exact ⟨cy, rfl, rfl, rfl, rfl, Or.inr ⟨rfl, hpy⟩⟩
    · rw [if_neg hpy] at ho
      exact ⟨o, ho, rfl, rfl, rfl, Or.inl rfl⟩
  constructor
  · refine ⟨hp', { (newObject d pid) with dispatcher := true, next := d.processes }, ?_, rfl, rfl,
      ?_⟩
    · rw [hmem, if_pos rfl, hproc]
    · show Linked _ (some d.memory.length) d.processes l none
      cases l with
      | nil => exact hinv.linked
      | cons h t =>
        have hnd := hinv.nodup
        rw [List.nodup_cons] at hnd
        have hph : d.processes = some h := hinv.linked.1
        apply Linked_rehead d.memory _ h t none (some d.memory.length) d.processes none _ _
          hinv.linked
        · intro r hr
          have hrlt := hl r (List.mem_cons_of_mem _ hr)
          rw [hold r (Nat.ne_of_lt hrlt), if_neg]
          rw [hph]
          intro e
          cases e
          exact hnd.1 hr
        · have hhlt := hl h (List.mem_cons_self _ _)
          rw [hold h (Nat.ne_of_lt hhlt), if_pos hph]
  · rw [List.nodup_cons]
    exact ⟨fun hm => Nat.lt_irrefl _ (hl _ hm), hinv.nodup⟩
  · intro p o ho hpl
    have hpne : p ≠ d.memory.length := fun e => hpl (by rw [e]; exact List.mem_cons_self _ _)
    have hpl' : p ∉ l := fun hm => hpl (List.mem_cons_of_mem _ hm)
    obtain ⟨cy, hcy, hn, _, _, hpv⟩ := hfrom p o ho hpne
    have hout := hinv.outside p cy hcy hpl'
    have hb := hinv.bounds p cy hcy
    constructor
    · intro n hnn hm
      rw [hn] at hnn
      rcases List.mem_cons.1 hm with h1 | h1
      · have := hb.1 n hnn
        omega
      · exact hout.1 n hnn h1
    · intro n hnn hm
      rcases hpv with h1 | ⟨_, h1⟩
      · rw [h1] at hnn
        rcases List.mem_cons.1 hm with h2 | h2
        · have := hb.2 n hnn
          omega
        · exact hout.2 n hnn h2
      · exact hpl' (Linked_start_mem _ _ _ _ hinv.linked p h1)
  · intro p o ho
    by_cases hpe : p = d.memory.length
    · subst hpe
      rw [hmem, if_pos rfl] at ho
      cases ho
      exact hhead
    · obtain ⟨cy, hcy, hn, _⟩ := hfrom p o ho hpe
      rw [hn]
      exact hinv.noself p cy hcy
  · intro p o ho
    rw [hlen']
    have hlen : (registered d pid).memory.length = d.memory.length + 1 := by
      simp [registered]
    rw [hlen]
    by_cases hpe : p = d.memory.length
    · subst hpe
      rw [hmem, if_pos rfl] at ho
      cases ho
      constructor
      · intro n hn
        exact Nat.lt_succ_of_lt (hheadlt n hn)
      · intro n hn
        cases hn
    · obtain ⟨cy, hcy, hn, _, _, hpv⟩ := hfrom p o ho hpe
      have hb := hinv.bounds p cy hcy
      constructor
      · intro n hnn
        rw [hn] at hnn
        exact Nat.lt_succ_of_lt (hb.1 n hnn)
      · intro n hnn
        rcases hpv with h1 | ⟨h1, _⟩
        · rw [h1] at hnn
          exact Nat.lt_succ_of_lt (hb.2 n hnn)
        · rw [h1] at hnn
          cases hnn
          exact Nat.lt_succ_self _
  · intro p hp
    rw [hf'] at hp
    rw [hlen']
    have hlen : (registered d pid).memory.length = d.memory.length + 1 := by
      simp [registered]
    rw [hlen]
    exact Nat.lt_succ_of_lt (hinv.freed_lt p hp)
  · rw [hf']
    exact hinv.freed_nodup
  · intro p hp
    rw [hf']
    rcases List.mem_cons.1 hp with h1 | h1
    · intro hm
      have := hinv.freed_lt p hm
      omega
    · exact hinv.live p h1
  · intro h s hs hen
    rw [hs'] at hs
    rw [hf']
    have hsrc : (registered d pid).sources = d.sources ++ [newTimer d, newDeath d pid] := rfl
    rw [hsrc] at hs
    by_cases hlt : h < d.sources.length
    · rw [List.getElem?_append_left hlt] at hs
      obtain ⟨hnf, o, ho, hown⟩ := hinv.owner h s hs hen
      refine ⟨hnf, ?_⟩
      have hult := lt_of_get _ _ _ ho
      rw [hold _ (Nat.ne_of_lt hult)]
      by_cases hpy : d.processes = some s.userdata
      · rw [if_pos hpy, ho]
        exact ⟨_, rfl, hown⟩
      · rw [if_neg hpy]
        exact ⟨o, ho, hown⟩
    · have hge : d.sources.length ≤ h := Nat.le_of_not_lt hlt
      rw [List.getElem?_append_right hge] at hs
      have hnf : d.memory.length ∉ d.freed := fun hm => Nat.lt_irrefl _ (hinv.freed_lt _ hm)
      have hcases : h - d.sources.length = 0 ∨ h - d.sources.length = 1 := by
        have := lt_of_get _ _ _ hs
        simp only [List.length_cons, List.length_nil] at this
        omega
      rcases hcases with h0 | h1
      · rw [h0] at hs
        simp only [List.getElem?_cons_zero, Option.some.injEq] at hs
        subst hs
        refine ⟨hnf, { (newObject d pid) with
          dispatcher := true, next := (registered d pid).processes }, ?_, Or.inl ?_⟩
        · show (AddProcess (registered d pid) d.memory.length).memory[d.memory.length]? = _
          rw [hmem, if_pos rfl]
        · show some d.sources.length = some h
          congr 1
          omega
      · rw [h1] at hs
        simp only [List.getElem?_cons_succ, List.getElem?_cons_zero, Option.some.injEq] at hs
        subst hs
        refine ⟨hnf, { (newObject d pid) with
          dispatcher := true, next := (registered d pid).processes }, ?_, Or.inr ?_⟩
        · show (AddProcess (registered d pid) d.memory.length).memory[d.memory.length]? = _
          rw [hmem, if_pos rfl]
        · show some (d.sources.length + 1) = some h
          congr 1
          omega

theorem Inv_OnProcessDeath (d d' : Dispatcher) (l : List Nat) (x : Nat) (c : DispatcherProcess)
    (hinv : Inv d l) (hx : d.memory[x]? = some c) (hfree : x ∉ d.freed)
    (h : OnProcessDeath d x = some d') :
    ∃ l', Inv d' l' ∧ x ∉ l' ∧ ∀ p ∈ l', p ∈ l := by
  unfold OnProcessDeath at h
  cases hr : RemoveProcess d x with
  | none => rw [hr] at h; cases h
  | some d2 =>
    rw [hr] at h
    simp only [Option.some.injEq] at h
    subst h
    exact Inv_remove_free d d2 l x c hinv hx hfree hr

theorem Inv_OnTimerExpiration (d d' : Dispatcher) (l : List Nat) (x : Nat)
    (c : DispatcherProcess) (k : Int)
    (hinv : Inv d l) (hx : d.memory[x]? = some c) (hfree : x ∉ d.freed)
    (h : OnTimerExpiration d x k = some d') :
    ∃ l', Inv d' l' ∧ (k ≠ -1 → x ∉ l') ∧ ∀ p ∈ l', p ∈ l := by
  unfold OnTimerExpiration at h
  rw [hx] at h
  simp only at h
  by_cases hk : k = -1
  · rw [if_pos hk] at h
    simp only [Option.some.injEq] at h
    subst h
    exact ⟨l, Inv_kills d l _ hinv, fun e => absurd hk e, fun p hp => hp⟩
  · rw [if_neg hk] at h
    cases hr : RemoveProcess { d with kills := d.kills ++ [(c.pid, SIGKILL)] } x with
    | none => rw [hr] at h; cases h
    | some d2 =>
      rw [hr] at h
      simp only [Option.some.injEq] at h
      subst h
      obtain ⟨l', h1, h2, h3⟩ := Inv_remove_free _ d2 l x c
        (Inv_kills d l (d.kills ++ [(c.pid, SIGKILL)]) hinv) hx hfree hr
      exact ⟨l', h1, fun _ => h2, h3⟩

theorem armed_eq_some (d : Dispatcher) (source : Nat) (s : EventSource)
    (h : armed d source = some s) : d.sources[source]? = some s ∧ s.enabled = true := by
  unfold armed at h
  cases hs : d.sources[source]? with
  | none => rw [hs] at h; cases h
  | some s0 =>
    rw [hs] at h
    simp only at h
    by_cases he : s0.enabled = true
    · rw [if_pos he] at h
      cases h
      exact ⟨rfl, he⟩
    · rw [if_neg he] at h
      cases h

theorem Inv_sd_event_dispatch (d d' : Dispatcher) (l : List Nat) (source : Nat) (k : Int)
    (hinv : Inv d l) (h : sd_event_dispatch d source k = some d') :
    ∃ l', Inv d' l' ∧ ∀ p ∈ l', p ∈ l := by
  unfold sd_event_dispatch at h
  cases ha : armed d source with
  | none => rw [ha] at h; cases h
  | some s =>
    rw [ha] at h
    simp only at h
    obtain ⟨hs, hen⟩ := armed_eq_some d source s ha
    obtain ⟨hnf, c, hc, _⟩ := hinv.owner source s hs hen
    have hinv1 := Inv_disable d l (some source) hinv
    cases hkind : s.kind with
    | time clock usec accuracy =>
      rw [hkind] at h
      obtain ⟨l', h1, _, h3⟩ := Inv_OnTimerExpiration _ d' l s.userdata c k hinv1 hc hnf h
      exact ⟨l', h1, h3⟩
    | child pid options =>
      rw [hkind] at h
      obtain ⟨l', h1, _, h3⟩ := Inv_OnProcessDeath _ d' l s.userdata c hinv1 hc hnf h
      exact ⟨l', h1, h3⟩

theorem Inv_Dispatcher_RunAsUser (d d' : Dispatcher) (l : List Nat) (command user : Str)
    (env : DispatchEnv) (ok : Bool) (hinv : Inv d l)
    (h : Dispatcher_RunAsUser d command user env = RunResult.returned ok d') :
    ∃ l', Inv d' l' := by
  unfold Dispatcher_RunAsUser at h
  by_cases hf1 : env.fork = -1
  · rw [if_pos hf1] at h
    cases h
    exact ⟨l, hinv⟩
  · rw [if_neg hf1] at h
    by_cases hf0 : env.fork = 0
    · rw [if_pos hf0] at h
      split at h <;> cases h
    · rw [if_neg hf0] at h
      simp only at h
      by_cases ht : env.add_time_relative < 0
      · rw [if_pos ht] at h
        cases h
        have := Inv_alloc_free d l
          { pid := env.fork, timer_event := none, death_event := none, dispatcher := false,
            prev := none, next := none } [] (d.kills ++ [(env.fork, SIGKILL)]) hinv rfl rfl
          (fun s hs => by cases hs)
        rw [List.append_nil] at this
        exact ⟨l, this⟩
      · rw [if_neg ht] at h
        by_cases hc : env.add_child < 0
        · rw [if_pos hc] at h
          cases h
          refine ⟨l, Inv_alloc_free d l _ [_] _ hinv rfl rfl ?_⟩
          intro s hs
          simp only [List.mem_singleton] at hs
          rw [hs]
        · rw [if_neg hc] at h
          cases h
          exact ⟨_, Inv_registered d l env.fork hinv⟩

theorem Inv_step (d d' : Dispatcher) (l : List Nat) (e : Event) (hinv : Inv d l)
    (h : step d e = some d') : ∃ l', Inv d' l' := by
  cases e with
  | dispatch command user env =>
    simp only [step] at h
    cases hr : Dispatcher_RunAsUser d command user env with
    | returned ok d1 =>
      rw [hr] at h
      simp only [Option.some.injEq] at h
      subst h
      exact Inv_Dispatcher_RunAsUser d d1 l command user env ok hinv hr
    | exited status => rw [hr] at h; cases h
  | fire source k =>
    simp only [step] at h
    obtain ⟨l', h1, _⟩ := Inv_sd_event_dispatch d d' l source k hinv h
    exact ⟨l', h1⟩

theorem Inv_run (es : List Event) (d d' : Dispatcher) (l : List Nat) (hinv : Inv d l)
    (h : run es d = some d') : ∃ l', Inv d' l' := by
  induction es generalizing d l with
  | nil =>
    simp only [run, Option.some.injEq] at h
    subst h
    exact ⟨l, hinv⟩
  | cons e es ih =>
    simp only [run] at h
    cases hs : step d e with
    | none => rw [hs] at h; cases h
    | some d1 =>
      rw [hs] at h
      obtain ⟨l1, hinv1⟩ := Inv_step d d1 l e hinv hs
      exact ih d1 l1 hinv1 h

theorem Inv_of_Reachable (d : Dispatcher) (h : Reachable d) : ∃ l, Inv d l := by
  obtain ⟨es, hes⟩ := h
  exact Inv_run es Dispatcher_New d [] Inv_init hes

/-! ### The handlers in reachable states

`RemoveProcess` clears `next->prev` and `prev->next` where an unlink would set
them to the other neighbour.  Removing the head or the last object of the list
is not affected.  Removing an object in the middle cuts the objects behind it
off the list; they keep their sources, and the first of them has `prev == NULL`
without being the head, so the assertion fails when its handler runs.  The
invariant `Inv` describes the list that stays reachable from
`dispatcher->processes`; for the objects on it the handlers behave as meant. -/

theorem remove_free_fields (d d2 : Dispatcher) (x : Nat) (c : DispatcherProcess)
    (hx : d.memory[x]? = some c) (hns : c.next ≠ some x) (h : RemoveProcess d x = some d2) :
    (DispatcherProcess_Free d2 x).freed = d.freed ++ [x] ∧
    (DispatcherProcess_Free d2 x).kills = d.kills := by
  obtain ⟨hfreed, _, hkills, _, _, hmem⟩ := RemoveProcess_spec d d2 x c hx hns h
  have hx2 : d2.memory[x]? =
      some { c with dispatcher := false, prev := none, next := none } := by
    rw [hmem x, if_pos rfl]
  rw [DispatcherProcess_Free_spec d2 x _ hx2]
  exact ⟨by rw [← hfreed], hkills⟩

theorem lastOr_eq_none (l : List Nat) (h : lastOr none l = none) : l = [] := by
  cases l.eq_nil_or_concat with
  | inl hnil => exact hnil
  | inr hc =>
    obtain ⟨l', q, hq⟩ := hc
    rw [List.concat_eq_append] at hq
    rw [hq, lastOr_concat] at h
    cases h

/-- An object of the tracked list can be unlinked: the assertion of
`RemoveProcess` holds for it. -/
theorem RemoveProcess_of_mem (d : Dispatcher) (l : List Nat) (x : Nat) (c : DispatcherProcess)
    (hinv : Inv d l) (hx : d.memory[x]? = some c) (hxl : x ∈ l) :
    ∃ d2, RemoveProcess d x = some d2 := by
  apply RemoveProcess_isSome d x c hx (hinv.noself x c hx)
  intro hprev
  obtain ⟨pre, post, rfl⟩ := List.append_of_mem hxl
  obtain ⟨mid, hpre, hrest⟩ := (Linked_append d.memory pre (x :: post) none d.processes none).1
    hinv.linked
  obtain ⟨hmid, c', hc', hprev', hdisp, _⟩ := hrest
  rw [hx] at hc'
  cases hc'
  rw [hprev] at hprev'
  have hnil : pre = [] := lastOr_eq_none pre hprev'.symm
  subst hnil
  have : d.processes = mid := hpre
  exact ⟨hdisp, by rw [this, hmid]⟩

theorem step_freed (d d' : Dispatcher) (l : List Nat) (e : Event) (hinv : Inv d l)
    (h : step d e = some d') : ∀ p ∈ d.freed, p ∈ d'.freed := by
  cases e with
  | dispatch command user env =>
    simp only [step] at h
    cases hr : Dispatcher_RunAsUser d command user env with
    | exited status => rw [hr] at h; cases h
    | returned ok d1 =>
      rw [hr] at h
      simp only [Option.some.injEq] at h
      subst h
      unfold Dispatcher_RunAsUser at hr
      by_cases hf1 : env.fork = -1
      · rw [if_pos hf1] at hr
        cases hr
        exact fun p hp => hp
      · rw [if_neg hf1] at hr
        by_cases hf0 : env.fork = 0
        · rw [if_pos hf0] at hr
          split at hr <;> cases hr
        · rw [if_neg hf0] at hr
          simp only at hr
          by_cases ht : env.add_time_relative < 0
          · rw [if_pos ht] at hr
            cases hr
            exact fun p hp => List.mem_append_left _ hp
          · rw [if_neg ht] at hr
            by_cases hc : env.add_child < 0
            · rw [if_pos hc] at hr
              cases hr
              exact fun p hp => List.mem_append_left _ hp
            · rw [if_neg hc] at hr
              cases hr
              intro p hp
              rw [(AddProcess_fields _ _).2.2.1]
              exact hp
  | fire source k =>
    simp only [step] at h
    unfold sd_event_dispatch at h
    cases ha : armed d source with
    | none => rw [ha] at h; cases h
    | some s =>
      rw [ha] at h
      simp only at h
      obtain ⟨hs, hen⟩ := armed_eq_some d source s ha
      obtain ⟨_, c, hc, _⟩ := hinv.owner source s hs hen
      have hns := hinv.noself s.userdata c hc
      cases hkind : s.kind with
      | time clock usec accuracy =>
        rw [hkind] at h
        simp only [OnTimerExpiration, hc] at h
        by_cases hk : k = -1
        · rw [if_pos hk] at h
          cases h
          exact fun p hp => hp
        · rw [if_neg hk] at h
          split at h
          · cases h
          · rename_i d2 hr
            cases h
            intro p hp
            rw [(remove_free_fields
              { d with
                sources := sd_event_source_disable_unref d.sources (some source),
                kills := d.kills ++ [(c.pid, SIGKILL)] } d2 s.userdata c hc hns hr).1]
            exact List.mem_append_left _ hp
      | child pid options =>
        rw [hkind] at h
        simp only [OnProcessDeath] at h
        split at h
        · cases h
        · rename_i d2 hr
          cases h
          intro p hp
          rw [(remove_free_fields
            { d with sources := sd_event_source_disable_unref d.sources (some source) }
            d2 s.userdata c hc hns hr).1]
          exact List.mem_append_left _ hp

theorem run_freed (es : List Event) (d d' : Dispatcher) (l : List Nat) (hinv : Inv d l)
    (h : run es d = some d') : (∀ p ∈ d.freed, p ∈ d'.freed) ∧ ∃ l', Inv d' l' := by
  induction es generalizing d l with
  | nil =>
    simp only [run, Option.some.injEq] at h
    subst h
    exact ⟨fun p hp => hp, l, hinv⟩
  | cons e es ih =>
    simp only [run] at h
    cases hs : step d e with
    | none => rw [hs] at h; cases h
    | some d1 =>
      rw [hs] at h
      obtain ⟨l1, hinv1⟩ := Inv_step d d1 l e hinv hs
      obtain ⟨hmono, hl'⟩ := ih d1 l1 hinv1 h
      exact ⟨fun p hp => hmono p (step_freed d d1 l e hinv hs p hp), hl'⟩

/-- Once an object is freed, in every later state it is outside the tracked
list, it was freed exactly once, and no source that can fire belongs to it. -/
theorem freed_forever (es : List Event) (d d' : Dispatcher) (l : List Nat) (x : Nat)
    (hinv : Inv d l) (hx : x ∈ d.freed) (h : run es d = some d') :
    x ∉ tracked d' ∧ d'.freed.count x = 1 ∧
      ∀ hd s, armed d' hd = some s → s.userdata ≠ x := by
  obtain ⟨hmono, l', hinv'⟩ := run_freed es d d' l hinv h
  have hx' := hmono x hx
  refine ⟨?_, ?_, ?_⟩
  · rw [tracked_of_Inv d' l' hinv']
    exact fun hm => hinv'.live x hm hx'
  · exact List.count_eq_one_of_mem hinv'.freed_nodup hx'
  · intro hd s ha e
    obtain ⟨hs, hen⟩ := armed_eq_some d' hd s ha
    exact (hinv'.owner hd s hs hen).1 (e ▸ hx')

/-- C10: in the parent (`fork` did not return 0), in every reachable state,
`Dispatcher_RunAsUser` returns, and it returns true exactly when `fork` did not
fail (-1) and neither registration returned a negative value.  When it returns
true, the tracked list is the old tracked list with one new object in front
(an address that was not tracked before), that object holds the child's pid and
the handles of the two new sources, the sources of the loop are the old ones
followed by an armed timer on `CLOCK_MONOTONIC` for 5000000 microseconds and an
armed exit watcher for the child's pid, both with the new object as user data,
and nothing was killed or freed.  The timeout `5 * 1000000` is 5000000 and the
32-bit product is the exact product (no overflow). -/
theorem Dispatcher_RunAsUser_parent (d : Dispatcher) (command user : Str) (env : DispatchEnv)
    (hreach : Reachable d) (hparent : env.fork ≠ 0) :
    ∃ ok d', Dispatcher_RunAsUser d command user env = RunResult.returned ok d' ∧
      (ok = true ↔ env.fork ≠ -1 ∧ 0 ≤ env.add_time_relative ∧ 0 ≤ env.add_child) ∧
      (ok = true →
        tracked d' = d.memory.length :: tracked d ∧
        d.memory.length ∉ tracked d ∧
        d'.memory[d.memory.length]? = some
          { pid := env.fork, timer_event := some d.sources.length,
            death_event := some (d.sources.length + 1), dispatcher := true,
            prev := none, next := d.processes } ∧
        d'.sources = d.sources ++
          [{ kind := SourceKind.time CLOCK_MONOTONIC 5000000 0,
             userdata := d.memory.length, enabled := true },
           { kind := SourceKind.child env.fork WEXITED,
             userdata := d.memory.length, enabled := true }] ∧
        d'.kills = d.kills ∧ d'.freed = d.freed) ∧
      kDispatchTimeoutSec * kUsecPerSec = 5000000 ∧
      int_mul kDispatchTimeoutSec kUsecPerSec = kDispatchTimeoutSec * kUsecPerSec ∧
      kDispatchTimeoutSec * kUsecPerSec < 2 ^ 31 := by
  obtain ⟨l, hinv⟩ := Inv_of_Reachable d hreach
  have harith : kDispatchTimeoutSec * kUsecPerSec = 5000000 ∧
      int_mul kDispatchTimeoutSec kUsecPerSec = kDispatchTimeoutSec * kUsecPerSec ∧
      kDispatchTimeoutSec * kUsecPerSec < 2 ^ 31 := by
    refine ⟨by decide, by decide, by decide⟩
  by_cases hok : env.fork ≠ -1 ∧ 0 ≤ env.add_time_relative ∧ 0 ≤ env.add_child
  · obtain ⟨hf1, ht, hc⟩ := hok
    refine ⟨true, AddProcess (registered d env.fork) d.memory.length,
      Dispatcher_RunAsUser_ok d command user env hf1 hparent ht hc,
      ⟨fun _ => ⟨hf1, ht, hc⟩, fun _ => rfl⟩, ?_, harith⟩
    intro _
    have hinv' := Inv_registered d l env.fork hinv
    have hnew : (registered d env.fork).memory[d.memory.length]? =
        some (newObject d env.fork) := by
      simp [registered]
    have hhead : (registered d env.fork).processes ≠ some d.memory.length := by
      intro e
      have hmem := Linked_start_mem _ _ _ _ hinv.linked _ e
      exact Nat.lt_irrefl _ (Linked_lt _ _ _ _ _ hinv.linked _ hmem)
    obtain ⟨_, hs', hf', hk', _⟩ := AddProcess_fields (registered d env.fork) d.memory.length
    refine ⟨?_, ?_, ?_, ?_, hk', hf'⟩
    · rw [tracked_of_Inv _ _ hinv', tracked_of_Inv d l hinv]
    · rw [tracked_of_Inv d l hinv]
      exact fun hm => Nat.lt_irrefl _ (Linked_lt _ _ _ _ _ hinv.linked _ hm)
    · rw [AddProcess_memory _ _ _ hnew hhead, if_pos rfl]
      rfl
    · rw [hs']
      have h5 : to_uint64 (int_mul kDispatchTimeoutSec kUsecPerSec) = 5000000 := by decide
      simp only [registered, newTimer, newDeath, h5]
  · have hfalse : ∃ d', Dispatcher_RunAsUser d command user env = RunResult.returned false d' := by
      unfold Dispatcher_RunAsUser
      by_cases hf1 : env.fork = -1
      · rw [if_pos hf1]; exact ⟨_, rfl⟩
      · rw [if_neg hf1, if_neg hparent]
        simp only
        by_cases ht : env.add_time_relative < 0
        · rw [if_pos ht]; exact ⟨_, rfl⟩
        · rw [if_neg ht]
          by_cases hc : env.add_child < 0
          · rw [if_pos hc]; exact ⟨_, rfl⟩
          · exact absurd ⟨hf1, not_lt.1 ht, not_lt.1 hc⟩ hok
    obtain ⟨d', hd'⟩ := hfalse
    refine ⟨false, d', hd', ⟨fun h => (by cases h), fun h => absurd h hok⟩, ?_, harith⟩
    intro h
    cases h

/-- C10, at an example: with two helpers tracked, a third dispatch in which
`fork` gives pid 103 and both registrations succeed returns true and puts the
new object, address 2, in front of the tracked list. -/
theorem Dispatcher_RunAsUser_parent_witness :
    ∃ d', Dispatcher_RunAsUser
        (AddProcess (registered (AddProcess (registered Dispatcher_New 101) 0) 102) 1)
        (str "true") (str "alice") (forkOk 103) = RunResult.returned true d' ∧
      tracked d' = [2, 1, 0] := by
  obtain ⟨ok, d', hrun, hiff, hlist, _⟩ := Dispatcher_RunAsUser_parent
    (AddProcess (registered (AddProcess (registered Dispatcher_New 101) 0) 102) 1)
    (str "true") (str "alice") (forkOk 103)
    ⟨[Event.dispatch (str "true") (str "alice") (forkOk 101),
      Event.dispatch (str "true") (str "alice") (forkOk 102)], by decide⟩
    (by decide)
  have hok : ok = true := hiff.2 ⟨by decide, by decide, by decide⟩
  subst hok
  refine ⟨d', hrun, ?_⟩
  rw [(hlist rfl).1]
  decide

/-- C9, as the code has it: in every reachable state, when the timer of a
process of the tracked list fires (so before its exit notification, whose
watcher would have switched the timer off), the handler returns (the assertion
of `RemoveProcess` holds) after exactly one `kill` call, with `SIGKILL` for the
pid of the process.  When `kill` does not return -1, the process is removed
from the tracked list and freed, once; and in every state reached later it is
still outside the tracked list, still freed exactly once, and no source that
can fire has it as user data: its exit watcher is off, so no exit notification
for it runs a second removal.  When `kill` returns -1 the handler returns at
once: the process stays in the tracked list, nothing is freed, and every other
source, its exit watcher among them, is as armed as before. -/
theorem OnTimerExpiration_of_tracked (d : Dispatcher) (source : Nat) (s : EventSource)
    (clock : Int) (usec accuracy : Nat) (kill_result : Int)
    (hreach : Reachable d) (harmed : armed d source = some s)
    (hkind : s.kind = SourceKind.time clock usec accuracy)
    (htracked : s.userdata ∈ tracked d) :
    ∃ object d', d.memory[s.userdata]? = some object ∧
      sd_event_dispatch d source kill_result = some d' ∧
      d'.kills = d.kills ++ [(object.pid, SIGKILL)] ∧
      (kill_result ≠ -1 →
        s.userdata ∉ tracked d' ∧ s.userdata ∉ d.freed ∧
        d'.freed = d.freed ++ [s.userdata] ∧
        ∀ es d'', run es d' = some d'' →
          s.userdata ∉ tracked d'' ∧ d''.freed.count s.userdata = 1 ∧
          ∀ h s', armed d'' h = some s' → s'.userdata ≠ s.userdata) ∧
      (kill_result = -1 →
        s.userdata ∈ tracked d' ∧ tracked d' = tracked d ∧ d'.freed = d.freed ∧
        armed d' source = none ∧ ∀ h, h ≠ source → armed d' h = armed d h) := by
  obtain ⟨l, hinv⟩ := Inv_of_Reachable d hreach
  obtain ⟨hs, hen⟩ := armed_eq_some d source s harmed
  obtain ⟨hnf, c, hc, _⟩ := hinv.owner source s hs hen
  rw [tracked_of_Inv d l hinv] at htracked
  have hinv1 : Inv { d with
      sources := sd_event_source_disable_unref d.sources (some source),
      kills := d.kills ++ [(c.pid, SIGKILL)] } l :=
    Inv_kills _ l _ (Inv_disable d l (some source) hinv)
  have hdisp : sd_event_dispatch d source kill_result =
      OnTimerExpiration { d with sources := sd_event_source_disable_unref d.sources (some source) }
        s.userdata kill_result := by
    unfold sd_event_dispatch
    rw [harmed]
    simp only [hkind]
  by_cases hk : kill_result = -1
  · refine ⟨c, { d with
      sources := sd_event_source_disable_unref d.sources (some source),
      kills := d.kills ++ [(c.pid, SIGKILL)] }, hc, ?_, rfl, fun h => absurd hk h, ?_⟩
    · rw [hdisp]
      simp only [OnTimerExpiration, hc, hk, if_true]
    · intro _
      have htr : tracked { d with
          sources := sd_event_source_disable_unref d.sources (some source),
          kills := d.kills ++ [(c.pid, SIGKILL)] } = tracked d := rfl
      refine ⟨?_, htr, rfl, ?_, ?_⟩
      · rw [htr, tracked_of_Inv d l hinv]
        exact htracked
      · unfold armed
        simp only [disable_get, if_true, hs, Option.map_some']
        rfl
      · intro h hne
        have hne' : ¬ (some source = some h) := fun e => hne (Option.some.inj e).symm
        unfold armed
        simp only [disable_get, if_neg hne']
  · obtain ⟨d2, hd2⟩ := RemoveProcess_of_mem _ l s.userdata c hinv1 hc htracked
    have hns := hinv.noself s.userdata c hc
    obtain ⟨hfreed, hkills⟩ := remove_free_fields
      { d with
        sources := sd_event_source_disable_unref d.sources (some source),
        kills := d.kills ++ [(c.pid, SIGKILL)] } d2 s.userdata c hc hns hd2
    obtain ⟨l', hinv', hxl', _⟩ := Inv_remove_free _ d2 l s.userdata c hinv1 hc hnf hd2
    refine ⟨c, DispatcherProcess_Free d2 s.userdata, hc, ?_, hkills, ?_, fun h => absurd h hk⟩
    · rw [hdisp]
      simp only [OnTimerExpiration, hc, hk, if_false, hd2]
    · intro _
      refine ⟨?_, hnf, hfreed, ?_⟩
      · rw [tracked_of_Inv _ l' hinv']
        exact hxl'
      · intro es d'' hrun
        apply freed_forever es _ d'' l' s.userdata hinv' _ hrun
        rw [hfreed]
        exact List.mem_append_right _ (List.mem_singleton_self _)

/-- C9, at an example: three helpers are tracked and the timer of the first one
(source 0, object 0, pid 101) fires.  With `kill` succeeding the object leaves
the tracked list and is freed; with `kill` failing it stays tracked. -/
theorem OnTimerExpiration_of_tracked_witness :
    ∃ d d', run threeDispatched Dispatcher_New = some d ∧
      sd_event_dispatch d 0 0 = some d' ∧
      d'.kills = d.kills ++ [(101, SIGKILL)] ∧ 0 ∉ tracked d' ∧ d'.freed = d.freed ++ [0] := by
  have hrun : run threeDispatched Dispatcher_New =
      some (AddProcess (registered (AddProcess (registered
        (AddProcess (registered Dispatcher_New 101) 0) 102) 1) 103) 2) := by decide
  obtain ⟨object, d', hobj, hfire, hkills, hok, _⟩ := OnTimerExpiration_of_tracked
    (AddProcess (registered (AddProcess (registered
        (AddProcess (registered Dispatcher_New 101) 0) 102) 1) 103) 2)
    0 { kind := SourceKind.time CLOCK_MONOTONIC 5000000 0, userdata := 0, enabled := true }
    CLOCK_MONOTONIC 5000000 0 0 ⟨threeDispatched, hrun⟩ (by decide) rfl (by decide)
  have hobj' : object.pid = 101 := by
    have h0 : (AddProcess (registered (AddProcess (registered
        (AddProcess (registered Dispatcher_New 101) 0) 102) 1) 103) 2).memory[0]? =
        some { pid := 101, timer_event := some 0, death_event := some 1, dispatcher := true,
               prev := some 1, next := none } := by decide
    have hobj2 : (AddProcess (registered (AddProcess (registered
        (AddProcess (registered Dispatcher_New 101) 0) 102) 1) 103) 2).memory[0]? =
        some object := hobj
    rw [h0] at hobj2
    cases hobj2
    rfl
  rw [hobj'] at hkills
  obtain ⟨h1, _, h3, _⟩ := hok (by decide)
  exact ⟨_, d', hrun, hfire, hkills, h1, h3⟩

/-- C9 fails as stated: one helper (pid 101, object 0, timer source 0, exit
watcher source 1) is tracked and its timer fires first, but `kill` returns -1.
`SIGKILL` was sent once, yet the process is still in the tracked list, it was
not freed, and its exit watcher is still armed; the exit notification that
follows does remove and free it. -/
theorem OnTimerExpiration_kill_fails_keeps_process :
    ((run [Event.dispatch (str "true") (str "alice") (forkOk 101), Event.fire 0 (-1)]
        Dispatcher_New).map
      (fun d => (d.kills, tracked d, d.freed, armed d 1))) =
      some ([(101, SIGKILL)], [0], [],
        some { kind := SourceKind.child 101 WEXITED, userdata := 0, enabled := true }) ∧
    ((run [Event.dispatch (str "true") (str "alice") (forkOk 101), Event.fire 0 (-1),
        Event.fire 1 0] Dispatcher_New).map
      (fun d => (tracked d, d.freed))) = some ([], [0]) := by
  constructor <;> decide

/-- For a process that is still in the tracked list the exit handler does what
is expected of it: in every reachable state, when the exit watcher of such a
process fires, the handler returns, the process leaves the tracked list and is
freed once without any `kill`, and in every later state it is outside the
tracked list, freed exactly once, and none of its sources (its timer among
them) can fire. -/
theorem OnProcessDeath_of_tracked (d : Dispatcher) (source : Nat) (s : EventSource)
    (pid options : Int) (kill_result : Int)
    (hreach : Reachable d) (harmed : armed d source = some s)
    (hkind : s.kind = SourceKind.child pid options)
    (htracked : s.userdata ∈ tracked d) :
    ∃ d', sd_event_dispatch d source kill_result = some d' ∧
      d'.kills = d.kills ∧ s.userdata ∉ tracked d' ∧ s.userdata ∉ d.freed ∧
      d'.freed = d.freed ++ [s.userdata] ∧
      ∀ es d'', run es d' = some d'' →
        s.userdata ∉ tracked d'' ∧ d''.freed.count s.userdata = 1 ∧
        ∀ h s', armed d'' h = some s' → s'.userdata ≠ s.userdata := by
  obtain ⟨l, hinv⟩ := Inv_of_Reachable d hreach
  obtain ⟨hs, hen⟩ := armed_eq_some d source s harmed
  obtain ⟨hnf, c, hc, _⟩ := hinv.owner source s hs hen
  rw [tracked_of_Inv d l hinv] at htracked
  have hinv1 : Inv { d with sources := sd_event_source_disable_unref d.sources (some source) } l :=
    Inv_disable d l (some source) hinv
  have hdisp : sd_event_dispatch d source kill_result =
      OnProcessDeath { d with sources := sd_event_source_disable_unref d.sources (some source) }
        s.userdata := by
    unfold sd_event_dispatch
    rw [harmed]
    simp only [hkind]
  obtain ⟨d2, hd2⟩ := RemoveProcess_of_mem _ l s.userdata c hinv1 hc htracked
  have hns := hinv.noself s.userdata c hc
  obtain ⟨hfreed, hkills⟩ := remove_free_fields
    { d with sources := sd_event_source_disable_unref d.sources (some source) }
    d2 s.userdata c hc hns hd2
  obtain ⟨l', hinv', hxl', _⟩ := Inv_remove_free _ d2 l s.userdata c hinv1 hc hnf hd2
  refine ⟨DispatcherProcess_Free d2 s.userdata, ?_, hkills, ?_, hnf, hfreed, ?_⟩
  · rw [hdisp]
    simp only [OnProcessDeath, hd2]
  · rw [tracked_of_Inv _ l' hinv']
    exact hxl'
  · intro es d'' hrun
    apply freed_forever es _ d'' l' s.userdata hinv' _ hrun
    rw [hfreed]
    exact List.mem_append_right _ (List.mem_singleton_self _)

/-- C8 fails on the code: three helpers are dispatched (pids 101, 102, 103 at
objects 0, 1, 2; the tracked list is 2, 1, 0) and the middle one, pid 102,
exits first (source 3).  `RemoveProcess` clears `next` of object 2 and `prev`
of object 0 instead of linking them, so the tracked list is cut down to object
2, while object 0 (pid 101) is not freed and keeps its timer (source 0) and its
exit watcher (source 1) armed.  When pid 101 then exits before its timeout, its
exit handler finds `prev == NULL` on an object that is not the head: the
assertion fails and the daemon aborts (no state follows), so the process is
neither removed nor freed and its timer is not disabled by the handler.  The
same happens when its timer fires instead. -/
theorem OnProcessDeath_after_middle_removed_aborts :
    (run threeDispatched Dispatcher_New).map tracked = some [2, 1, 0] ∧
    ((run (threeDispatched ++ [Event.fire 3 0]) Dispatcher_New).map
      (fun d => (tracked d, d.freed, armed d 0, armed d 1, d.memory[0]?))) =
      some ([2], [1],
        some { kind := SourceKind.time CLOCK_MONOTONIC 5000000 0, userdata := 0, enabled := true },
        some { kind := SourceKind.child 101 WEXITED, userdata := 0, enabled := true },
        some { pid := 101, timer_event := some 0, death_event := some 1, dispatcher := true,
               prev := none, next := none }) ∧
    ((run (threeDispatched ++ [Event.fire 3 0]) Dispatcher_New).bind
      (fun d => OnProcessDeath d 0)) = none ∧
    run (threeDispatched ++ [Event.fire 3 0, Event.fire 1 0]) Dispatcher_New = none ∧
    run (threeDispatched ++ [Event.fire 3 0, Event.fire 0 0]) Dispatcher_New = none := by
  refine ⟨by decide, by decide, by decide, by decide, by decide⟩

/-! ### Failure of a dispatch, shutdown, and `RemoveProcess` on its own -/

/-- C11: in every reachable state, when `Dispatcher_RunAsUser` returns false
(so in the parent), the tracked list and the head pointer are as before.  When
`fork` failed (-1) the state is unchanged altogether: no `kill`, no source, no
allocation.  When `fork` succeeded, one of the two registrations returned a
negative value, exactly one `kill` call was made, with `SIGKILL` for the
child's pid, no source that can fire was added, and the process object that
had been allocated for the child was freed again. -/
theorem Dispatcher_RunAsUser_failure (d d' : Dispatcher) (command user : Str)
    (env : DispatchEnv) (hreach : Reachable d)
    (hfail : Dispatcher_RunAsUser d command user env = RunResult.returned false d') :
    tracked d' = tracked d ∧ d'.processes = d.processes ∧
    (env.fork = -1 → d' = d) ∧
    (env.fork ≠ -1 →
      (env.add_time_relative < 0 ∨ env.add_child < 0) ∧
      d'.kills = d.kills ++ [(env.fork, SIGKILL)] ∧
      d'.freed = d.freed ++ [d.memory.length] ∧
      ∀ h, armed d' h = armed d h) := by
  obtain ⟨l, hinv⟩ := Inv_of_Reachable d hreach
  unfold Dispatcher_RunAsUser at hfail
  by_cases hf1 : env.fork = -1
  · rw [if_pos hf1] at hfail
    cases hfail
    exact ⟨rfl, rfl, fun _ => rfl, fun h => absurd hf1 h⟩
  · rw [if_neg hf1] at hfail
    by_cases hf0 : env.fork = 0
    · rw [if_pos hf0] at hfail
      split at hfail <;> cases hfail
    · rw [if_neg hf0] at hfail
      simp only at hfail
      by_cases ht : env.add_time_relative < 0
      · rw [if_pos ht] at hfail
        cases hfail
        have hinv' := Inv_alloc_free d l
          { pid := env.fork, timer_event := none, death_event := none, dispatcher := false,
            prev := none, next := none } [] (d.kills ++ [(env.fork, SIGKILL)]) hinv rfl rfl
          (fun s hs => by cases hs)
        rw [List.append_nil] at hinv'
        refine ⟨?_, rfl, fun h => absurd h hf1, fun _ => ⟨Or.inl ht, rfl, rfl, fun h => rfl⟩⟩
        rw [tracked_of_Inv _ l hinv', tracked_of_Inv d l hinv]
      · rw [if_neg ht] at hfail
        by_cases hc : env.add_child < 0
        · rw [if_pos hc] at hfail
          cases hfail
          have hinv' := Inv_alloc_free d l
            { pid := env.fork, timer_event := none, death_event := none, dispatcher := false,
              prev := none, next := none }
            [{ kind := SourceKind.time CLOCK_MONOTONIC
                (to_uint64 (int_mul kDispatchTimeoutSec kUsecPerSec)) 0,
               userdata := d.memory.length, enabled := false }]
            (d.kills ++ [(env.fork, SIGKILL)]) hinv rfl rfl
            (fun s hs => by simp only [List.mem_singleton] at hs; rw [hs])
          refine ⟨?_, rfl, fun h => absurd h hf1, fun _ => ⟨Or.inr hc, rfl, rfl, ?_⟩⟩
          · rw [tracked_of_Inv _ l hinv', tracked_of_Inv d l hinv]
          · intro h
            unfold armed
            simp only [append_get]
            by_cases hh : h = d.sources.length
            · rw [if_pos hh, hh, List.getElem?_eq_none (Nat.le_refl _)]
              rfl
            · rw [if_neg hh]
        · rw [if_neg hc] at hfail
          cases hfail

/-- C11, at an example: with three helpers tracked, a dispatch in which `fork`
gives pid 104 and the exit watcher cannot be registered returns false, sends
`SIGKILL` to 104 and leaves the tracked list as it was. -/
theorem Dispatcher_RunAsUser_failure_witness :
    ∃ d d', run threeDispatched Dispatcher_New = some d ∧
      Dispatcher_RunAsUser d (str "true") (str "alice")
        { fork := 104, run_as_user := fun _ _ => true, add_time_relative := 0,
          add_child := -12 } = RunResult.returned false d' ∧
      tracked d' = [2, 1, 0] ∧ d'.kills = [(104, SIGKILL)] := by
  have hrun : run threeDispatched Dispatcher_New =
      some (AddProcess (registered (AddProcess (registered
        (AddProcess (registered Dispatcher_New 101) 0) 102) 1) 103) 2) := by decide
  have hcall : Dispatcher_RunAsUser (AddProcess (registered (AddProcess (registered
        (AddProcess (registered Dispatcher_New 101) 0) 102) 1) 103) 2)
      (str "true") (str "alice")
      { fork := 104, run_as_user := fun _ _ => true, add_time_relative := 0,
        add_child := -12 } = RunResult.returned false
      { processes := some 2,
        memory := (AddProcess (registered (AddProcess (registered
          (AddProcess (registered Dispatcher_New 101) 0) 102) 1) 103) 2).memory ++
          [{ pid := 104, timer_event := none, death_event := none, dispatcher := false,
             prev := none, next := none }],
        freed := [3],
        sources := (AddProcess (registered (AddProcess (registered
          (AddProcess (registered Dispatcher_New 101) 0) 102) 1) 103) 2).sources ++
          [{ kind := SourceKind.time CLOCK_MONOTONIC 5000000 0, userdata := 3,
             enabled := false }],
        kills := [(104, SIGKILL)] } := by decide
  obtain ⟨h1, _, _, h4⟩ := Dispatcher_RunAsUser_failure _ _ (str "true") (str "alice") _
    ⟨threeDispatched, hrun⟩ hcall
  refine ⟨_, _, hrun, hcall, ?_, (h4 (by decide)).2.1⟩
  rw [h1]
  decide

theorem DispatcherProcess_Free_memory (d : Dispatcher) (p : Nat) :
    (DispatcherProcess_Free d p).memory = d.memory ∧
    (DispatcherProcess_Free d p).kills = d.kills := by
  unfold DispatcherProcess_Free
  cases d.memory[p]? with
  | none => exact ⟨rfl, rfl⟩
  | some c => exact ⟨rfl, rfl⟩

theorem freeLoop_spec (m : List DispatcherProcess) (l : List Nat) (b s : Option Nat)
    (fuel : Nat) (d : Dispatcher) (hm : d.memory = m) (hl : Linked m b s l none)
    (hfuel : l.length ≤ fuel) :
    (freeLoop fuel d s).kills = d.kills ∧
    ∀ h src, (freeLoop fuel d s).sources[h]? = some src → src.enabled = true →
      d.sources[h]? = some src ∧
      ∀ p ∈ l, ∀ c, m[p]? = some c → c.timer_event ≠ some h ∧ c.death_event ≠ some h := by
  induction l generalizing b s fuel d with
  | nil =>
    have hs : s = none := hl
    subst hs
    cases fuel with
    | zero => exact ⟨rfl, fun h src hsrc _ => ⟨hsrc, fun p hp => by cases hp⟩⟩
    | succ fuel => exact ⟨rfl, fun h src hsrc _ => ⟨hsrc, fun p hp => by cases hp⟩⟩
  | cons p l ih =>
    obtain ⟨hs, c, hc, _, _, hrest⟩ := hl
    subst hs
    cases fuel with
    | zero => simp at hfuel
    | succ fuel =>
      have hc' : d.memory[p]? = some c := by rw [hm]; exact hc
      simp only [freeLoop, hc']
      have hfm := DispatcherProcess_Free_memory d p
      obtain ⟨hk, hsrcs⟩ := ih (some p) c.next fuel (DispatcherProcess_Free d p)
        (by rw [hfm.1, hm]) hrest (by simpa using hfuel)
      refine ⟨by rw [hk, hfm.2], ?_⟩
      intro h src hsrc hen
      obtain ⟨h1, h2⟩ := hsrcs h src hsrc hen
      rw [DispatcherProcess_Free_spec d p c hc'] at h1
      simp only [disable_get] at h1
      have ht : c.timer_event ≠ some h := by
        intro e
        rw [if_pos e] at h1
        split at h1
        · cases hsrc0 : d.sources[h]? with
          | none => rw [hsrc0] at h1; cases h1
          | some s0 =>
            rw [hsrc0] at h1
            simp only [Option.map_some', Option.some.injEq] at h1
            rw [← h1] at hen
            cases hen
        · cases hsrc0 : d.sources[h]? with
          | none => rw [hsrc0] at h1; cases h1
          | some s0 =>
            rw [hsrc0] at h1
            simp only [Option.map_some', Option.some.injEq] at h1
            rw [← h1] at hen
            cases hen
      rw [if_neg ht] at h1
      have hdth : c.death_event ≠ some h := by
        intro e
        rw [if_pos e] at h1
        cases hsrc0 : d.sources[h]? with
        | none => rw [hsrc0] at h1; cases h1
        | some s0 =>
          rw [hsrc0] at h1
          simp only [Option.map_some', Option.some.injEq] at h1
          rw [← h1] at hen
          cases hen
      rw [if_neg hdth] at h1
      refine ⟨h1, ?_⟩
      intro q hq cq hcq
      rcases List.mem_cons.1 hq with h3 | h3
      · subst h3
        rw [hc] at hcq
        cases hcq
        exact ⟨ht, hdth⟩
      · exact h2 q h3 cq hcq

/-- For the processes that are in the tracked list `Dispatcher_Free` does what
is expected of it: in every reachable state it sends no signal, and afterwards
no source that can fire belongs to a process of the tracked list. -/
theorem Dispatcher_Free_of_tracked (d : Dispatcher) (hreach : Reachable d) :
    (Dispatcher_Free d).kills = d.kills ∧
    ∀ h src, armed (Dispatcher_Free d) h = some src → src.userdata ∉ tracked d := by
  obtain ⟨l, hinv⟩ := Inv_of_Reachable d hreach
  have hlen : l.length ≤ d.memory.length :=
    length_le_of_nodup_lt l _ hinv.nodup (fun p hp => Linked_lt _ _ _ _ _ hinv.linked p hp)
  obtain ⟨hk, hsrcs⟩ := freeLoop_spec d.memory l none d.processes d.memory.length d rfl
    hinv.linked hlen
  refine ⟨hk, ?_⟩
  intro h src harmed hmem
  rw [tracked_of_Inv d l hinv] at hmem
  obtain ⟨hsrc, hen⟩ := armed_eq_some _ h src harmed
  obtain ⟨hold, hnot⟩ := hsrcs h src hsrc hen
  obtain ⟨_, c, hc, hown⟩ := hinv.owner h src hold hen
  obtain ⟨h1, h2⟩ := hnot src.userdata hmem c hc
  rcases hown with h3 | h3
  · exact h1 h3
  · exact h2 h3

/-- C14 fails on the code: three helpers are dispatched (pids 101, 102, 103 at
objects 0, 1, 2) and the middle one, pid 102, exits (source 3 fires), which
cuts object 0 off the list although pid 101 was neither timed out nor reaped.
`Dispatcher_Free` then walks the list from `dispatcher->processes`, frees
object 2 only, and leaves the timer (source 0) and the exit watcher (source 1)
of pid 101 armed.  It sends no signal.  Without the early exit of pid 102 the
same call switches all six sources off. -/
theorem Dispatcher_Free_misses_cut_off_process :
    ((run threeDispatched Dispatcher_New).map
      (fun d => ((Dispatcher_Free d).freed, (Dispatcher_Free d).kills,
        (Dispatcher_Free d).sources.map EventSource.enabled))) =
      some ([2, 1, 0], [], [false, false, false, false, false, false]) ∧
    ((run (threeDispatched ++ [Event.fire 3 0]) Dispatcher_New).map
      (fun d => (tracked d, d.freed, (Dispatcher_Free d).freed, (Dispatcher_Free d).kills))) =
      some ([2], [1], [1, 2], []) ∧
    ((run (threeDispatched ++ [Event.fire 3 0]) Dispatcher_New).map
      (fun d => (armed (Dispatcher_Free d) 0, armed (Dispatcher_Free d) 1))) =
      some
        (some { kind := SourceKind.time CLOCK_MONOTONIC 5000000 0, userdata := 0, enabled := true },
         some { kind := SourceKind.child 101 WEXITED, userdata := 0, enabled := true }) := by
  refine ⟨by decide, by decide, by decide⟩

/-- C19 fails on the code: in the list 2, 1, 0 built by three `AddProcess`
calls, `RemoveProcess` of the head leaves 1, 0 and `RemoveProcess` of the last
object leaves 2, 1, but `RemoveProcess` of the middle object 1 leaves the list
2 alone: `next` of object 2 and `prev` of object 0 are NULL instead of pointing
to each other, so object 0 is no longer reachable from the head. -/
theorem RemoveProcess_middle_drops_tail :
    (run threeDispatched Dispatcher_New).map tracked = some [2, 1, 0] ∧
    ((run threeDispatched Dispatcher_New).bind (fun d => RemoveProcess d 2)).map tracked =
      some [1, 0] ∧
    ((run threeDispatched Dispatcher_New).bind (fun d => RemoveProcess d 0)).map tracked =
      some [2, 1] ∧
    ((run threeDispatched Dispatcher_New).bind (fun d => RemoveProcess d 1)).map
      (fun d => (tracked d, d.processes,
        (d.memory[2]?).map DispatcherProcess.next, (d.memory[0]?).map DispatcherProcess.prev)) =
      some ([2], some 2, some none, some none) := by
  refine ⟨by decide, by decide, by decide, by decide⟩

/-- C20 fails on the code: after three `AddProcess` calls (objects 0, 1, 2, all
added and none removed), `RemoveProcess` of object 1 returns and leaves object
0 with its `dispatcher` pointer set and `prev == NULL` while the head of the
list is object 2; `RemoveProcess` of object 0, which was added and not yet
removed, then fails the assertion. -/
theorem RemoveProcess_assertion_fails :
    ((run threeDispatched Dispatcher_New).bind (fun d => RemoveProcess d 1)).map
      (fun d => (d.processes, d.memory[0]?)) =
      some (some 2,
        some { pid := 101, timer_event := some 0, death_event := some 1,
               dispatcher := true, prev := none, next := none }) ∧
    ((run threeDispatched Dispatcher_New).bind (fun d => RemoveProcess d 1)).bind
      (fun d => RemoveProcess d 0) = none := by
  constructor <;> decide

/-! ## Theorems: the unit name -/

theorem strchr_of_not_mem (s : Str) (c : CChar) (h : c ∉ s) : strchr s c = none := by
  induction s with
  | nil => rfl
  | cons a s ih =>
    have hne : a ≠ c := fun e => h (by rw [e]; exact List.mem_cons_self _ _)
    simp only [strchr, if_neg hne]
    exact ih (fun hm => h (List.mem_cons_of_mem _ hm))

theorem strchr_first (pre rest : Str) (c : CChar) (h : c ∉ pre) :
    strchr (pre ++ c :: rest) c = some (c :: rest) := by
  induction pre with
  | nil => simp [strchr]
  | cons a pre ih =>
    have hne : a ≠ c := fun e => h (by rw [e]; exact List.mem_cons_self _ _)
    simp only [List.cons_append, strchr, if_neg hne]
    exact ih (fun hm => h (List.mem_cons_of_mem _ hm))

theorem GetUnitName_of_suffix (pre rest : Str) (hpre : (46 : CChar) ∉ pre) (hrest : rest ≠ []) :
    GetUnitName (some (pre ++ 46 :: rest)) = some (str "pucro-" ++ rest ++ str ".service") := by
  unfold GetUnitName
  simp only [strchr_first pre rest 46 hpre, List.tail_cons]
  cases rest with
  | nil => exact absurd rfl hrest
  | cons c rest => rfl

/-- C17: `GetUnitName` takes nothing but the unique name of the connection.
For a unique name with a first `.` (character 46) that is followed by at least
one character, the unit name is `pucro-`, then the text after that first `.`,
then `.service`.  For a unique name without a `.`, and for one with nothing
after its first `.`, the result is NULL, and `RunCommandAsTransientUnit` then
returns false without a method call on the bus.  Two unique names whose texts
after the first `.` differ get different unit names. -/
theorem GetUnitName_from_unique_name :
    (∀ pre rest : Str, (46 : CChar) ∉ pre → rest ≠ [] →
      GetUnitName (some (pre ++ 46 :: rest)) =
        some (str "pucro-" ++ rest ++ str ".service")) ∧
    (∀ name : Str, (46 : CChar) ∉ name →
      GetUnitName (some name) = none ∧
      ∀ shell command call_result,
        RunCommandAsTransientUnit (some name) shell command call_result = (false, [])) ∧
    (∀ pre : Str, (46 : CChar) ∉ pre →
      GetUnitName (some (pre ++ [46])) = none ∧
      ∀ shell command call_result,
        RunCommandAsTransientUnit (some (pre ++ [46])) shell command call_result =
          (false, [])) ∧
    (∀ pre1 rest1 pre2 rest2 : Str, (46 : CChar) ∉ pre1 → (46 : CChar) ∉ pre2 →
      rest1 ≠ [] → rest2 ≠ [] → rest1 ≠ rest2 →
      GetUnitName (some (pre1 ++ 46 :: rest1)) ≠ GetUnitName (some (pre2 ++ 46 :: rest2))) := by
  refine ⟨GetUnitName_of_suffix, ?_, ?_, ?_⟩
  · intro name h
    have hnone : GetUnitName (some name) = none := by
      unfold GetUnitName
      simp only [strchr_of_not_mem name 46 h]
    refine ⟨hnone, ?_⟩
    intro shell command call_result
    unfold RunCommandAsTransientUnit
    rw [hnone]
  · intro pre h
    have hnone : GetUnitName (some (pre ++ [46])) = none := by
      unfold GetUnitName
      simp only [strchr_first pre [] 46 h, List.tail_cons]
    refine ⟨hnone, ?_⟩
    intro shell command call_result
    unfold RunCommandAsTransientUnit
    rw [hnone]
  · intro pre1 rest1 pre2 rest2 h1 h2 hr1 hr2 hne heq
    rw [GetUnitName_of_suffix pre1 rest1 h1 hr1, GetUnitName_of_suffix pre2 rest2 h2 hr2] at heq
    simp only [Option.some.injEq, List.append_assoc] at heq
    have h3 := List.append_cancel_left heq
    exact hne (List.append_cancel_right h3)

/-- C17, at examples: the unique names `:1.42` and `:1.43` give the unit names
`pucro-42.service` and `pucro-43.service`; `:1.` and `bus` give none. -/
theorem GetUnitName_from_unique_name_witness :
    GetUnitName (some (str ":1.42")) = some (str "pucro-42.service") ∧
      GetUnitName (some (str ":1.42")) ≠ GetUnitName (some (str ":1.43")) ∧
      GetUnitName (some (str ":1.")) = none ∧
      RunCommandAsTransientUnit (some (str "bus")) (str "/bin/sh") (str "true") 0 = (false, []) :=
  ⟨GetUnitName_from_unique_name.1 (str ":1") (str "42") (by decide) (by decide),
   GetUnitName_from_unique_name.2.2.2 (str ":1") (str "42") (str ":1") (str "43")
     (by decide) (by decide) (by decide) (by decide) (by decide),
   (GetUnitName_from_unique_name.2.2.1 (str ":1") (by decide)).1,
   (GetUnitName_from_unique_name.2.1 (str "bus") (by decide)).2 (str "/bin/sh") (str "true") 0⟩

/-! ## Theorems: the seat tables of input.c and pucro.c -/

theorem HASH_FIND_STR_eq_none {α : Type} (key : α → Str) (head : List α) (k : Str) :
    HASH_FIND_STR key head k = none ↔ ∀ item ∈ head, key item ≠ k := by
  unfold HASH_FIND_STR
  rw [List.find?_eq_none]
  simp

theorem HASH_FIND_STR_some {α : Type} (key : α → Str) (head : List α) (k : Str) (found : α)
    (h : HASH_FIND_STR key head k = some found) : found ∈ head ∧ key found = k := by
  unfold HASH_FIND_STR at h
  have h1 := List.find?_some h
  have h2 := List.mem_of_find?_eq_some h
  exact ⟨h2, by simpa using h1⟩

theorem HASH_FIND_STR_erase_ne {α : Type} [DecidableEq α] (key : α → Str) (head : List α)
    (del : α) (k : Str) (hk : key del ≠ k) :
    HASH_FIND_STR key (HASH_DEL head del) k = HASH_FIND_STR key head k := by
  unfold HASH_FIND_STR HASH_DEL
  induction head with
  | nil => rfl
  | cons a head ih =>
    by_cases had : a = del
    · subst had
      simp [List.find?, hk]
    · rw [List.erase_cons_tail (by simpa using had)]
      simp only [List.find?]
      rw [ih]

theorem mem_erase_key_ne {α : Type} [DecidableEq α] (key : α → Str) (head : List α) (del : α)
    (hnd : (head.map key).Nodup) (hdel : del ∈ head) :
    ∀ item ∈ head.erase del, key item ≠ key del := by
  induction head with
  | nil => cases hdel
  | cons a head ih =>
    rw [List.map_cons, List.nodup_cons] at hnd
    by_cases had : a = del
    · subst had
      rw [List.erase_cons_head]
      intro item hitem e
      exact hnd.1 (e ▸ List.mem_map_of_mem key hitem)
    · rw [List.erase_cons_tail (by simpa using had)]
      have hdel' : del ∈ head := by
        rcases List.mem_cons.1 hdel with h1 | h1
        · exact absurd h1.symm had
        · exact h1
      intro item hitem
      rcases List.mem_cons.1 hitem with h1 | h1
      · subst h1
        intro e
        exact hnd.1 (e ▸ List.mem_map_of_mem key hdel')
      · exact ih hnd.2 hdel' item h1

theorem nodup_erase_keys {α : Type} [DecidableEq α] (key : α → Str) (head : List α) (del : α)
    (hnd : (head.map key).Nodup) : ((head.erase del).map key).Nodup :=
  List.Nodup.sublist (List.Sublist.map key (List.erase_sublist del head)) hnd

theorem InputMonitor_Remove_of_none (monitor : InputMonitor) (seat_id : Str)
    (h : HASH_FIND_STR InputMonitorSeat.seat_id monitor.seats seat_id = none) :
    InputMonitor_Remove monitor seat_id = (false, monitor, []) := by
  unfold InputMonitor_Remove
  rw [h]

/-- C18: `InputMonitor_Remove`.  With an unknown id it returns false, makes no
library call and returns the monitor as it was.  With a registered id it
returns true, takes the entry found for the id out of the table, and releases
what the entry holds: its libinput context, and its event source through
`sd_event_source_disable_unref`; the lookup of every other id answers as
before.  When no id is in the table twice (as in every table built by
`InputMonitor_Add`), the id is unknown afterwards, so a second
`InputMonitor_Remove` of it returns false and changes nothing. -/
theorem InputMonitor_Remove_idempotent (monitor : InputMonitor) (seat_id : Str) :
    (HASH_FIND_STR InputMonitorSeat.seat_id monitor.seats seat_id = none →
      InputMonitor_Remove monitor seat_id = (false, monitor, [])) ∧
    (∀ found, HASH_FIND_STR InputMonitorSeat.seat_id monitor.seats seat_id = some found →
      found ∈ monitor.seats ∧ found.seat_id = seat_id ∧
      InputMonitor_Remove monitor seat_id =
        (true, { seats := monitor.seats.erase found },
          (match found.libinput with
           | some libinput => [InputCall.libinput_unref libinput]
           | none => []) ++
          [InputCall.sd_event_source_disable_unref found.source]) ∧
      (∀ other, other ≠ seat_id →
        HASH_FIND_STR InputMonitorSeat.seat_id (InputMonitor_Remove monitor seat_id).2.1.seats
          other = HASH_FIND_STR InputMonitorSeat.seat_id monitor.seats other) ∧
      ((monitor.seats.map InputMonitorSeat.seat_id).Nodup →
        HASH_FIND_STR InputMonitorSeat.seat_id (InputMonitor_Remove monitor seat_id).2.1.seats
          seat_id = none ∧
        InputMonitor_Remove (InputMonitor_Remove monitor seat_id).2.1 seat_id =
          (false, (InputMonitor_Remove monitor seat_id).2.1, []))) := by
  constructor
  · intro h
    simp [InputMonitor_Remove, h]
  · intro found hfound
    obtain ⟨hmem, hkey⟩ := HASH_FIND_STR_some _ _ _ _ hfound
    have hrem : InputMonitor_Remove monitor seat_id =
        (true, { seats := monitor.seats.erase found },
          (match found.libinput with
           | some libinput => [InputCall.libinput_unref libinput]
           | none => []) ++
          [InputCall.sd_event_source_disable_unref found.source]) := by
      simp [InputMonitor_Remove, hfound, HASH_DEL, InputMonitorSeat_Free]
    refine ⟨hmem, hkey, hrem, ?_, ?_⟩
    · intro other hother
      rw [hrem]
      exact HASH_FIND_STR_erase_ne InputMonitorSeat.seat_id monitor.seats found other
        (by rw [hkey]; exact fun e => hother e.symm)
    · intro hnd
      have hnone : HASH_FIND_STR InputMonitorSeat.seat_id
          (InputMonitor_Remove monitor seat_id).2.1.seats seat_id = none := by
        rw [hrem, HASH_FIND_STR_eq_none]
        intro item hitem
        rw [← hkey]
        exact mem_erase_key_ne InputMonitorSeat.seat_id monitor.seats found hnd hmem item hitem
      exact ⟨hnone, InputMonitor_Remove_of_none _ seat_id hnone⟩

/-- C18, at an example: `seat0` is removed from a monitor that holds `seat0`
and `seat1`; `seat1` stays, and removing `seat0` again fails. -/
theorem InputMonitor_Remove_idempotent_witness :
    InputMonitor_Remove exampleInputMonitor2 (str "seat0") =
      (true, { seats := [{ seat_id := str "seat1", libinput := some 3, source := some 4 }] },
        [InputCall.libinput_unref 1, InputCall.sd_event_source_disable_unref (some 2)]) ∧
    InputMonitor_Remove (InputMonitor_Remove exampleInputMonitor2 (str "seat0")).2.1
        (str "seat0") =
      (false, (InputMonitor_Remove exampleInputMonitor2 (str "seat0")).2.1, []) ∧
    InputMonitor_Remove exampleInputMonitor2 (str "seat7") =
      (false, exampleInputMonitor2, []) :=
  ⟨by
      rw [((InputMonitor_Remove_idempotent exampleInputMonitor2 (str "seat0")).2
        { seat_id := str "seat0", libinput := some 1, source := some 2 } (by decide)).2.2.1]
      decide,
    (((InputMonitor_Remove_idempotent exampleInputMonitor2 (str "seat0")).2
        { seat_id := str "seat0", libinput := some 1, source := some 2 }
        (by decide)).2.2.2.2 (by decide)).2,
    (InputMonitor_Remove_idempotent exampleInputMonitor2 (str "seat7")).1 (by decide)⟩

theorem InputMonitor_Add_seats (monitor : InputMonitor) (seat_id : Str) (env : InputEnv) :
    (InputMonitor_Add monitor seat_id env).2.1.seats = monitor.seats ∨
    (HASH_FIND_STR InputMonitorSeat.seat_id monitor.seats seat_id = none ∧
      ∃ added : InputMonitorSeat, added.seat_id = seat_id ∧
        (InputMonitor_Add monitor seat_id env).2.1.seats = monitor.seats ++ [added]) := by
  unfold InputMonitor_Add
  cases hfind : HASH_FIND_STR InputMonitorSeat.seat_id monitor.seats seat_id with
  | some found => exact Or.inl rfl
  | none =>
    simp only
    cases env.create_context with
    | none => exact Or.inl rfl
    | some libinput =>
      simp only
      by_cases h1 : env.assign_seat = -1
      · rw [if_pos h1]; exact Or.inl rfl
      · rw [if_neg h1]
        by_cases h2 : env.add_io < 0
        · rw [if_pos h2]; exact Or.inl rfl
        · rw [if_neg h2]
          exact Or.inr ⟨trivial, _, rfl, rfl⟩

theorem InputMonitor_Remove_seats (monitor : InputMonitor) (seat_id : Str) :
    (HASH_FIND_STR InputMonitorSeat.seat_id monitor.seats seat_id = none ∧
      (InputMonitor_Remove monitor seat_id).2.1.seats = monitor.seats) ∨
    (∃ found, found ∈ monitor.seats ∧ found.seat_id = seat_id ∧
      (InputMonitor_Remove monitor seat_id).2.1.seats = monitor.seats.erase found) := by
  unfold InputMonitor_Remove
  cases hfind : HASH_FIND_STR InputMonitorSeat.seat_id monitor.seats seat_id with
  | none => exact Or.inl ⟨rfl, rfl⟩
  | some found =>
    obtain ⟨hmem, hkey⟩ := HASH_FIND_STR_some _ _ _ _ hfind
    exact Or.inr ⟨found, hmem, hkey, rfl⟩

theorem TablesAgree_AddSeat (monitor : SeatMonitor EventHandlerData) (seat_id seat_object : Str)
    (h : TablesAgree monitor) : TablesAgree (AddSeat monitor seat_id seat_object) := by
  obtain ⟨hadd, hrem, hnd, hsub⟩ := h
  unfold AddSeat
  cases hfind : HASH_FIND_STR SeatMonitorSeat.id monitor.seats seat_id with
  | some found => exact ⟨hadd, hrem, hnd, hsub⟩
  | none =>
    simp only [hadd, callIfSet, OnAddedSeat, HASH_ADD_STR, StrDup]
    refine ⟨rfl, hrem, ?_, ?_⟩
    · rcases InputMonitor_Add_seats monitor.userdata.input_monitor seat_id
        (monitor.userdata.answers monitor.userdata.asked) with h1 | ⟨hnone, added, hid, h1⟩
      · rw [h1]; exact hnd
      · rw [h1, List.map_append, List.nodup_append]
        refine ⟨hnd, List.nodup_singleton _, ?_⟩
        intro k hk hk'
        simp only [List.map_cons, List.map_nil, List.mem_singleton] at hk'
        obtain ⟨s, hs, hsk⟩ := List.mem_map.1 hk
        rw [HASH_FIND_STR_eq_none] at hnone
        exact hnone s hs (by rw [hsk, hk', hid])
    · intro s hs
      rcases InputMonitor_Add_seats monitor.userdata.input_monitor seat_id
        (monitor.userdata.answers monitor.userdata.asked) with h1 | ⟨_, added, hid, h1⟩
      · rw [h1] at hs
        obtain ⟨seat, hseat, hk⟩ := hsub s hs
        exact ⟨seat, List.mem_append_left _ hseat, hk⟩
      · rw [h1] at hs
        rcases List.mem_append.1 hs with h2 | h2
        · obtain ⟨seat, hseat, hk⟩ := hsub s h2
          exact ⟨seat, List.mem_append_left _ hseat, hk⟩
        · simp only [List.mem_singleton] at h2
          subst h2
          exact ⟨{ id := seat_id, object := seat_object },
            List.mem_append_right _ (List.mem_singleton_self _), hid.symm⟩

theorem TablesAgree_RemoveSeat (monitor : SeatMonitor EventHandlerData) (seat_id : Str)
    (h : TablesAgree monitor) : TablesAgree (RemoveSeat monitor seat_id) := by
  obtain ⟨hadd, hrem, hnd, hsub⟩ := h
  unfold RemoveSeat
  cases hfind : HASH_FIND_STR SeatMonitorSeat.id monitor.seats seat_id with
  | none => exact ⟨hadd, hrem, hnd, hsub⟩
  | some found =>
    obtain ⟨_, hkey⟩ := HASH_FIND_STR_some _ _ _ _ hfind
    simp only [hrem, callIfSet, OnRemovedSeat, HASH_DEL]
    -- an entry of the input table with another id keeps its seat
    have hkeep : ∀ s ∈ monitor.userdata.input_monitor.seats, s.seat_id ≠ found.id →
        ∃ seat ∈ monitor.seats.erase found, seat.id = s.seat_id := by
      intro s hs hne
      obtain ⟨seat, hseat, hk⟩ := hsub s hs
      have hsf : seat ≠ found := fun e => hne (by rw [← hk, e])
      exact ⟨seat, (List.mem_erase_of_ne hsf).2 hseat, hk⟩
    refine ⟨hadd, rfl, ?_, ?_⟩
    · rcases InputMonitor_Remove_seats monitor.userdata.input_monitor found.id with
        ⟨_, h1⟩ | ⟨f, _, _, h1⟩
      · rw [h1]; exact hnd
      · rw [h1]
        exact nodup_erase_keys InputMonitorSeat.seat_id _ f hnd
    · intro s hs
      rcases InputMonitor_Remove_seats monitor.userdata.input_monitor found.id with
        ⟨hnone, h1⟩ | ⟨f, hf, hfk, h1⟩
      · rw [h1] at hs
        rw [HASH_FIND_STR_eq_none] at hnone
        exact hkeep s hs (hnone s hs)
      · rw [h1] at hs
        have hne := mem_erase_key_ne InputMonitorSeat.seat_id _ f hnd hf s hs
        rw [hfk] at hne
        exact hkeep s (List.mem_of_mem_erase hs) hne

theorem TablesAgree_afterSignals (signals : List SeatSignal)
    (monitor : SeatMonitor EventHandlerData) (h : TablesAgree monitor) :
    TablesAgree (afterSignals monitor signals) := by
  induction signals generalizing monitor with
  | nil => exact h
  | cons signal rest ih =>
    apply ih
    unfold OnNewOrRemovedSeat
    cases signal.args with
    | none => exact h
    | some args =>
      obtain ⟨seat_id, seat_object⟩ := args
      simp only
      by_cases hnew : signal.is_new = true
      · rw [if_pos hnew]; exact TablesAgree_AddSeat monitor seat_id seat_object h
      · rw [if_neg hnew]; exact TablesAgree_RemoveSeat monitor seat_id h

/-- C15: after any sequence of `SeatNew` and `SeatRemoved` signals handled by
`OnNewOrRemovedSeat`, starting from the daemon as `Run` sets it up (no seats,
`OnAddedSeat` and `OnRemovedSeat` installed) and whatever libinput and sd-event
answer, the input monitor's table holds no seat id twice, and every seat id in
it is found in the seat monitor's table. -/
theorem input_seats_within_seat_monitor (answers : Nat → InputEnv) (signals : List SeatSignal) :
    ((afterSignals (initialDaemon answers) signals).userdata.input_monitor.seats.map
      InputMonitorSeat.seat_id).Nodup ∧
    ∀ s ∈ (afterSignals (initialDaemon answers) signals).userdata.input_monitor.seats,
      ∃ seat, SeatMonitor_FindSeat (afterSignals (initialDaemon answers) signals) s.seat_id =
        some seat := by
  have hinit : TablesAgree (initialDaemon answers) :=
    ⟨rfl, rfl, List.nodup_nil, fun s hs => by cases hs⟩
  obtain ⟨_, _, hnd, hsub⟩ := TablesAgree_afterSignals signals _ hinit
  refine ⟨hnd, ?_⟩
  intro s hs
  obtain ⟨seat, hseat, hk⟩ := hsub s hs
  unfold SeatMonitor_FindSeat
  cases hfind : HASH_FIND_STR SeatMonitorSeat.id
      (afterSignals (initialDaemon answers) signals).seats s.seat_id with
  | some found => exact ⟨found, rfl⟩
  | none =>
    rw [HASH_FIND_STR_eq_none] at hfind
    exact absurd hk (hfind seat hseat)

/-! ## Theorems: pucro.c -/

theorem strncmp_eq_zero_iff (s p : Str) : strncmp s p (strlen p) = 0 ↔ p <+: s := by
  unfold strlen
  induction p generalizing s with
  | nil => simp [strncmp]
  | cons b p ih =>
    cases s with
    | nil =>
      have hb := b.pos
      simp only [List.length_cons, strncmp]
      constructor
      · intro h; omega
      · intro h; simp at h
    | cons a s =>
      simp only [List.length_cons, strncmp]
      by_cases hab : a = b
      · subst hab
        simp only [sub_self, if_true]
        rw [ih s]
        constructor
        · intro h; exact (List.cons_prefix_cons).2 ⟨rfl, h⟩
        · intro h; exact ((List.cons_prefix_cons).1 h).2
      · have hne : (a.val : Int) - (b.val : Int) ≠ 0 := by
          intro h
          apply hab
          apply PNat.eq
          omega
        rw [if_neg hne]
        constructor
        · intro h; exact absurd h hne
        · intro h; exact absurd ((List.cons_prefix_cons).1 h).1.symm hab

theorem LookupRuleAndDispatch_without_BTN (handler_data : SeatMonitor EventHandlerData)
    (get_user : SeatMonitorSeat → Option Str) (config : Config) (env : DispatchEnv)
    (seat_id button_name : Str) (h : ¬ kButtonNamePrefix <+: button_name) :
    LookupRuleAndDispatch handler_data get_user config env seat_id button_name = ([], none) := by
  unfold LookupRuleAndDispatch
  have : strncmp button_name kButtonNamePrefix (strlen kButtonNamePrefix) ≠ 0 :=
    fun e => h ((strncmp_eq_zero_iff _ _).1 e)
  rw [if_pos this]

/-- The five ways through `LookupRuleAndDispatch` when the name has the
prefix. -/
theorem LookupRuleAndDispatch_prefix_cases (handler_data : SeatMonitor EventHandlerData)
    (get_user : SeatMonitorSeat → Option Str) (config : Config) (env : DispatchEnv)
    (seat_id button_name : Str) (h : kButtonNamePrefix <+: button_name) :
    (SeatMonitor_FindSeat handler_data seat_id = none ∧
      LookupRuleAndDispatch handler_data get_user config env seat_id button_name =
        ([OrchCall.SeatMonitor_FindSeat seat_id], none)) ∨
    (∃ seat, SeatMonitor_FindSeat handler_data seat_id = some seat ∧ get_user seat = none ∧
      LookupRuleAndDispatch handler_data get_user config env seat_id button_name =
        ([OrchCall.SeatMonitor_FindSeat seat_id, OrchCall.SeatMonitor_GetUser seat], none)) ∨
    (∃ seat user, SeatMonitor_FindSeat handler_data seat_id = some seat ∧
      get_user seat = some user ∧
      Config_FindMatchingRule config user (button_name.drop 4) = none ∧
      LookupRuleAndDispatch handler_data get_user config env seat_id button_name =
        ([OrchCall.SeatMonitor_FindSeat seat_id, OrchCall.SeatMonitor_GetUser seat,
          OrchCall.Config_FindMatchingRule user (button_name.drop 4)], none)) ∨
    (∃ seat user rule, SeatMonitor_FindSeat handler_data seat_id = some seat ∧
      get_user seat = some user ∧
      Config_FindMatchingRule config user (button_name.drop 4) = some rule ∧
      LookupRuleAndDispatch handler_data get_user config env seat_id button_name =
        ([OrchCall.SeatMonitor_FindSeat seat_id, OrchCall.SeatMonitor_GetUser seat,
          OrchCall.Config_FindMatchingRule user (button_name.drop 4),
          OrchCall.Dispatcher_RunAsUser rule.action user],
         some (Dispatcher_RunAsUser handler_data.userdata.dispatcher rule.action user env))) := by
  have h0 : ¬ (strncmp button_name kButtonNamePrefix (strlen kButtonNamePrefix) ≠ 0) := by
    intro e; exact e ((strncmp_eq_zero_iff _ _).2 h)
  have hlen : strlen kButtonNamePrefix = 4 := by decide
  unfold LookupRuleAndDispatch
  rw [if_neg h0, hlen]
  simp only
  cases hseat : SeatMonitor_FindSeat handler_data seat_id with
  | none => exact Or.inl ⟨rfl, rfl⟩
  | some seat =>
    right
    cases huser : get_user seat with
    | none => exact Or.inl ⟨seat, rfl, huser, by simp only [huser]⟩
    | some user =>
      right
      cases hrule : Config_FindMatchingRule config user (List.drop 4 button_name) with
      | none => exact Or.inl ⟨seat, user, rfl, huser, hrule, by simp only [huser, hrule]⟩
      | some rule => exact Or.inr ⟨seat, user, rule, rfl, huser, hrule, by simp only [huser, hrule]⟩

/-- C12: `LookupRuleAndDispatch` calls `Dispatcher_RunAsUser` at most once.  It
calls it with a command and a user exactly when the raw button name starts
with `BTN_`, the seat id is in the seat monitor's table, `SeatMonitor_GetUser`
gives that user for the seat, and `Config_FindMatchingRule` finds, for that
user and the name without its first four characters, a rule whose action is
that command; the call is made on the daemon's dispatcher.  In particular,
with the single rule of buttons LEFT, users alice and action `notify-send hi`,
and `seat0` known and resolving to alice, a press of `BTN_LEFT` on `seat0`
dispatches `notify-send hi` as alice and a press of `BTN_RIGHT` dispatches
nothing. -/
theorem LookupRuleAndDispatch_dispatches (handler_data : SeatMonitor EventHandlerData)
    (get_user : SeatMonitorSeat → Option Str) (config : Config) (env : DispatchEnv)
    (seat_id button_name : Str) :
    ((LookupRuleAndDispatch handler_data get_user config env seat_id button_name).1.filter
      isDispatch).length ≤ 1 ∧
    (∀ command user,
      OrchCall.Dispatcher_RunAsUser command user ∈
        (LookupRuleAndDispatch handler_data get_user config env seat_id button_name).1 ↔
      kButtonNamePrefix <+: button_name ∧
        ∃ seat rule, SeatMonitor_FindSeat handler_data seat_id = some seat ∧
          get_user seat = some user ∧
          Config_FindMatchingRule config user (button_name.drop 4) = some rule ∧
          command = rule.action) ∧
    (∀ command user,
      OrchCall.Dispatcher_RunAsUser command user ∈
        (LookupRuleAndDispatch handler_data get_user config env seat_id button_name).1 →
      (LookupRuleAndDispatch handler_data get_user config env seat_id button_name).2 =
        some (Dispatcher_RunAsUser handler_data.userdata.dispatcher command user env)) ∧
    (∀ seat, SeatMonitor_FindSeat handler_data (str "seat0") = some seat →
      get_user seat = some (str "alice") →
      (LookupRuleAndDispatch handler_data get_user { rules := [exampleRule1] } env
        (str "seat0") (str "BTN_LEFT")).1.filter isDispatch =
        [OrchCall.Dispatcher_RunAsUser (str "notify-send hi") (str "alice")] ∧
      (LookupRuleAndDispatch handler_data get_user { rules := [exampleRule1] } env
        (str "seat0") (str "BTN_RIGHT")).1.filter isDispatch = []) := by
  have hgeneral : ((LookupRuleAndDispatch handler_data get_user config env seat_id
        button_name).1.filter isDispatch).length ≤ 1 ∧
      (∀ command user,
        OrchCall.Dispatcher_RunAsUser command user ∈
          (LookupRuleAndDispatch handler_data get_user config env seat_id button_name).1 ↔
        kButtonNamePrefix <+: button_name ∧
          ∃ seat rule, SeatMonitor_FindSeat handler_data seat_id = some seat ∧
            get_user seat = some user ∧
            Config_FindMatchingRule config user (button_name.drop 4) = some rule ∧
            command = rule.action) ∧
      (∀ command user,
        OrchCall.Dispatcher_RunAsUser command user ∈
          (LookupRuleAndDispatch handler_data get_user config env seat_id button_name).1 →
        (LookupRuleAndDispatch handler_data get_user config env seat_id button_name).2 =
          some (Dispatcher_RunAsUser handler_data.userdata.dispatcher command user env)) := by
    by_cases hpre : kButtonNamePrefix <+: button_name
    · rcases LookupRuleAndDispatch_prefix_cases handler_data get_user config env seat_id
        button_name hpre with ⟨hs, h⟩ | ⟨seat, hs, hu, h⟩ | ⟨seat, user, hs, hu, hr, h⟩ |
        ⟨seat, user, rule, hs, hu, hr, h⟩
      · rw [h]
        refine ⟨by simp [isDispatch], ?_, ?_⟩
        · intro command user'
          constructor
          · intro hm; simp at hm
          · rintro ⟨_, seat', rule', hs', _⟩
            rw [hs] at hs'
            cases hs'
        · intro command user' hm
          simp at hm
      · rw [h]
        refine ⟨by simp [isDispatch], ?_, ?_⟩
        · intro command user'
          constructor
          · intro hm; simp at hm
          · rintro ⟨_, seat', rule', hs', hu', _⟩
            rw [hs] at hs'
            cases hs'
            rw [hu] at hu'
            cases hu'
        · intro command user' hm
          simp at hm
      · rw [h]
        refine ⟨by simp [isDispatch], ?_, ?_⟩
        · intro command user'
          constructor
          · intro hm; simp at hm
          · rintro ⟨_, seat', rule', hs', hu', hr', _⟩
            rw [hs] at hs'
            cases hs'
            rw [hu] at hu'
            cases hu'
            rw [hr] at hr'
            cases hr'
        · intro command user' hm
          simp at hm
      · rw [h]
        refine ⟨by simp [isDispatch], ?_, ?_⟩
        · intro command user'
          constructor
          · intro hm
            simp only [List.mem_cons, List.mem_singleton, OrchCall.Dispatcher_RunAsUser.injEq,
              List.not_mem_nil, or_false, false_or, reduceCtorEq] at hm
            obtain ⟨hc, hu'⟩ := hm
            subst hu'
            exact ⟨hpre, seat, rule, hs, hu, hr, hc⟩
          · rintro ⟨_, seat', rule', hs', hu', hr', hc⟩
            rw [hs] at hs'
            cases hs'
            rw [hu] at hu'
            cases hu'
            rw [hr] at hr'
            cases hr'
            rw [hc]
            simp
        · intro command user' hm
          simp only [List.mem_cons, List.mem_singleton, OrchCall.Dispatcher_RunAsUser.injEq,
            List.not_mem_nil, or_false, false_or, reduceCtorEq] at hm
          obtain ⟨hc, hu'⟩ := hm
          rw [hc, hu']
    · rw [LookupRuleAndDispatch_without_BTN handler_data get_user config env seat_id button_name
        hpre]
      refine ⟨by simp, ?_, ?_⟩
      · intro command user'
        constructor
        · intro hm; simp at hm
        · rintro ⟨h, _⟩; exact absurd h hpre
      · intro command user' hm
        simp at hm
  refine ⟨hgeneral.1, hgeneral.2.1, hgeneral.2.2, ?_⟩
  intro seat hs hu
  constructor
  · rcases LookupRuleAndDispatch_prefix_cases handler_data get_user { rules := [exampleRule1] }
      env (str "seat0") (str "BTN_LEFT") (by decide) with
      ⟨hs', _⟩ | ⟨seat', hs', hu', _⟩ | ⟨seat', user, hs', hu', hr, _⟩ |
      ⟨seat', user, rule, hs', hu', hr, h⟩
    · rw [hs] at hs'; cases hs'
    · rw [hs] at hs'; cases hs'
      rw [hu] at hu'; cases hu'
    · rw [hs] at hs'; cases hs'
      rw [hu] at hu'; cases hu'
      have : Config_FindMatchingRule { rules := [exampleRule1] } (str "alice")
          (List.drop 4 (str "BTN_LEFT")) = some exampleRule1 := by decide
      rw [this] at hr
      cases hr
    · rw [hs] at hs'; cases hs'
      rw [hu] at hu'; cases hu'
      have : Config_FindMatchingRule { rules := [exampleRule1] } (str "alice")
          (List.drop 4 (str "BTN_LEFT")) = some exampleRule1 := by decide
      rw [this] at hr
      cases hr
      rw [h]
      simp only [List.filter, isDispatch]
      rfl
  · rcases LookupRuleAndDispatch_prefix_cases handler_data get_user { rules := [exampleRule1] }
      env (str "seat0") (str "BTN_RIGHT") (by decide) with
      ⟨_, h⟩ | ⟨seat', _, _, h⟩ | ⟨seat', user, _, _, _, h⟩ |
      ⟨seat', user, rule, hs', hu', hr, _⟩
    · rw [h]; rfl
    · rw [h]; rfl
    · rw [h]; rfl
    · rw [hs] at hs'; cases hs'
      rw [hu] at hu'; cases hu'
      have : Config_FindMatchingRule { rules := [exampleRule1] } (str "alice")
          (List.drop 4 (str "BTN_RIGHT")) = none := by decide
      rw [this] at hr
      cases hr

/-- C12, at the example: `seat0` is known and resolves to alice, the rule list
is the single rule of the scenario. -/
theorem LookupRuleAndDispatch_dispatches_witness :
    (LookupRuleAndDispatch exampleDaemon exampleGetUser { rules := [exampleRule1] }
        (forkOk 101) (str "seat0") (str "BTN_LEFT")).1.filter isDispatch =
        [OrchCall.Dispatcher_RunAsUser (str "notify-send hi") (str "alice")] ∧
      (LookupRuleAndDispatch exampleDaemon exampleGetUser { rules := [exampleRule1] }
        (forkOk 101) (str "seat0") (str "BTN_RIGHT")).1.filter isDispatch = [] :=
  (LookupRuleAndDispatch_dispatches exampleDaemon exampleGetUser { rules := [] } (forkOk 101)
    (str "seat0") (str "BTN_LEFT")).2.2.2
    { id := str "seat0", object := str "/org/freedesktop/login1/seat/seat0" } (by decide) rfl

/-- C16: when the raw button name does not start with the four characters
`BTN_` (compared as they are, so `btn_LEFT` does not), `LookupRuleAndDispatch`
makes no call at all: no seat lookup, no user resolution, no rule lookup, no
dispatch.  When it does, the raw name is `BTN_` followed by the name without
its first four characters, every rule lookup that is made asks for that
shortened name, and the rule lookup is made as soon as the seat is known and
its user resolves.  For `BTN_LEFT` the shortened name is `LEFT`. -/
theorem LookupRuleAndDispatch_strips_BTN (handler_data : SeatMonitor EventHandlerData)
    (get_user : SeatMonitorSeat → Option Str) (config : Config) (env : DispatchEnv)
    (seat_id button_name : Str) :
    (¬ kButtonNamePrefix <+: button_name →
      LookupRuleAndDispatch handler_data get_user config env seat_id button_name = ([], none)) ∧
    (kButtonNamePrefix <+: button_name →
      button_name = str "BTN_" ++ button_name.drop 4 ∧
      (∀ user button,
        OrchCall.Config_FindMatchingRule user button ∈
          (LookupRuleAndDispatch handler_data get_user config env seat_id button_name).1 →
        button = button_name.drop 4) ∧
      (∀ seat user, SeatMonitor_FindSeat handler_data seat_id = some seat →
        get_user seat = some user →
        OrchCall.Config_FindMatchingRule user (button_name.drop 4) ∈
          (LookupRuleAndDispatch handler_data get_user config env seat_id button_name).1)) ∧
    (str "BTN_LEFT").drop 4 = str "LEFT" ∧
    ¬ kButtonNamePrefix <+: str "btn_LEFT" ∧ ¬ kButtonNamePrefix <+: str "BTN" := by
  refine ⟨LookupRuleAndDispatch_without_BTN handler_data get_user config env seat_id button_name,
    ?_, by decide, by decide, by decide⟩
  intro hpre
  refine ⟨?_, ?_, ?_⟩
  · obtain ⟨t, ht⟩ := hpre
    have hk : kButtonNamePrefix = str "BTN_" := rfl
    rw [← ht, hk]
    have hlen : (str "BTN_").length = 4 := by decide
    rw [← hlen, List.drop_left]
  · intro user button hm
    rcases LookupRuleAndDispatch_prefix_cases handler_data get_user config env seat_id
      button_name hpre with ⟨_, h⟩ | ⟨seat, _, _, h⟩ | ⟨seat, user', _, _, _, h⟩ |
      ⟨seat, user', rule, _, _, _, h⟩
    · rw [h] at hm; simp at hm
    · rw [h] at hm; simp at hm
    · rw [h] at hm
      simp only [List.mem_cons, List.mem_singleton, OrchCall.Config_FindMatchingRule.injEq,
        List.not_mem_nil, or_false, false_or, reduceCtorEq] at hm
      exact hm.2
    · rw [h] at hm
      simp only [List.mem_cons, List.mem_singleton, OrchCall.Config_FindMatchingRule.injEq,
        List.not_mem_nil, or_false, false_or, reduceCtorEq] at hm
      exact hm.2
  · intro seat user hs hu
    rcases LookupRuleAndDispatch_prefix_cases handler_data get_user config env seat_id
      button_name hpre with ⟨hs', _⟩ | ⟨seat', hs', hu', _⟩ | ⟨seat', user', hs', hu', _, h⟩ |
      ⟨seat', user', rule, hs', hu', _, h⟩
    · rw [hs] at hs'; cases hs'
    · rw [hs] at hs'; cases hs'
      rw [hu] at hu'; cases hu'
    · rw [hs] at hs'; cases hs'
      rw [hu] at hu'; cases hu'
      rw [h]; simp
    · rw [hs] at hs'; cases hs'
      rw [hu] at hu'; cases hu'
      rw [h]; simp

/-- C16, at examples: `btn_LEFT` is dropped without a call; for `BTN_LEFT` on
the known `seat0` the rule lookup asks for `LEFT`. -/
theorem LookupRuleAndDispatch_strips_BTN_witness :
    LookupRuleAndDispatch exampleDaemon exampleGetUser { rules := [exampleRule1] } (forkOk 101)
        (str "seat0") (str "btn_LEFT") = ([], none) ∧
      OrchCall.Config_FindMatchingRule (str "alice") (str "LEFT") ∈
        (LookupRuleAndDispatch exampleDaemon exampleGetUser { rules := [exampleRule1] }
          (forkOk 101) (str "seat0") (str "BTN_LEFT")).1 :=
  ⟨(LookupRuleAndDispatch_strips_BTN exampleDaemon exampleGetUser { rules := [exampleRule1] }
      (forkOk 101) (str "seat0") (str "btn_LEFT")).1 (by decide),
   ((LookupRuleAndDispatch_strips_BTN exampleDaemon exampleGetUser { rules := [exampleRule1] }
      (forkOk 101) (str "seat0") (str "BTN_LEFT")).2.1 (by decide)).2.2
      { id := str "seat0", object := str "/org/freedesktop/login1/seat/seat0" } (str "alice")
      (by decide) rfl⟩

/-- C13: `OnInputEvent`.  For an event that is not a pointer-button event, and
for a pointer-button event whose state is not pressed, it returns without any
call: `LookupRuleAndDispatch` is not entered, so there is no user resolution,
no rule lookup and no dispatch.  For a pressed pointer-button event it calls
`LookupRuleAndDispatch` with the seat id and the name libevdev gives the button
code, and does what that call does.  So whenever the handler returns,
`LookupRuleAndDispatch` was entered exactly when the event is a pressed
pointer-button event. -/
theorem OnInputEvent_pressed_only (handler_data : SeatMonitor EventHandlerData)
    (get_user : SeatMonitorSeat → Option Str) (config : Config) (env : DispatchEnv)
    (code_get_name : Nat → Option Str) (seat_id : Str) (event : libinput_event) :
    ((event.type ≠ libinput_event_type.LIBINPUT_EVENT_POINTER_BUTTON ∨
        event.state ≠ libinput_button_state.LIBINPUT_BUTTON_STATE_PRESSED) →
      OnInputEvent handler_data get_user config env code_get_name seat_id event =
        some ([], none)) ∧
    (event.type = libinput_event_type.LIBINPUT_EVENT_POINTER_BUTTON →
      event.state = libinput_button_state.LIBINPUT_BUTTON_STATE_PRESSED →
      ∀ button_name, code_get_name event.button = some button_name →
        OnInputEvent handler_data get_user config env code_get_name seat_id event =
          some (OrchCall.LookupRuleAndDispatch seat_id button_name ::
            (LookupRuleAndDispatch handler_data get_user config env seat_id button_name).1,
            (LookupRuleAndDispatch handler_data get_user config env seat_id button_name).2)) ∧
    (∀ calls dispatched,
      OnInputEvent handler_data get_user config env code_get_name seat_id event =
        some (calls, dispatched) →
      ((∃ button_name, OrchCall.LookupRuleAndDispatch seat_id button_name ∈ calls) ↔
        (event.type = libinput_event_type.LIBINPUT_EVENT_POINTER_BUTTON ∧
          event.state = libinput_button_state.LIBINPUT_BUTTON_STATE_PRESSED))) := by
  have hoff : (event.type ≠ libinput_event_type.LIBINPUT_EVENT_POINTER_BUTTON ∨
        event.state ≠ libinput_button_state.LIBINPUT_BUTTON_STATE_PRESSED) →
      OnInputEvent handler_data get_user config env code_get_name seat_id event =
        some ([], none) := by
    intro h
    unfold OnInputEvent
    by_cases ht : event.type ≠ libinput_event_type.LIBINPUT_EVENT_POINTER_BUTTON
    · rw [if_pos ht]
    · rw [if_neg ht]
      rcases h with h | h
      · exact absurd h ht
      · simp [h]
  have hon : event.type = libinput_event_type.LIBINPUT_EVENT_POINTER_BUTTON →
      event.state = libinput_button_state.LIBINPUT_BUTTON_STATE_PRESSED →
      ∀ button_name, code_get_name event.button = some button_name →
        OnInputEvent handler_data get_user config env code_get_name seat_id event =
          some (OrchCall.LookupRuleAndDispatch seat_id button_name ::
            (LookupRuleAndDispatch handler_data get_user config env seat_id button_name).1,
            (LookupRuleAndDispatch handler_data get_user config env seat_id button_name).2) := by
    intro ht hs button_name hname
    unfold OnInputEvent
    simp [ht, hs, hname]
  refine ⟨hoff, hon, ?_⟩
  intro calls dispatched hret
  constructor
  · rintro ⟨button_name, hm⟩
    by_contra hnot
    have hor : event.type ≠ libinput_event_type.LIBINPUT_EVENT_POINTER_BUTTON ∨
        event.state ≠ libinput_button_state.LIBINPUT_BUTTON_STATE_PRESSED := by
      by_cases ht : event.type = libinput_event_type.LIBINPUT_EVENT_POINTER_BUTTON
      · right
        intro hs
        exact hnot ⟨ht, hs⟩
      · exact Or.inl ht
    rw [hoff hor] at hret
    simp only [Option.some.injEq, Prod.mk.injEq] at hret
    rw [← hret.1] at hm
    cases hm
  · rintro ⟨ht, hs⟩
    cases hname : code_get_name event.button with
    | none =>
      unfold OnInputEvent at hret
      simp [ht, hs, hname] at hret
    | some button_name =>
      rw [hon ht hs button_name hname] at hret
      simp only [Option.some.injEq, Prod.mk.injEq] at hret
      exact ⟨button_name, by rw [← hret.1]; exact List.mem_cons_self _ _⟩

/-- C13, at examples: a released `BTN_LEFT` and a keyboard event cause no call;
a pressed `BTN_LEFT` (code 272) on `seat0` enters `LookupRuleAndDispatch`. -/
theorem OnInputEvent_pressed_only_witness :
    OnInputEvent exampleDaemon exampleGetUser { rules := [exampleRule1] } (forkOk 101)
        exampleCodeName (str "seat0")
        { type := libinput_event_type.LIBINPUT_EVENT_POINTER_BUTTON, button := 272,
          state := libinput_button_state.LIBINPUT_BUTTON_STATE_RELEASED } = some ([], none) ∧
      OnInputEvent exampleDaemon exampleGetUser { rules := [exampleRule1] } (forkOk 101)
        exampleCodeName (str "seat0")
        { type := libinput_event_type.other 300, button := 272,
          state := libinput_button_state.LIBINPUT_BUTTON_STATE_PRESSED } = some ([], none) ∧
      (OnInputEvent exampleDaemon exampleGetUser { rules := [exampleRule1] } (forkOk 101)
        exampleCodeName (str "seat0")
        { type := libinput_event_type.LIBINPUT_EVENT_POINTER_BUTTON, button := 272,
          state := libinput_button_state.LIBINPUT_BUTTON_STATE_PRESSED }).map
        (fun r => r.1.head?) =
        some (some (OrchCall.LookupRuleAndDispatch (str "seat0") (str "BTN_LEFT"))) :=
  ⟨(OnInputEvent_pressed_only exampleDaemon exampleGetUser { rules := [exampleRule1] } (forkOk 101)
      exampleCodeName (str "seat0")
      { type := libinput_event_type.LIBINPUT_EVENT_POINTER_BUTTON, button := 272,
        state := libinput_button_state.LIBINPUT_BUTTON_STATE_RELEASED }).1
      (Or.inr (by decide)),
   (OnInputEvent_pressed_only exampleDaemon exampleGetUser { rules := [exampleRule1] } (forkOk 101)
      exampleCodeName (str "seat0")
      { type := libinput_event_type.other 300, button := 272,
        state := libinput_button_state.LIBINPUT_BUTTON_STATE_PRESSED }).1
      (Or.inl (by decide)),
   by
    rw [(OnInputEvent_pressed_only exampleDaemon exampleGetUser { rules := [exampleRule1] }
      (forkOk 101) exampleCodeName (str "seat0")
      { type := libinput_event_type.LIBINPUT_EVENT_POINTER_BUTTON, button := 272,
        state := libinput_button_state.LIBINPUT_BUTTON_STATE_PRESSED }).2.1 rfl rfl
      (str "BTN_LEFT") (by decide)]
    rfl⟩

end Pucro
